import Mathlib

/-!
Verification of the tournament Monte Carlo simulator and ensemble combiner of
`src/superhuman/models.py` (classes `MonteCarloSimulator` and
`EnsemblePredictor`), against the repository specification.

Modelling conventions, chosen once and used throughout:

* Python floats that only ever hold finite decimal data (points, projected
  points, probabilities obtained as counts divided by the trial number,
  classifier outputs) are modelled as rationals `ℚ`; the one genuinely
  transcendental computation, `np.exp` inside the closed-form series model,
  is modelled exactly with `Real.exp`, so the series-model functions live in
  `ℝ` and are `noncomputable`.
* `np.random.normal` and `np.random.random()` draws are oracles supplied as
  explicit inputs: `noise : ℕ → String → ℚ` gives the value returned by the
  normal draw for a (trial, team) pair, and `u : ℕ → ℝ` is the stream of
  uniform draws, consumed sequentially by threading an index through the
  simulation exactly as the single global NumPy generator is.
* Python `dict` / `defaultdict` objects are modelled as insertion-ordered
  association lists (`List (κ × α)`) with an upsert operation, matching
  Python 3.7+ ordered-dict semantics; `dict.get(k, d)` becomes
  `(l.lookup k).getD d`.
* `list.sort(key=...)` / `sorted(...)` are stable sorts; any two stable
  sorts with the same comparator agree, so they are modelled with
  `List.insertionSort` on the corresponding reflexive total relation.
* Python `while` loops become structural recursions with enough fuel; the
  best-of-seven loop can run at most 7 iterations, so fuel 8 is exact.
-/

/-- Mirror of the fields of `data_models.TeamSeason` that the simulator and
ensemble read: team code, division label, points, games played, season.
`points` is an `int` in the source; it is embedded into `ℚ` because it is
compared against float-valued noisy projections. -/
structure TeamSeason where
  team : String
  division : String
  points : ℚ
  gamesPlayed : ℕ
  season : ℕ
deriving DecidableEq

/-- Placeholder `TeamSeason` used as the default of `List.getD` at positions
that the source indexes only after having checked the length. -/
def dummyTeam : TeamSeason := ⟨"", "", 0, 0, 0⟩

/-- `sim_pts.get(t.team, t.points)`: the noisy projected points of a team,
defaulting to the team's stored points.  The `sim_pts is None` call sites of
`_seed_conference` are recovered by passing `fun _ => none`. -/
def ptsW (simPts : String → Option ℚ) (t : TeamSeason) : ℚ :=
  (simPts t.team).getD t.points

/-- `t.division or get_team_division(t.team)`: the empty string is falsy in
Python, so it falls back to the config lookup `getDiv` (the `CONFERENCES`
table is external configuration, supplied as a function). -/
def divisionOf (getDiv : String → String) (t : TeamSeason) : String :=
  if t.division = "" then getDiv t.team else t.division

/-- Append `x` to the group keyed `k`, creating the group at the end if it is
absent: one `defaultdict(list)` append step, preserving insertion order. -/
def addToGroup (k : String) (x : α) : List (String × List α) → List (String × List α)
  | [] => [(k, [x])]
  | (k2, xs) :: rest =>
    if k2 = k then (k2, xs ++ [x]) :: rest else (k2, xs) :: addToGroup k x rest

/-- `divisions = defaultdict(list); for t in l: divisions[key t].append(t)`. -/
def groupByKey (key : α → String) (l : List α) : List (String × List α) :=
  l.foldl (fun acc t => addToGroup (key t) t acc) []

/-- Relation for `sort(key=lambda t: -pts(t))`: `a` may come before `b` when
`pts b ≤ pts a` (descending by points). -/
def ptsGe (simPts : String → Option ℚ) (a b : TeamSeason) : Prop :=
  ptsW simPts b ≤ ptsW simPts a

instance (simPts : String → Option ℚ) : DecidableRel (ptsGe simPts) :=
  fun a b => inferInstanceAs (Decidable (ptsW simPts b ≤ ptsW simPts a))

instance (simPts : String → Option ℚ) : IsTotal TeamSeason (ptsGe simPts) :=
  ⟨fun a b => le_total (ptsW simPts b) (ptsW simPts a)⟩

instance (simPts : String → Option ℚ) : IsTrans TeamSeason (ptsGe simPts) :=
  ⟨fun _ _ _ h1 h2 => le_trans h2 h1⟩

/-- Stable descending-by-points sort, modelling `lst.sort(key=lambda t: -pts(t))`. -/
def sortByPtsDesc (simPts : String → Option ℚ) (l : List TeamSeason) : List TeamSeason :=
  l.insertionSort (ptsGe simPts)

/-- `MonteCarloSimulator._select_playoff_teams`: group a conference by
division, sort each division by (noisy) points, take the top 3 of each
division, then the best 2 of everyone left as wildcards. -/
def selectPlayoffTeams (getDiv : String → String) (confTeams : List TeamSeason)
    (simPts : String → Option ℚ) : List TeamSeason :=
  let divisions := (groupByKey (divisionOf getDiv) confTeams).map
    (fun g => (g.1, sortByPtsDesc simPts g.2))
  let qualified := (divisions.map (fun g => g.2.take 3)).flatten
  let remaining := (divisions.map (fun g => g.2.drop 3)).flatten
  qualified ++ (sortByPtsDesc simPts remaining).take 2

/-- `MonteCarloSimulator._seed_conference_simple`: fallback 1v8, 2v7, 3v6,
4v5 seeding by points, padding with `"BYE"` up to 8 entries. -/
def seedConferenceSimple (playoffTeams : List TeamSeason)
    (simPts : String → Option ℚ) : List (String × String) :=
  let codes := (sortByPtsDesc simPts playoffTeams).map TeamSeason.team
  let padded := codes ++ List.replicate (8 - codes.length) "BYE"
  [(padded.getD 0 "BYE", padded.getD 7 "BYE"),
   (padded.getD 1 "BYE", padded.getD 6 "BYE"),
   (padded.getD 2 "BYE", padded.getD 5 "BYE"),
   (padded.getD 3 "BYE", padded.getD 4 "BYE")]

/-- `MonteCarloSimulator._seed_conference`: real NHL seeding of 8 playoff
teams into 4 round-1 matchups (division winners are seeds 1 and 2; seed 1
plays the weaker wildcard, seed 2 the stronger; each division's 2nd plays
its 3rd), falling back to `seedConferenceSimple` whenever the division data
is malformed, exactly at the source's three checks. -/
def seedConference (getDiv : String → String) (playoffTeams : List TeamSeason)
    (simPts : String → Option ℚ) : List (String × String) :=
  let divisions := (groupByKey (divisionOf getDiv) playoffTeams).map
    (fun g => (g.1, sortByPtsDesc simPts g.2))
  let divNames := (divisions.map Prod.fst).insertionSort (fun a b => a ≤ b)
  if divNames.length ≠ 2 then seedConferenceSimple playoffTeams simPts
  else
    let divA := (divisions.lookup (divNames.getD 0 "")).getD []
    let divB := (divisions.lookup (divNames.getD 1 "")).getD []
    match divA.head?, divB.head? with
    | some divAWinner, some divBWinner =>
      let divADivisional := divA.take 3
      let divBDivisional := divB.take 3
      let wildcardSet := (playoffTeams.map TeamSeason.team).filter
        (fun c => c ∉ divADivisional.map TeamSeason.team ∧
                  c ∉ divBDivisional.map TeamSeason.team)
      let wildcards := sortByPtsDesc simPts
        (playoffTeams.filter (fun t => t.team ∈ wildcardSet))
      if divADivisional.length < 3 ∨ divBDivisional.length < 3 ∨
          wildcards.length < 2 then
        seedConferenceSimple playoffTeams simPts
      else
        let seeds :=
          if ptsW simPts divBWinner ≤ ptsW simPts divAWinner then
            (divAWinner, divNames.getD 0 "", divBWinner, divNames.getD 1 "")
          else
            (divBWinner, divNames.getD 1 "", divAWinner, divNames.getD 0 "")
        let wc1 := wildcards.getD 0 dummyTeam
        let wc2 := wildcards.getD 1 dummyTeam
        let s1Div := ((divisions.lookup seeds.2.1).getD []).filter
          (fun t => t.team ≠ seeds.1.team ∧ t.team ∉ wildcardSet)
        let s2Div := ((divisions.lookup seeds.2.2.2).getD []).filter
          (fun t => t.team ≠ seeds.2.2.1.team ∧ t.team ∉ wildcardSet)
        if s1Div.length < 2 ∨ s2Div.length < 2 then
          seedConferenceSimple playoffTeams simPts
        else
          [(seeds.1.team, wc2.team),
           ((s1Div.getD 0 dummyTeam).team, (s1Div.getD 1 dummyTeam).team),
           (seeds.2.2.1.team, wc1.team),
           ((s2Div.getD 0 dummyTeam).team, (s2Div.getD 1 dummyTeam).team)]
    | _, _ => seedConferenceSimple playoffTeams simPts

/-- `MonteCarloSimulator.round_base_rates` with the `.get(round_num, 0.55)`
default: empirical higher-seed series win rate per round. -/
noncomputable def roundBaseRate (roundNum : ℕ) : ℝ :=
  if roundNum = 1 then 59 / 100
  else if roundNum = 2 then 53 / 100
  else if roundNum = 3 then 50 / 100
  else if roundNum = 4 then 53 / 100
  else 55 / 100

/-- The closed-form series-level win probability for `team_a` of
`_simulate_series`: logistic in the strength difference with slope `0.03`,
blended 70/30 toward the round base rate. -/
noncomputable def probA (strengthA strengthB : ℝ) (roundNum : ℕ) : ℝ :=
  (1 / (1 + Real.exp (-(3 / 100) * (strengthA - strengthB)))) * (7 / 10) +
    roundBaseRate roundNum * (3 / 10)

/-- `home_pattern[game]` for the fixed list `[T, T, F, F, T, F, T]`; the
source would raise `IndexError` past game 6, which is unreachable, and the
embedding returns the `getD` default there. -/
def homePattern (g : ℕ) : Bool :=
  [true, true, false, false, true, false, true].getD g false

/-- `np.clip(x, lo, hi)`. -/
noncomputable def npClip (x lo hi : ℝ) : ℝ := min (max x lo) hi

/-- The per-game win probability of `_simulate_series`: series-level
probability plus the home/away adjustment, clipped into `[0.15, 0.85]`. -/
noncomputable def gameProb (p : ℝ) (g : ℕ) : ℝ :=
  npClip (p + (if homePattern g then 4 / 100 else -(2 / 100))) (15 / 100) (85 / 100)

/-- The `while wins_a < 4 and wins_b < 4` loop of `_simulate_series`, with
the game outcome abstracted into `win : ℕ → Bool` (game index `g = a + b`,
`win g = true` when team a wins game `g`).  Fuel 8 is exact: the loop runs
at most 7 iterations. -/
def gameLoop (win : ℕ → Bool) : ℕ → ℕ → ℕ → ℕ × ℕ
  | 0, a, b => (a, b)
  | fuel + 1, a, b =>
    if 4 ≤ a ∨ 4 ≤ b then (a, b)
    else if win (a + b) then gameLoop win fuel (a + 1) b
    else gameLoop win fuel a (b + 1)

/-- Game `g` of a series started at position `start` of the uniform draw
stream `u`: team a wins when `u < game_prob`. -/
noncomputable def winDraw (u : ℕ → ℝ) (start : ℕ) (p : ℝ) (g : ℕ) : Bool :=
  decide (u (start + g) < gameProb p g)

/-- `MonteCarloSimulator._simulate_series` on its closed-form path (the
embedded configuration has `use_enhanced_model = False`; the enhanced branch
delegates to an external trained estimator and falls back to this code on
any failure).  Returns the winner together with the next unused position of
the draw stream.  The experience arguments of the source are unused on this
path and omitted. -/
noncomputable def simulateSeries (u : ℕ → ℝ) (start : ℕ) (teamA teamB : String)
    (strengthA strengthB : ℝ) (roundNum : ℕ) : String × ℕ :=
  let p := probA strengthA strengthB roundNum
  let res := gameLoop (winDraw u start p) 8 0 0
  (if res.1 = 4 then teamA else teamB, start + res.1 + res.2)

/-- The exact probability that team a wins the best-of-seven game process of
`_simulate_series` from the state `a` wins / `b` wins, under independent
uniform draws: each game `g = a + b` is won with probability
`gameProb p g`.  This is the distribution-level semantics of `gameLoop`
with `winDraw`; fuel 8 is exact from `(0, 0)`. -/
noncomputable def seriesWinProb (p : ℝ) : ℕ → ℕ → ℕ → ℝ
  | 0, _, _ => 0
  | fuel + 1, a, b =>
    if 4 ≤ a then 1
    else if 4 ≤ b then 0
    else gameProb p (a + b) * seriesWinProb p fuel (a + 1) b +
      (1 - gameProb p (a + b)) * seriesWinProb p fuel a (b + 1)

/-- Rational evaluation twin of `seriesWinProb` for an arbitrary per-game
probability function `q`; used to evaluate the series probability at
rational endpoints where the clip of `gameProb` is inactive. -/
def seriesWinProbQ (q : ℕ → ℚ) : ℕ → ℕ → ℕ → ℚ
  | 0, _, _ => 0
  | fuel + 1, a, b =>
    if 4 ≤ a then 1
    else if 4 ≤ b then 0
    else q (a + b) * seriesWinProbQ q fuel (a + 1) b +
      (1 - q (a + b)) * seriesWinProbQ q fuel a (b + 1)

/-- Rational per-game probability `p` plus the home/away adjustment (the
unclipped per-game formula). -/
def gameProbQ (p : ℚ) (g : ℕ) : ℚ :=
  p + (if homePattern g then 4 / 100 else -(2 / 100))

/-- Dict upsert: apply `f` to the value at `k`, inserting `f init` at the end
when `k` is absent.  This is the single primitive behind `defaultdict`
updates and `dict[k] = v` assignments, keeping Python's insertion order. -/
def bumpBy [DecidableEq κ] (d : List (κ × α)) (k : κ) (f : α → α) (init : α) :
    List (κ × α) :=
  match d with
  | [] => [(k, f init)]
  | (k2, v) :: rest =>
    if k2 = k then (k2, f v) :: rest else (k2, v) :: bumpBy rest k f init

/-- `defaultdict(int); d[k] += 1`. -/
def bumpCount [DecidableEq κ] (d : List (κ × ℕ)) (k : κ) : List (κ × ℕ) :=
  bumpBy d k (· + 1) 0

/-- `d[k] = v` on a plain dict. -/
def setKey [DecidableEq κ] (d : List (κ × α)) (k : κ) (v : α) : List (κ × α) :=
  bumpBy d k (fun _ => v) v

/-- `d.get(k, dflt)`. -/
def lookupD [BEq κ] (d : List (κ × α)) (k : κ) (dflt : α) : α :=
  (d.lookup k).getD dflt

/-- `tuple(sorted([a, b]))` on two strings. -/
def sortPairStr (m : String × String) : String × String :=
  if m.1 ≤ m.2 then (m.1, m.2) else (m.2, m.1)

/-- Mirror of `data_models.ConferenceTrace`; the always-assigned
`conf_final_matchup` keeps its falsy `()` default as `none`. -/
structure ConfTrace where
  r1Matchups : List (String × String)
  r1Winners : List String
  r2Matchups : List (String × String)
  r2Winners : List String
  confFinalMatchup : Option (String × String)
  confChampion : String

/-- Round 1 of `_simulate_conference`: walk the matchups in order, a `"BYE"`
opponent advances the higher seed without consuming draws, otherwise play a
round-1 series; returns the winners in order and the next draw position. -/
noncomputable def runRound1 (u : ℕ → ℝ) (strengths : String → Option ℝ) :
    ℕ → List (String × String) → List String × ℕ
  | start, [] => ([], start)
  | start, m :: ms =>
    if m.2 = "BYE" then
      let rest := runRound1 u strengths start ms
      (m.1 :: rest.1, rest.2)
    else
      let res := simulateSeries u start m.1 m.2
        ((strengths m.1).getD 50) ((strengths m.2).getD 50) 1
      let rest := runRound1 u strengths res.2 ms
      (res.1 :: rest.1, rest.2)

/-- `MonteCarloSimulator._simulate_conference`: seed the conference, play
round 1 over the four matchups, round 2 within each sub-bracket
(`r1_winners[0]` v `r1_winners[1]`, `r1_winners[2]` v `r1_winners[3]`), then
the conference final between the two round-2 winners. -/
noncomputable def simulateConference (getDiv : String → String) (u : ℕ → ℝ)
    (start : ℕ) (playoffTeams : List TeamSeason) (strengths : String → Option ℝ)
    (simPts : String → Option ℚ) : ConfTrace × ℕ :=
  let matchups := seedConference getDiv playoffTeams simPts
  let r1 := runRound1 u strengths start matchups
  let w0 := r1.1.getD 0 ""
  let w1 := r1.1.getD 1 ""
  let w2 := r1.1.getD 2 ""
  let w3 := r1.1.getD 3 ""
  let s1 := simulateSeries u r1.2 w0 w1 ((strengths w0).getD 50) ((strengths w1).getD 50) 2
  let s2 := simulateSeries u s1.2 w2 w3 ((strengths w2).getD 50) ((strengths w3).getD 50) 2
  let cf := simulateSeries u s2.2 s1.1 s2.1
    ((strengths s1.1).getD 50) ((strengths s2.1).getD 50) 3
  (⟨matchups, r1.1, [(w0, w1), (w2, w3)], [s1.1, s2.1], some (s1.1, s2.1), cf.1⟩, cf.2)

/-- The mutable aggregation state of `MonteCarloSimulator.simulate`: all the
counters of lines 451-462 plus the position reached in the shared uniform
draw stream.  `round_adv` is a `defaultdict` of `defaultdict(int)`. -/
structure SimState where
  cupWins : List (String × ℕ)
  roundAdv : List (String × List (ℕ × ℕ))
  cupFinalCounts : List (String × ℕ)
  matchupCounts : List ((String × String × String) × ℕ)
  matchupWins : List ((String × String × String) × ℕ)
  r2Tracker : List ((String × String × String) × (ℕ × ℕ))
  cfTracker : List ((String × String × String) × (ℕ × ℕ))
  cupFinalTracker : List ((String × String) × (ℕ × ℕ))
  uIdx : ℕ

/-- The empty counters at the start of `simulate`. -/
def initState : SimState := ⟨[], [], [], [], [], [], [], [], 0⟩

/-- `round_adv[team][r] += 1`. -/
def bumpAdv (d : List (String × List (ℕ × ℕ))) (team : String) (r : ℕ) :
    List (String × List (ℕ × ℕ)) :=
  bumpBy d team (fun inner => bumpCount inner r) []

/-- `round_adv[team][r]` as read by the result-building phase. -/
def advCount (st : SimState) (team : String) (r : ℕ) : ℕ :=
  lookupD (lookupD st.roundAdv team []) r 0

/-- The per-conference recording block of `simulate` (lines 507-542): round
advancement from the trace, round-1 matchup counts and higher-seed wins,
round-2 matchup tracking (with the source's inner loop over all round-2
winners), and the conference-final matchup tracking. -/
def recordConf (conf : String) (trace : ConfTrace) (st : SimState) : SimState :=
  let ra1 := trace.r1Winners.foldl (fun d team => bumpAdv d team 1) st.roundAdv
  let ra2 := trace.r2Winners.foldl (fun d team => bumpAdv d team 2) ra1
  let ra3 := bumpAdv ra2 trace.confChampion 3
  let mcmw := trace.r1Matchups.foldl
    (fun (acc : List ((String × String × String) × ℕ) × List ((String × String × String) × ℕ)) m =>
      let key := (m.1, m.2, conf)
      (bumpCount acc.1 key,
       if m.1 ∈ trace.r1Winners then bumpCount acc.2 key else acc.2))
    (st.matchupCounts, st.matchupWins)
  let r2t := trace.r2Matchups.foldl
    (fun d m =>
      let pr := sortPairStr m
      let key := (pr.1, pr.2, conf)
      let d2 := bumpBy d key (fun v => (v.1 + 1, v.2)) (0, 0)
      trace.r2Winners.foldl
        (fun d3 w =>
          if w = m.1 ∨ w = m.2 then
            if w = pr.1 then bumpBy d3 key (fun v => (v.1, v.2 + 1)) (0, 0) else d3
          else d3)
        d2)
    st.r2Tracker
  let cft :=
    match trace.confFinalMatchup with
    | none => st.cfTracker
    | some m =>
      let pr := sortPairStr m
      let key := (pr.1, pr.2, conf)
      let d2 := bumpBy st.cfTracker key (fun v => (v.1 + 1, v.2)) (0, 0)
      if trace.confChampion = pr.1 then
        bumpBy d2 key (fun v => (v.1, v.2 + 1)) (0, 0)
      else d2
  { st with roundAdv := ra3, matchupCounts := mcmw.1, matchupWins := mcmw.2,
            r2Tracker := r2t, cfTracker := cft }

/-- `GAMES_IN_SEASON` from `config.py`. -/
def gamesInSeason : ℕ := 82

/-- Remaining games, `max(0, GAMES_IN_SEASON - games_played)` (all games
when none have been played, matching the `else` branch of `simulate`). -/
def remainingGames (t : TeamSeason) : ℕ :=
  if 0 < t.gamesPlayed then gamesInSeason - t.gamesPlayed else gamesInSeason

/-- Pace-projected end-of-season points (lines 474-484): current points plus
points-per-game pace times remaining games, `0.0` for a team with no games. -/
def projectedPts (t : TeamSeason) : ℚ :=
  if 0 < t.gamesPlayed then
    t.points + (t.points / t.gamesPlayed) * remainingGames t
  else 0

/-- Inputs of one `MonteCarloSimulator.simulate` call: configuration lookups
(the `CONFERENCES` / `get_team_division` tables), the team list, the
strength-score dict, the randomness oracles and the trial count.
Experience scores are unused by the embedded closed-form series path. -/
structure MCConfig where
  getDiv : String → String
  getConf : String → String
  teams : List TeamSeason
  strengths : String → Option ℝ
  noise : ℕ → String → ℚ
  u : ℕ → ℝ
  nSims : ℕ

/-- One iteration of the `for _ in range(self.n_sims)` loop of `simulate`:
noisy projected points, playoff selection for both conferences, both
conference simulations, recording, and the cup final. -/
noncomputable def runTrial (cfg : MCConfig) (st : SimState) (i : ℕ) : SimState :=
  let simPtsList := cfg.teams.foldl
    (fun d t => setKey d t.team (projectedPts t + cfg.noise i t.team)) []
  let simPts := fun c => simPtsList.lookup c
  let east := cfg.teams.filter (fun t => cfg.getConf t.team = "East")
  let west := cfg.teams.filter (fun t => cfg.getConf t.team = "West")
  let eastPlayoff := selectPlayoffTeams cfg.getDiv east simPts
  let westPlayoff := selectPlayoffTeams cfg.getDiv west simPts
  let eastRes := simulateConference cfg.getDiv cfg.u st.uIdx eastPlayoff cfg.strengths simPts
  let westRes := simulateConference cfg.getDiv cfg.u eastRes.2 westPlayoff cfg.strengths simPts
  let st1 := recordConf "East" eastRes.1 st
  let st2 := recordConf "West" westRes.1 st1
  let eastChamp := eastRes.1.confChampion
  let westChamp := westRes.1.confChampion
  let cfc := bumpCount (bumpCount st2.cupFinalCounts eastChamp) westChamp
  let ra := bumpAdv (bumpAdv st2.roundAdv eastChamp 4) westChamp 4
  let cup := simulateSeries cfg.u westRes.2 eastChamp westChamp
    ((cfg.strengths eastChamp).getD 50) ((cfg.strengths westChamp).getD 50) 4
  let cw := bumpCount st2.cupWins cup.1
  let pr := sortPairStr (eastChamp, westChamp)
  let cft1 := bumpBy st2.cupFinalTracker pr (fun v => (v.1 + 1, v.2)) (0, 0)
  let cft2 :=
    if cup.1 = pr.1 then bumpBy cft1 pr (fun v => (v.1, v.2 + 1)) (0, 0) else cft1
  { st2 with cupWins := cw, roundAdv := ra, cupFinalCounts := cfc,
             cupFinalTracker := cft2, uIdx := cup.2 }

/-- The counter state after all `n_sims` trials of `simulate`. -/
noncomputable def mcFinalState (cfg : MCConfig) : SimState :=
  (List.range cfg.nSims).foldl (runTrial cfg) initState

/-- Python 3 `round(x, 3)` rounds half to even; modelled exactly on `ℚ`
(the binary-float representation slack is immaterial: no theorem below
inspects a rounded value). -/
def roundHalfEven (q : ℚ) : ℤ :=
  let f := ⌊q⌋
  let r := q - f
  if r < 1 / 2 then f
  else if 1 / 2 < r then f + 1
  else if 2 ∣ f then f else f + 1

/-- `round(x, 3)`. -/
def round3 (q : ℚ) : ℚ := (roundHalfEven (q * 1000) : ℚ) / 1000

/-- The two-valued `{"East": ..., "West": ...}` dicts of `simulate`'s
result-building phase. -/
structure ConfSplit (α : Type) where
  east : α
  west : α
deriving DecidableEq

/-- The advancement-probability row `round_advancement[team]`: rounds 1-4
and `"cup"`. -/
structure RoundProbs where
  r1 : ℚ
  r2 : ℚ
  r3 : ℚ
  r4 : ℚ
  cup : ℚ
deriving DecidableEq

/-- Mirror of `data_models.MonteCarloResult`. -/
structure MonteCarloResult where
  cupProbabilities : List (String × ℚ)
  roundAdvancement : List (String × RoundProbs)
  projectedMatchups : ConfSplit (List (String × String × ℚ))
  confFinalAppearanceProbs : List (String × ℚ)
  cupFinalProbs : List (String × ℚ)
  r2Matchups : ConfSplit (List (String × String × ℚ × ℚ))
  confFinalMatchups : ConfSplit (List (String × String × ℚ × ℚ))
  cupFinalMatchups : List (String × String × ℚ × ℚ)
  projectedStandings : List (String × ℚ)

/-- Lines 589-596 of `simulate`: consolidate round-1 matchup counts over
alphabetically ordered pairs (noise can swap higher/lower between trials),
returning `pair_counts` and `pair_a_wins` (wins of the alphabetically first
team). -/
def consolidatePairs (mCounts mWins : List ((String × String × String) × ℕ)) :
    List ((String × String × String) × ℕ) × List ((String × String × String) × ℕ) :=
  mCounts.foldl
    (fun acc kv =>
      let higher := kv.1.1
      let lower := kv.1.2.1
      let conf := kv.1.2.2
      let pr := sortPairStr (higher, lower)
      let key := (pr.1, pr.2, conf)
      let wins := lookupD mWins kv.1 0
      (bumpBy acc.1 key (· + kv.2) 0,
       bumpBy acc.2 key (· + (if higher = pr.1 then wins else kv.2 - wins)) 0))
    ([], [])

/-- One step of the greedy projected-bracket loop (lines 599-611): skip when
the conference already shows 4 matchups or either team was already seen;
otherwise append the pair, more likely winner first. -/
def greedyStep (pairAWins : List ((String × String × String) × ℕ))
    (acc : ConfSplit (List (String × String × ℚ)) × ConfSplit (List String))
    (kv : (String × String × String) × ℕ) :
    ConfSplit (List (String × String × ℚ)) × ConfSplit (List String) :=
  let a := kv.1.1
  let b := kv.1.2.1
  let conf := kv.1.2.2
  let proj := if conf = "East" then acc.1.east else acc.1.west
  let seen := if conf = "East" then acc.2.east else acc.2.west
  if 4 ≤ proj.length then acc
  else if a ∈ seen ∨ b ∈ seen then acc
  else
    let aWinProb : ℚ := (lookupD pairAWins kv.1 0 : ℕ) / (kv.2 : ℚ)
    let entry :=
      if 1 / 2 ≤ aWinProb then (a, b, round3 aWinProb)
      else (b, a, round3 (1 - aWinProb))
    let proj2 := proj ++ [entry]
    let seen2 := seen ++ [a, b]
    if conf = "East" then (⟨proj2, acc.1.west⟩, ⟨seen2, acc.2.west⟩)
    else (⟨acc.1.east, proj2⟩, ⟨acc.2.east, seen2⟩)

/-- Entries of the round-2 / conference-final / cup-final breakdown lists:
`(a, b, a_win_prob, freq)`, both rounded to 3 decimals. -/
def trackerEntry (n : ℚ) (key : String × String) (v : ℕ × ℕ) :
    String × String × ℚ × ℚ :=
  (key.1, key.2, round3 ((v.2 : ℚ) / (v.1 : ℚ)), round3 ((v.1 : ℚ) / n))

/-- One fold step of the breakdown-list builder (lines 623-635): keep the
entry when its count meets the threshold, appending it to its conference's
list (the keys are only ever `"East"` or `"West"`, so the dead final branch
skips). -/
def trackerStep (n minCount : ℚ)
    (acc : ConfSplit (List (String × String × ℚ × ℚ)))
    (kv : (String × String × String) × (ℕ × ℕ)) :
    ConfSplit (List (String × String × ℚ × ℚ)) :=
  if minCount ≤ (kv.2.1 : ℚ) then
    if kv.1.2.2 = "East" then
      ⟨acc.east ++ [trackerEntry n (kv.1.1, kv.1.2.1) kv.2], acc.west⟩
    else if kv.1.2.2 = "West" then
      ⟨acc.east, acc.west ++ [trackerEntry n (kv.1.1, kv.1.2.1) kv.2]⟩
    else acc
  else acc

/-- Filtered, frequency-sorted breakdown list for one tracker keyed by
conference (lines 623-635): most frequent first, split by conference. -/
def trackerResult (n minCount : ℚ)
    (tracker : List ((String × String × String) × (ℕ × ℕ))) :
    ConfSplit (List (String × String × ℚ × ℚ)) :=
  (tracker.insertionSort (fun x y => y.2.1 ≤ x.2.1)).foldl
    (trackerStep n minCount) ⟨[], []⟩

/-- One step of the cup-final matchup list fold of `simulate`
(lines 645-652): keep pairings whose count meets the 1% threshold. -/
def cupFinalStep (n cupMinCount : ℚ)
    (acc : List (String × String × ℚ × ℚ))
    (kv : (String × String) × (ℕ × ℕ)) : List (String × String × ℚ × ℚ) :=
  if cupMinCount ≤ (kv.2.1 : ℚ) then acc ++ [trackerEntry n kv.1 kv.2]
  else acc

/-- Lines 570-655 of `simulate`: convert the final counters into the
`MonteCarloResult`, including the consolidated greedy projected round-1
bracket and the thresholded breakdown lists. -/
def buildResult (st : SimState) (teams : List TeamSeason) (nSims : ℕ) :
    MonteCarloResult :=
  let n : ℚ := nSims
  let cupProbs := st.cupWins.map (fun kv => (kv.1, (kv.2 : ℚ) / n))
  let allTeamCodes := teams.map TeamSeason.team
  let roundAdvancement := allTeamCodes.map (fun t =>
    (t, ⟨(advCount st t 1 : ℚ) / n, (advCount st t 2 : ℚ) / n,
         (advCount st t 3 : ℚ) / n, (advCount st t 4 : ℚ) / n,
         lookupD cupProbs t 0⟩))
  let pairs := consolidatePairs st.matchupCounts st.matchupWins
  let greedy := (pairs.1.insertionSort (fun x y => y.2 ≤ x.2)).foldl
    (greedyStep pairs.2) (⟨[], []⟩, ⟨[], []⟩)
  let confFinalAppearance := allTeamCodes.map (fun t =>
    (t, (advCount st t 2 : ℚ) / n))
  let cupFinalProbs := st.cupFinalCounts.map (fun kv => (kv.1, (kv.2 : ℚ) / n))
  let minCount : ℚ := n * (5 / 100)
  let cupMinCount : ℚ := n * (1 / 100)
  let cupFinalMatchups :=
    (st.cupFinalTracker.insertionSort (fun x y => y.2.1 ≤ x.2.1)).foldl
      (cupFinalStep n cupMinCount) []
  { cupProbabilities := cupProbs
    roundAdvancement := roundAdvancement
    projectedMatchups := greedy.1
    confFinalAppearanceProbs := confFinalAppearance
    cupFinalProbs := cupFinalProbs
    r2Matchups := trackerResult n minCount st.r2Tracker
    confFinalMatchups := trackerResult n minCount st.cfTracker
    cupFinalMatchups := cupFinalMatchups
    projectedStandings := teams.foldl (fun d t => setKey d t.team (projectedPts t)) [] }

/-- `MonteCarloSimulator.simulate`: run all trials, then build the result. -/
noncomputable def simulate (cfg : MCConfig) : MonteCarloResult :=
  buildResult (mcFinalState cfg) cfg.teams cfg.nSims

/-- Mirror of `data_models.PredictionResult` (the fields `predict` writes). -/
structure PredictionResult where
  team : String
  season : ℕ
  compositeStrength : ℚ
  strengthRank : ℕ
  playoffProbability : ℚ
  conferenceFinalProbability : ℚ
  cupFinalProbability : ℚ
  cupWinProbability : ℚ
  cupProbLower : ℚ
  cupProbUpper : ℚ
  tier : String
deriving DecidableEq

/-- `EnsemblePredictor._classify_tier_percentile`: rank of the team's
strength in the descending-sorted list of all strengths via `list.index`
(first index of the value, so tied strengths share the rank of their first
occurrence); top 4 Elite, next 8 Contender, next 8 Bubble, rest Longshot.
`List.indexOf` returns the length when the value is absent, which call
sites never do (the strength is always a member). -/
def classifyTierPercentile (strength : ℚ) (allStrengths : List ℚ) : String :=
  let sortedStrengths := allStrengths.insertionSort (fun a b => b ≤ a)
  let rank := sortedStrengths.indexOf strength + 1
  if rank ≤ 4 then "Elite"
  else if rank ≤ 12 then "Contender"
  else if rank ≤ 20 then "Bubble"
  else "Longshot"

/-- The first loop of `EnsemblePredictor.predict` (lines 1069-1091): per
team, blend the gradient-boosting, neural and Monte Carlo cup estimates
(30/30/40, or 40/60 without the neural network), gate by
`min(1, playoff_prob + 0.1)`, and store into the `raw_cup_probs` dict.
The per-team classifier outputs are the parallel lists `playoffProbs`,
`gbProbs` and `nnProbs` (the sub-models are external to the core). -/
def buildRawCupProbs : List TeamSeason → List ℚ → List ℚ → List ℚ →
    List (String × ℚ) → Bool → List (String × ℚ) → List (String × ℚ)
  | t :: ts, pp :: pps, gb :: gbs, nn :: nns, mcProbs, useNN, acc =>
    let mcProb := lookupD mcProbs t.team 0
    let ensembleProb :=
      if useNN then (30 / 100) * gb + (30 / 100) * nn + (40 / 100) * mcProb
      else (4 / 10) * gb + (6 / 10) * mcProb
    let gatedProb := ensembleProb * min 1 (pp + 1 / 10)
    buildRawCupProbs ts pps gbs nns mcProbs useNN (setKey acc t.team gatedProb)
  | _, _, _, _, _, _, acc => acc

/-- Lines 1093-1100 of `predict`: normalize the gated cup probabilities to
sum to 1, falling back to a uniform `1/32` per stored team when the total
mass is not positive. -/
def normalizeCupProbs (raw : List (String × ℚ)) : List (String × ℚ) :=
  let total := (raw.map Prod.snd).sum
  if 0 < total then raw.map (fun kv => (kv.1, kv.2 / total))
  else raw.map (fun kv => (kv.1, 1 / 32))

/-- Lines 1103-1130 of `predict`: build one `PredictionResult` per team from
the normalized probabilities, the Monte Carlo result and the strength dict.
The scipy Beta-quantile confidence interval is an external numeric routine,
supplied as the oracle `ciFn`. -/
def buildResults (teams : List TeamSeason) (playoffProbs : List ℚ)
    (normalized : List (String × ℚ)) (mc : MonteCarloResult)
    (strengths : List (String × ℚ)) (strengthValues : List ℚ)
    (ciFn : ℚ → ℚ × ℚ) : List PredictionResult :=
  (teams.zip playoffProbs).map (fun r =>
    let cupProb := lookupD normalized r.1.team 0
    let ci := ciFn cupProb
    let strength := lookupD strengths r.1.team 0
    { team := r.1.team
      season := r.1.season
      compositeStrength := strength
      strengthRank := 0
      playoffProbability := r.2
      conferenceFinalProbability := lookupD mc.confFinalAppearanceProbs r.1.team 0
      cupFinalProbability := lookupD mc.cupFinalProbs r.1.team 0
      cupWinProbability := cupProb
      cupProbLower := ci.1
      cupProbUpper := ci.2
      tier := classifyTierPercentile strength strengthValues })

instance : IsTotal PredictionResult (fun a b => b.compositeStrength ≤ a.compositeStrength) :=
  ⟨fun a b => le_total b.compositeStrength a.compositeStrength⟩

instance : IsTrans PredictionResult (fun a b => b.compositeStrength ≤ a.compositeStrength) :=
  ⟨fun _ _ _ h1 h2 => le_trans h2 h1⟩

/-- Lines 1133-1136 of `predict`: sort by descending composite strength
(stable) and assign `strength_rank = 1..N` in list order. -/
def rankResults (results : List PredictionResult) : List PredictionResult :=
  let sortedRes := results.insertionSort
    (fun a b => b.compositeStrength ≤ a.compositeStrength)
  (sortedRes.zip (List.range sortedRes.length)).map
    (fun p => { p.1 with strengthRank := p.2 + 1 })

/-- `EnsemblePredictor.predict` from line 1068 on: the ensemble blend, the
gate, the normalization, the per-team results and the final ranking.  The
upstream stages (feature engineering, the sklearn classifiers, and the
embedded `simulate` call) produce the parameters: `playoffProbs`, `gbProbs`,
`nnProbs` are the classifier outputs per team, `mc` the Monte Carlo result,
`strengths` the composite strength dict (in team order), `useNN` the
`use_neural_network` flag and `ciFn` the scipy Beta-interval oracle. -/
def predict (teams : List TeamSeason) (playoffProbs gbProbs nnProbs : List ℚ)
    (mc : MonteCarloResult) (strengths : List (String × ℚ)) (useNN : Bool)
    (ciFn : ℚ → ℚ × ℚ) : List PredictionResult :=
  let rawCupProbs := buildRawCupProbs teams playoffProbs gbProbs nnProbs
    mc.cupProbabilities useNN []
  let normalized := normalizeCupProbs rawCupProbs
  let strengthValues := strengths.map Prod.snd
  rankResults (buildResults teams playoffProbs normalized mc strengths
    strengthValues ciFn)

/-- Computable twin of `runRound1` for the constant draw stream
`u = fun _ => 2`: since every per-game probability is clipped to at most
`0.85 < 2`, team b wins every game, so each non-BYE series ends `(b, +4)`.
Used only to evaluate concrete scenarios; the agreement with `runRound1` is
proved, not assumed. -/
def runRound1Loser : ℕ → List (String × String) → List String × ℕ
  | start, [] => ([], start)
  | start, m :: ms =>
    if m.2 = "BYE" then
      let rest := runRound1Loser start ms
      (m.1 :: rest.1, rest.2)
    else
      let rest := runRound1Loser (start + 4) ms
      (m.2 :: rest.1, rest.2)

/-- Computable twin of `simulateConference` for `u = fun _ => 2`. -/
def simulateConferenceLoser (getDiv : String → String) (start : ℕ)
    (playoffTeams : List TeamSeason) (simPts : String → Option ℚ) :
    ConfTrace × ℕ :=
  let matchups := seedConference getDiv playoffTeams simPts
  let r1 := runRound1Loser start matchups
  let w0 := r1.1.getD 0 ""
  let w1 := r1.1.getD 1 ""
  let w2 := r1.1.getD 2 ""
  let w3 := r1.1.getD 3 ""
  (⟨matchups, r1.1, [(w0, w1), (w2, w3)], [w1, w3], some (w1, w3), w3⟩, r1.2 + 12)

/-- Computable twin of `runTrial` for `u = fun _ => 2`. -/
def runTrialLoser (getDiv getConf : String → String) (teams : List TeamSeason)
    (noise : ℕ → String → ℚ) (st : SimState) (i : ℕ) : SimState :=
  let simPtsList := teams.foldl
    (fun d t => setKey d t.team (projectedPts t + noise i t.team)) []
  let simPts := fun c => simPtsList.lookup c
  let east := teams.filter (fun t => getConf t.team = "East")
  let west := teams.filter (fun t => getConf t.team = "West")
  let eastPlayoff := selectPlayoffTeams getDiv east simPts
  let westPlayoff := selectPlayoffTeams getDiv west simPts
  let eastRes := simulateConferenceLoser getDiv st.uIdx eastPlayoff simPts
  let westRes := simulateConferenceLoser getDiv eastRes.2 westPlayoff simPts
  let st1 := recordConf "East" eastRes.1 st
  let st2 := recordConf "West" westRes.1 st1
  let eastChamp := eastRes.1.confChampion
  let westChamp := westRes.1.confChampion
  let cfc := bumpCount (bumpCount st2.cupFinalCounts eastChamp) westChamp
  let ra := bumpAdv (bumpAdv st2.roundAdv eastChamp 4) westChamp 4
  let cw := bumpCount st2.cupWins westChamp
  let pr := sortPairStr (eastChamp, westChamp)
  let cft1 := bumpBy st2.cupFinalTracker pr (fun v => (v.1 + 1, v.2)) (0, 0)
  let cft2 :=
    if westChamp = pr.1 then bumpBy cft1 pr (fun v => (v.1, v.2 + 1)) (0, 0) else cft1
  { st2 with cupWins := cw, roundAdv := ra, cupFinalCounts := cfc,
             cupFinalTracker := cft2, uIdx := westRes.2 + 4 }

/-- Computable twin of `mcFinalState` for `u = fun _ => 2`. -/
def mcFinalStateLoser (getDiv getConf : String → String) (teams : List TeamSeason)
    (noise : ℕ → String → ℚ) (nSims : ℕ) : SimState :=
  (List.range nSims).foldl (runTrialLoser getDiv getConf teams noise) initState

/-- Sum of the values of a probability dict. -/
def assocValsSum (l : List (String × ℚ)) : ℚ := (l.map Prod.snd).sum

/-- `pair_counts` of the result-building phase, from the final counters. -/
def pairCountsOf (st : SimState) : List ((String × String × String) × ℕ) :=
  (consolidatePairs st.matchupCounts st.matchupWins).1

/-- `pair_a_wins` of the result-building phase. -/
def pairAWinsOf (st : SimState) : List ((String × String × String) × ℕ) :=
  (consolidatePairs st.matchupCounts st.matchupWins).2

/-- The alphabetical `pair_counts` key of a displayed round-1 matchup entry. -/
def pairKeyOf (conf : String) (e : String × String × ℚ) :
    String × String × String :=
  let pr := sortPairStr (e.1, e.2.1)
  (pr.1, pr.2, conf)

/-- The `round_advancement` row of a team in a Monte Carlo result. -/
def advRow (res : MonteCarloResult) (team : String) : RoundProbs :=
  lookupD res.roundAdvancement team ⟨0, 0, 0, 0, 0⟩

/-- An 8-team one-conference league used by the concrete scenarios: two
divisions (`DivA` with 3 teams, `DivM` with 5), every team has 0 points
after 81 of 82 games, so each trial's projected points are exactly the
noise-oracle values. -/
def scenarioTeams : List TeamSeason :=
  [⟨"A1", "DivA", 0, 81, 0⟩, ⟨"A2", "DivA", 0, 81, 0⟩, ⟨"A3", "DivA", 0, 81, 0⟩,
   ⟨"M1", "DivM", 0, 81, 0⟩, ⟨"M2", "DivM", 0, 81, 0⟩, ⟨"M3", "DivM", 0, 81, 0⟩,
   ⟨"M4", "DivM", 0, 81, 0⟩, ⟨"M5", "DivM", 0, 81, 0⟩]

/-- Noise oracle realizing three different seeding outcomes over trials
0, 1, 2: `DivM`'s 2nd/3rd places and wildcards rotate among `M3 M4 M5`. -/
def scenarioNoise (i : ℕ) (c : String) : ℚ :=
  if c = "A1" then 200
  else if c = "A2" then 190
  else if c = "A3" then 180
  else if c = "M1" then 150
  else if c = "M2" then 100
  else if c = "M3" then (if i = 0 then 90 else 80)
  else if c = "M4" then (if i = 0 then 80 else if i = 1 then 90 else 70)
  else if c = "M5" then (if i = 2 then 90 else 70)
  else 0

/-- Three-trial Monte Carlo scenario whose projected bracket must display a
matchup that occurred in only one of the three trials.  The draw stream is
constantly 2, so the second-listed team of every series wins in four games.
All teams sit in the `"East"` conference (the `_get_conference` default). -/
noncomputable def scenarioA : MCConfig :=
  { getDiv := fun _ => "Unknown"
    getConf := fun _ => "East"
    teams := scenarioTeams
    strengths := fun _ => none
    noise := scenarioNoise
    u := fun _ => 2
    nSims := 3 }

/-- One-trial variant of `scenarioA`, used to witness the amended claim
about thresholds and display rules of the matchup lists. -/
noncomputable def scenarioW : MCConfig :=
  { getDiv := fun _ => "Unknown"
    getConf := fun _ => "East"
    teams := scenarioTeams
    strengths := fun _ => none
    noise := scenarioNoise
    u := fun _ => 2
    nSims := 1 }

/-- Monte Carlo result fed to the concrete `predict` calls: only the cup
probabilities matter (`0.1` for `T1`, `0.5` for `T2`). -/
def mcForPredict : MonteCarloResult :=
  { cupProbabilities := [("T1", 1 / 10), ("T2", 1 / 2)]
    roundAdvancement := []
    projectedMatchups := ⟨[], []⟩
    confFinalAppearanceProbs := []
    cupFinalProbs := []
    r2Matchups := ⟨[], []⟩
    confFinalMatchups := ⟨[], []⟩
    cupFinalMatchups := []
    projectedStandings := [] }

/-- Two teams for the concrete `predict` calls: `T1` is stronger, `T2` has
the larger cup probability. -/
def predictTeams : List TeamSeason :=
  [⟨"T1", "", 0, 0, 0⟩, ⟨"T2", "", 0, 0, 0⟩]

/-- A 32-value composite-strength list with a five-way tie at the top. -/
def tiedStrengths : List ℚ :=
  [60, 60, 60, 60, 60, 55, 54, 53, 52, 51, 50, 49, 48, 47, 46, 45, 44, 43,
   42, 41, 40, 39, 38, 37, 36, 35, 34, 33, 32, 31, 30, 29]

/-- The per-trial noisy projected-points lookup built at the top of each
`simulate` loop iteration (named so the trial's sub-results can be spoken
about individually). -/
def trialSimPts (cfg : MCConfig) (i : ℕ) : String → Option ℚ :=
  fun c => (cfg.teams.foldl
    (fun d t => setKey d t.team (projectedPts t + cfg.noise i t.team)) []).lookup c

/-- The eastern-conference simulation performed inside one trial. -/
noncomputable def trialEast (cfg : MCConfig) (st : SimState) (i : ℕ) :
    ConfTrace × ℕ :=
  simulateConference cfg.getDiv cfg.u st.uIdx
    (selectPlayoffTeams cfg.getDiv
      (cfg.teams.filter (fun t => cfg.getConf t.team = "East")) (trialSimPts cfg i))
    cfg.strengths (trialSimPts cfg i)

/-- The western-conference simulation performed inside one trial. -/
noncomputable def trialWest (cfg : MCConfig) (st : SimState) (i : ℕ) :
    ConfTrace × ℕ :=
  simulateConference cfg.getDiv cfg.u (trialEast cfg st i).2
    (selectPlayoffTeams cfg.getDiv
      (cfg.teams.filter (fun t => cfg.getConf t.team = "West")) (trialSimPts cfg i))
    cfg.strengths (trialSimPts cfg i)

/-- The cup-final series of one trial, between the two conference champions. -/
noncomputable def trialCup (cfg : MCConfig) (st : SimState) (i : ℕ) :
    String × ℕ :=
  simulateSeries cfg.u (trialWest cfg st i).2
    (trialEast cfg st i).1.confChampion (trialWest cfg st i).1.confChampion
    ((cfg.strengths (trialEast cfg st i).1.confChampion).getD 50)
    ((cfg.strengths (trialWest cfg st i).1.confChampion).getD 50) 4

/-- An eight-team conference spread over three divisions, exercising the
malformed-division fallback. -/
def c8Teams : List TeamSeason :=
  [⟨"T1", "D1", 90, 82, 0⟩, ⟨"T2", "D1", 80, 82, 0⟩, ⟨"T3", "D1", 70, 82, 0⟩,
   ⟨"T4", "D2", 88, 82, 0⟩, ⟨"T5", "D2", 78, 82, 0⟩, ⟨"T6", "D2", 68, 82, 0⟩,
   ⟨"T7", "D3", 86, 82, 0⟩, ⟨"T8", "D3", 76, 82, 0⟩]


/-- A two-division, eight-team conference exercising the real seeding
path. -/
def c1Teams : List TeamSeason :=
  [⟨"A1", "DivA", 100, 82, 0⟩, ⟨"A2", "DivA", 90, 82, 0⟩,
   ⟨"A3", "DivA", 80, 82, 0⟩, ⟨"A4", "DivA", 20, 82, 0⟩,
   ⟨"B1", "DivB", 95, 82, 0⟩, ⟨"B2", "DivB", 85, 82, 0⟩,
   ⟨"B3", "DivB", 75, 82, 0⟩, ⟨"B4", "DivB", 70, 82, 0⟩]


/-- The stated display properties of one conference's projected first-round
bracket together with its `seen` tracking list: at most four matchups, every
displayed team recorded as seen, no team in two displayed matchups, and the
displayed probability always that of the first-listed (more likely) winner,
rounded. -/
def projInv (proj : List (String × String × ℚ)) (seen : List String) : Prop :=
  proj.length ≤ 4 ∧
  (∀ e ∈ proj, e.1 ∈ seen ∧ e.2.1 ∈ seen) ∧
  proj.Pairwise (fun e1 e2 => e1.1 ≠ e2.1 ∧ e1.1 ≠ e2.2.1 ∧
    e1.2.1 ≠ e2.1 ∧ e1.2.1 ≠ e2.2.1) ∧
  ∀ e ∈ proj, ∃ q : ℚ, 1 / 2 ≤ q ∧ e.2.2 = round3 q

/-- The monotone-advancement invariant carried by the simulation counters:
round-2 wins never exceed round-1 wins, conference championships never
exceed round-2 wins, cup-final appearances equal conference championships
(both are bumped once per conference title), and cup wins never exceed
cup-final appearances. -/
def advOk (st : SimState) : Prop :=
  ∀ t : String,
    advCount st t 2 ≤ advCount st t 1 ∧
    advCount st t 3 ≤ advCount st t 2 ∧
    advCount st t 4 = advCount st t 3 ∧
    lookupD st.cupWins t 0 ≤ advCount st t 4

section GameLoopFacts

/-- A state with four wins on either side is terminal for any fuel. -/
theorem gameLoop_stop (win : ℕ → Bool) (fuel a b : ℕ) (h : 4 ≤ a ∨ 4 ≤ b) :
    gameLoop win fuel a b = (a, b) := by
  cases fuel with
  | zero => rfl
  | succ n => simp [gameLoop, h]

/-- Core invariant of the best-of-seven loop: started below four wins with
enough fuel, it ends with exactly four wins on one side and at most three on
the other, never decreasing either score. -/
theorem gameLoop_spec (win : ℕ → Bool) :
    ∀ fuel a b, a ≤ 3 → b ≤ 3 → 4 - a + (4 - b) ≤ fuel + 1 →
      (((gameLoop win fuel a b).1 = 4 ∧ (gameLoop win fuel a b).2 ≤ 3 ∧
          a ≤ (gameLoop win fuel a b).1 ∧ b ≤ (gameLoop win fuel a b).2) ∨
       ((gameLoop win fuel a b).2 = 4 ∧ (gameLoop win fuel a b).1 ≤ 3 ∧
          a ≤ (gameLoop win fuel a b).1 ∧ b ≤ (gameLoop win fuel a b).2)) := by
  intro fuel
  induction fuel with
  | zero => intro a b ha hb hf; omega
  | succ n ih =>
    intro a b ha hb hf
    have hg : ¬ (4 ≤ a ∨ 4 ≤ b) := by omega
    rw [gameLoop, if_neg hg]
    by_cases hw : win (a + b)
    · rw [if_pos hw]
      by_cases ha3 : a = 3
      · rw [gameLoop_stop win n (a + 1) b (by omega)]
        exact Or.inl ⟨by omega, hb, by omega, le_refl b⟩
      · have := ih (a + 1) b (by omega) hb (by omega)
        rcases this with ⟨h1, h2, h3, h4⟩ | ⟨h1, h2, h3, h4⟩
        · exact Or.inl ⟨h1, h2, by omega, h4⟩
        · exact Or.inr ⟨h1, h2, by omega, h4⟩
    · rw [if_neg hw]
      by_cases hb3 : b = 3
      · rw [gameLoop_stop win n a (b + 1) (by omega)]
        exact Or.inr ⟨by omega, ha, le_refl a, by omega⟩
      · have := ih a (b + 1) ha (by omega) (by omega)
        rcases this with ⟨h1, h2, h3, h4⟩ | ⟨h1, h2, h3, h4⟩
        · exact Or.inl ⟨h1, h2, h3, by omega⟩
        · exact Or.inr ⟨h1, h2, h3, by omega⟩

end GameLoopFacts

/-- C9: for every draw stream, start position, strength pair and round
number, the closed-form best-of-seven loop of `_simulate_series` (fuel 8,
i.e. at most 7 simulated games) ends with the winner on exactly 4 wins, the
loser on 0-3 wins, and 4 to 7 games played in total. -/
theorem c9_series_loop_valid (u : ℕ → ℝ) (start : ℕ)
    (strengthA strengthB : ℝ) (roundNum : ℕ) :
    ((gameLoop (winDraw u start (probA strengthA strengthB roundNum)) 8 0 0).1 = 4 ∧
       (gameLoop (winDraw u start (probA strengthA strengthB roundNum)) 8 0 0).2 ≤ 3 ∨
     (gameLoop (winDraw u start (probA strengthA strengthB roundNum)) 8 0 0).2 = 4 ∧
       (gameLoop (winDraw u start (probA strengthA strengthB roundNum)) 8 0 0).1 ≤ 3) ∧
    4 ≤ (gameLoop (winDraw u start (probA strengthA strengthB roundNum)) 8 0 0).1 +
        (gameLoop (winDraw u start (probA strengthA strengthB roundNum)) 8 0 0).2 ∧
    (gameLoop (winDraw u start (probA strengthA strengthB roundNum)) 8 0 0).1 +
        (gameLoop (winDraw u start (probA strengthA strengthB roundNum)) 8 0 0).2 ≤ 7 := by
  have := gameLoop_spec (winDraw u start (probA strengthA strengthB roundNum))
    8 0 0 (by omega) (by omega) (by omega)
  rcases this with ⟨h1, h2, _, _⟩ | ⟨h1, h2, _, _⟩ <;>
    exact ⟨by omega, by omega, by omega⟩

section ClipFacts

/-- Every clipped per-game probability is at least `0.15`. -/
theorem gameProb_lower (p : ℝ) (g : ℕ) : 15 / 100 ≤ gameProb p g := by
  unfold gameProb npClip
  exact le_min (le_trans (le_max_right _ _) (le_refl _)) (by norm_num)

/-- Every clipped per-game probability is at most `0.85`. -/
theorem gameProb_upper (p : ℝ) (g : ℕ) : gameProb p g ≤ 85 / 100 :=
  min_le_right _ _

/-- The closed-form blend at strength difference 1000 exceeds `0.87`. -/
theorem probA_extreme : (87 / 100 : ℝ) < probA 1000 0 1 := by
  have h15 : (16 : ℝ) ≤ Real.exp 15 := by
    have := Real.add_one_le_exp (15 : ℝ)
    linarith
  have h30 : (256 : ℝ) ≤ Real.exp 30 := by
    rw [show (30 : ℝ) = 15 + 15 by norm_num, Real.exp_add]
    nlinarith [Real.exp_pos (15 : ℝ)]
  have hneg : Real.exp (-30) ≤ 1 / 256 := by
    rw [Real.exp_neg]
    calc (Real.exp 30)⁻¹ ≤ (256 : ℝ)⁻¹ :=
          inv_anti₀ (by norm_num) h30
      _ = 1 / 256 := by norm_num
  have hepos : (0 : ℝ) < Real.exp (-30) := Real.exp_pos _
  have hdpos : (0 : ℝ) < 1 + Real.exp (-30) := by linarith
  have hle : 1 + Real.exp (-30) ≤ 257 / 256 := by linarith
  have hL : (256 / 257 : ℝ) ≤ 1 / (1 + Real.exp (-30)) := by
    calc (256 / 257 : ℝ) = 1 / (257 / 256) := by norm_num
      _ ≤ 1 / (1 + Real.exp (-30)) := one_div_le_one_div_of_le hdpos hle
  unfold probA roundBaseRate
  rw [one_div] at hL
  norm_num
  linarith

end ClipFacts

/-- C10: the per-game win probability of the closed-form series model, the
series-level blend plus the home (+0.04) or away (-0.02) adjustment, is
clipped into `[0.15, 0.85]` before the uniform draw for arbitrary strengths
and rounds; at the extreme strength pair (1000, 0), every game of round 1 is
played at exactly 0.85 while the unclipped logistic-blend-plus-home-ice
value exceeds 0.85, so the effective probability deviates from the
documented formula but never leaves the band. -/
theorem c10_game_probability_clipped :
    (∀ (strengthA strengthB : ℝ) (roundNum g : ℕ),
      15 / 100 ≤ gameProb (probA strengthA strengthB roundNum) g ∧
      gameProb (probA strengthA strengthB roundNum) g ≤ 85 / 100) ∧
    (∀ g : ℕ,
      gameProb (probA 1000 0 1) g = 85 / 100 ∧
      85 / 100 < probA 1000 0 1 + (if homePattern g then 4 / 100 else -(2 / 100))) := by
  constructor
  · exact fun sA sB r g => ⟨gameProb_lower _ g, gameProb_upper _ g⟩
  · intro g
    have hx : (85 / 100 : ℝ) < probA 1000 0 1 + (if homePattern g then 4 / 100 else -(2 / 100)) := by
      have := probA_extreme
      by_cases h : homePattern g <;> simp [h] <;> linarith
    refine ⟨?_, hx⟩
    unfold gameProb npClip
    rw [max_eq_left (by linarith), min_eq_right (le_of_lt hx)]

section SeriesProbabilityFacts

/-- The exact series win probability always lies in `[0, 1]`. -/
theorem seriesWinProb_bounds (p : ℝ) :
    ∀ fuel a b, 0 ≤ seriesWinProb p fuel a b ∧ seriesWinProb p fuel a b ≤ 1 := by
  intro fuel
  induction fuel with
  | zero => intro a b; simp [seriesWinProb]
  | succ n ih =>
    intro a b
    rw [seriesWinProb]
    by_cases h4a : 4 ≤ a
    · simp [h4a]
    · by_cases h4b : 4 ≤ b
      · simp [h4a, h4b]
      · simp only [if_neg h4a, if_neg h4b]
        have hq1 := gameProb_lower p (a + b)
        have hq2 := gameProb_upper p (a + b)
        have h1 := ih (a + 1) b
        have h2 := ih a (b + 1)
        constructor <;> nlinarith [h1.1, h1.2, h2.1, h2.2]

/-- A win is worth at least as much as a loss: the exact win probability
from `(a, b + 1)` is at most the one from `(a + 1, b)`. -/
theorem seriesWinProb_state_mono (p : ℝ) :
    ∀ fuel a b, seriesWinProb p fuel a (b + 1) ≤ seriesWinProb p fuel (a + 1) b := by
  intro fuel
  induction fuel with
  | zero => intro a b; simp [seriesWinProb]
  | succ n ih =>
    intro a b
    by_cases h4a : 4 ≤ a + 1
    · have hr : seriesWinProb p (n + 1) (a + 1) b = 1 := by
        rw [seriesWinProb, if_pos h4a]
      rw [hr]
      exact (seriesWinProb_bounds p (n + 1) a (b + 1)).2
    · have ha : ¬ 4 ≤ a := by omega
      by_cases h4b : 4 ≤ b
      · have hl : seriesWinProb p (n + 1) a (b + 1) = 0 := by
          rw [seriesWinProb, if_neg ha, if_pos (by omega)]
        have hr : seriesWinProb p (n + 1) (a + 1) b = 0 := by
          rw [seriesWinProb, if_neg h4a, if_pos h4b]
        rw [hl, hr]
      · by_cases h4b1 : 4 ≤ b + 1
        · have hl : seriesWinProb p (n + 1) a (b + 1) = 0 := by
            rw [seriesWinProb, if_neg ha, if_pos h4b1]
          rw [hl, seriesWinProb, if_neg h4a, if_neg h4b]
          have hq1 := gameProb_lower p (a + 1 + b)
          have hq2 := gameProb_upper p (a + 1 + b)
          have h1 := seriesWinProb_bounds p n (a + 1 + 1) b
          have h2 := seriesWinProb_bounds p n (a + 1) (b + 1)
          nlinarith [h1.1, h2.1]
        · rw [seriesWinProb, seriesWinProb, if_neg ha, if_neg h4b1, if_neg h4a, if_neg h4b]
          have hidx : a + (b + 1) = a + 1 + b := by omega
          rw [hidx]
          have hq1 := gameProb_lower p (a + 1 + b)
          have hq2 := gameProb_upper p (a + 1 + b)
          have ih1 := ih (a + 1) b
          have ih2 := ih a (b + 1)
          nlinarith [mul_le_mul_of_nonneg_left ih1 (by linarith : (0:ℝ) ≤ gameProb p (a + 1 + b)),
            mul_le_mul_of_nonneg_left ih2 (by linarith : (0:ℝ) ≤ 1 - gameProb p (a + 1 + b))]

/-- The clipped per-game probability is monotone in the series-level one. -/
theorem gameProb_mono {p1 p2 : ℝ} (h : p1 ≤ p2) (g : ℕ) :
    gameProb p1 g ≤ gameProb p2 g := by
  unfold gameProb npClip
  exact min_le_min (max_le_max (add_le_add_right h _) le_rfl) le_rfl

/-- The exact series win probability is monotone in the series-level
probability. -/
theorem seriesWinProb_mono {p1 p2 : ℝ} (h : p1 ≤ p2) :
    ∀ fuel a b, seriesWinProb p1 fuel a b ≤ seriesWinProb p2 fuel a b := by
  intro fuel
  induction fuel with
  | zero => intro a b; simp [seriesWinProb]
  | succ n ih =>
    intro a b
    rw [seriesWinProb, seriesWinProb]
    by_cases h4a : 4 ≤ a
    · simp [h4a]
    · by_cases h4b : 4 ≤ b
      · simp [h4a, h4b]
      · simp only [if_neg h4a, if_neg h4b]
        have hq := gameProb_mono h (a + b)
        have hq1 := gameProb_lower p1 (a + b)
        have hq2 := gameProb_upper p2 (a + b)
        have hA := ih (a + 1) b
        have hB := ih a (b + 1)
        have hAB := seriesWinProb_state_mono p1 n a b
        have hb1 := seriesWinProb_bounds p1 n (a + 1) b
        have hb2 := seriesWinProb_bounds p1 n a (b + 1)
        nlinarith [mul_nonneg (by linarith : (0:ℝ) ≤ gameProb p2 (a + b) - gameProb p1 (a + b))
            (by linarith : (0:ℝ) ≤ seriesWinProb p1 n (a + 1) b - seriesWinProb p1 n a (b + 1)),
          mul_le_mul_of_nonneg_left hA (by linarith : (0:ℝ) ≤ gameProb p2 (a + b)),
          mul_le_mul_of_nonneg_left hB (by linarith : (0:ℝ) ≤ 1 - gameProb p2 (a + b))]

/-- In the band `[0.17, 0.81]` the clip of the per-game probability is
inactive. -/
theorem gameProb_no_clip (p : ℝ) (h1 : 17 / 100 ≤ p) (h2 : p ≤ 81 / 100) (g : ℕ) :
    gameProb p g = p + (if homePattern g then 4 / 100 else -(2 / 100)) := by
  unfold gameProb npClip
  by_cases h : homePattern g
  · rw [if_pos h, max_eq_left (by linarith), min_eq_left (by linarith)]
  · rw [if_neg h, max_eq_left (by linarith), min_eq_left (by linarith)]

end SeriesProbabilityFacts

section ConcreteSeriesScenario

/-- Transfer to the rational twin: inside the no-clip band the real series
probability at a rational parameter is the cast of the rational one. -/
theorem seriesWinProb_ratCast (pq : ℚ) (h1 : 17 / 100 ≤ pq) (h2 : pq ≤ 81 / 100) :
    ∀ fuel a b,
      seriesWinProb (pq : ℝ) fuel a b = ((seriesWinProbQ (gameProbQ pq) fuel a b : ℚ) : ℝ) := by
  have hr1 : (17 / 100 : ℝ) ≤ (pq : ℝ) := by
    have h0 : ((17 / 100 : ℚ) : ℝ) ≤ (pq : ℝ) := Rat.cast_le.2 h1
    push_cast at h0
    exact h0
  have hr2 : ((pq : ℝ)) ≤ 81 / 100 := by
    have h0 : (pq : ℝ) ≤ ((81 / 100 : ℚ) : ℝ) := Rat.cast_le.2 h2
    push_cast at h0
    exact h0
  intro fuel
  induction fuel with
  | zero => intro a b; simp [seriesWinProb, seriesWinProbQ]
  | succ n ih =>
    intro a b
    rw [seriesWinProb, seriesWinProbQ]
    by_cases h4a : 4 ≤ a
    · simp [h4a]
    · by_cases h4b : 4 ≤ b
      · simp [h4a, h4b]
      · simp only [if_neg h4a, if_neg h4b]
        have hgc : gameProb (pq : ℝ) (a + b) = ((gameProbQ pq (a + b) : ℚ) : ℝ) := by
          rw [gameProb_no_clip _ hr1 hr2]
          unfold gameProbQ
          by_cases h : homePattern (a + b) <;> simp [h]
        rw [hgc, ih (a + 1) b, ih a (b + 1)]
        push_cast
        ring

/-- Taylor lower bound: `exp 0.6 ≥ 1.8221128`. -/
theorem exp_point_six_lb : (18221128 / 10000000 : ℝ) ≤ Real.exp (3 / 5) := by
  have h := Real.sum_le_exp_of_nonneg (by norm_num : (0 : ℝ) ≤ 3 / 5) 7
  have hs : ∑ i ∈ Finset.range 7, ((3 : ℝ) / 5) ^ i / (Nat.factorial i) =
      18221128 / 10000000 := by
    simp [Finset.sum_range_succ, Nat.factorial]
    norm_num
  rw [hs] at h
  exact h

/-- Taylor upper bound: `exp 0.6 ≤ 1.8221192`. -/
theorem exp_point_six_ub : Real.exp (3 / 5) ≤ 18221192 / 10000000 := by
  have h := @Real.exp_bound' (3 / 5) (by norm_num) (by norm_num) 7 (by norm_num)
  have hs : (∑ m ∈ Finset.range 7, ((3 : ℝ) / 5) ^ m / (Nat.factorial m)) +
      ((3 : ℝ) / 5) ^ 7 * (7 + 1) / (Nat.factorial 7 * 7) ≤ 18221192 / 10000000 := by
    simp [Finset.sum_range_succ, Nat.factorial]
    norm_num
  linarith

/-- Numeric bracket for the concrete round-1 blend of strengths 60 and 40:
`0.62895 ≤ probA 60 40 1 ≤ 0.62896`. -/
theorem probA_60_40_bounds :
    (62895 / 100000 : ℝ) ≤ probA 60 40 1 ∧ probA 60 40 1 ≤ 62896 / 100000 := by
  have harg : (-(3 / 100) * ((60 : ℝ) - 40)) = -(3 / 5) := by norm_num
  have hEpos : (0 : ℝ) < Real.exp (3 / 5) := Real.exp_pos _
  have ht1 : (Real.exp (3 / 5))⁻¹ ≤ 5488135 / 10000000 := by
    calc (Real.exp (3 / 5))⁻¹ ≤ ((18221128 : ℝ) / 10000000)⁻¹ :=
          inv_anti₀ (by norm_num) exp_point_six_lb
      _ ≤ 5488135 / 10000000 := by norm_num
  have ht2 : (5488113 / 10000000 : ℝ) ≤ (Real.exp (3 / 5))⁻¹ := by
    calc (5488113 / 10000000 : ℝ) ≤ ((18221192 : ℝ) / 10000000)⁻¹ := by norm_num
      _ ≤ (Real.exp (3 / 5))⁻¹ := inv_anti₀ hEpos exp_point_six_ub
  have htpos : (0 : ℝ) < (Real.exp (3 / 5))⁻¹ := inv_pos.2 hEpos
  have hdpos : (0 : ℝ) < 1 + (Real.exp (3 / 5))⁻¹ := by linarith
  have hs1 : 1 / (1 + (Real.exp (3 / 5))⁻¹) ≤ 1 / (1 + 5488113 / 10000000) :=
    one_div_le_one_div_of_le (by norm_num) (by linarith)
  have hs2 : 1 / (1 + 5488135 / 10000000) ≤ 1 / (1 + (Real.exp (3 / 5))⁻¹) :=
    one_div_le_one_div_of_le hdpos (by linarith)
  have hn1 : (1 : ℝ) / (1 + 5488113 / 10000000) ≤ 6456566 / 10000000 := by norm_num
  have hn2 : (6456550 / 10000000 : ℝ) ≤ 1 / (1 + 5488135 / 10000000) := by norm_num
  have hbr : roundBaseRate 1 = 59 / 100 := by unfold roundBaseRate; norm_num
  unfold probA
  rw [hbr, harg, Real.exp_neg]
  constructor <;> nlinarith [hs1, hs2, hn1, hn2]

/-- Lower endpoint evaluation of the rational twin at `p = 0.62895`. -/
theorem seriesQ_lo : (7885 / 10000 : ℚ) ≤ seriesWinProbQ (gameProbQ (62895 / 100000)) 8 0 0 := by
  norm_num [seriesWinProbQ, gameProbQ, homePattern]

/-- Upper endpoint evaluation of the rational twin at `p = 0.62896`. -/
theorem seriesQ_hi : seriesWinProbQ (gameProbQ (62896 / 100000)) 8 0 0 ≤ 7940 / 10000 := by
  norm_num [seriesWinProbQ, gameProbQ, homePattern]

/-- Bracket for the exact win probability of the simulated series of the
concrete scenario: it lies in `[0.7885, 0.794]`. -/
theorem seriesWinProb_scenario_bounds :
    (7885 / 10000 : ℝ) ≤ seriesWinProb (probA 60 40 1) 8 0 0 ∧
      seriesWinProb (probA 60 40 1) 8 0 0 ≤ 7940 / 10000 := by
  have hb := probA_60_40_bounds
  have hlo : seriesWinProb (((62895 / 100000 : ℚ) : ℝ)) 8 0 0 ≤
      seriesWinProb (probA 60 40 1) 8 0 0 := by
    apply seriesWinProb_mono
    push_cast
    exact hb.1
  have hhi : seriesWinProb (probA 60 40 1) 8 0 0 ≤
      seriesWinProb (((62896 / 100000 : ℚ) : ℝ)) 8 0 0 := by
    apply seriesWinProb_mono
    push_cast
    exact hb.2
  rw [seriesWinProb_ratCast (62895 / 100000) (by norm_num) (by norm_num) 8 0 0] at hlo
  rw [seriesWinProb_ratCast (62896 / 100000) (by norm_num) (by norm_num) 8 0 0] at hhi
  have h1 : ((7885 / 10000 : ℚ) : ℝ) ≤
      ((seriesWinProbQ (gameProbQ (62895 / 100000)) 8 0 0 : ℚ) : ℝ) := by
    exact_mod_cast seriesQ_lo
  have h2 : ((seriesWinProbQ (gameProbQ (62896 / 100000)) 8 0 0 : ℚ) : ℝ) ≤
      ((7940 / 10000 : ℚ) : ℝ) := by
    exact_mod_cast seriesQ_hi
  constructor
  · calc (7885 / 10000 : ℝ) = ((7885 / 10000 : ℚ) : ℝ) := by push_cast; ring
      _ ≤ _ := le_trans h1 hlo
  · calc seriesWinProb (probA 60 40 1) 8 0 0 ≤ ((7940 / 10000 : ℚ) : ℝ) :=
          le_trans hhi h2
      _ = 7940 / 10000 := by push_cast; ring

end ConcreteSeriesScenario

/-- C2 counterexample: in the concrete scenario (strengths 60 and 40, round
1, favorite at home in games 1, 2, 5, 7), the exact win probability of the
simulated best-of-seven series is NOT within 0.02 of 0.63 — the game loop
reuses the series-level 0.63 blend as a per-game probability, which
amplifies the favorite far above 0.63. -/
theorem c2_counterexample :
    ¬ (|seriesWinProb (probA 60 40 1) 8 0 0 - 63 / 100| ≤ 2 / 100) := by
  intro hc
  rw [abs_le] at hc
  linarith [seriesWinProb_scenario_bounds.1, hc.2]

/-- C2 (amended): the closed-form series-level probability for strengths 60
and 40 in round 1 is exactly the logistic blend
`(1/(1+e^{-0.6}))·0.7 + 0.59·0.3 ≈ 0.6290`, within 0.002 of 0.63; but the
favorite's probability of winning the simulated best-of-seven series (the
exact win probability of the game-by-game process, which reuses that
series-level value per game) is within ±0.02 of 0.79, not of 0.63. -/
theorem c2_amended :
    probA 60 40 1 = (1 / (1 + Real.exp (-(3 / 5)))) * (7 / 10) + (59 / 100) * (3 / 10) ∧
    |probA 60 40 1 - 63 / 100| ≤ 2 / 1000 ∧
    |seriesWinProb (probA 60 40 1) 8 0 0 - 79 / 100| ≤ 2 / 100 := by
  refine ⟨?_, ?_, ?_⟩
  · have harg : (-(3 / 100) * ((60 : ℝ) - 40)) = -(3 / 5) := by norm_num
    have hbr : roundBaseRate 1 = 59 / 100 := by unfold roundBaseRate; norm_num
    unfold probA
    rw [hbr, harg]
  · rw [abs_le]
    constructor <;> linarith [probA_60_40_bounds.1, probA_60_40_bounds.2]
  · rw [abs_le]
    constructor <;>
      linarith [seriesWinProb_scenario_bounds.1, seriesWinProb_scenario_bounds.2]

section TierFacts

/-- Count of a half-open index window inside `range n`. -/
theorem countP_range_window (a b : ℕ) :
    ∀ n, (List.range n).countP (fun i => decide (a ≤ i ∧ i < b)) = min b n - min a n := by
  intro n
  induction n with
  | zero => simp
  | succ m ih =>
    rw [List.range_succ, List.countP_append, ih]
    by_cases hm : a ≤ m ∧ m < b
    · have : (List.countP (fun i => decide (a ≤ i ∧ i < b)) [m]) = 1 := by
        simp [List.countP_cons, hm]
      rw [this]
      omega
    · have : (List.countP (fun i => decide (a ≤ i ∧ i < b)) [m]) = 0 := by
        simp only [List.countP_cons, List.countP_nil]
        simp [hm]
      rw [this]
      omega

/-- The tier label of a strength, as a window condition on its first index
in the descending-sorted strength list. -/
theorem classify_eq_iff (s : ℚ) (all : List ℚ) (t : String) :
    let idx := (all.insertionSort (fun a b => b ≤ a)).indexOf s
    (classifyTierPercentile s all = t) ↔
      ((t = "Elite" ∧ idx < 4) ∨ (t = "Contender" ∧ 4 ≤ idx ∧ idx < 12) ∨
       (t = "Bubble" ∧ 12 ≤ idx ∧ idx < 20) ∨ (t = "Longshot" ∧ 20 ≤ idx) ∨
       (t ≠ "Elite" ∧ t ≠ "Contender" ∧ t ≠ "Bubble" ∧ t ≠ "Longshot" ∧ False)) := by
  intro idx
  unfold classifyTierPercentile
  by_cases h1 : idx + 1 ≤ 4
  · simp only [if_pos h1]
    constructor
    · intro h; exact Or.inl ⟨h.symm, by omega⟩
    · rintro (⟨ht, _⟩ | ⟨ht, hi, _⟩ | ⟨ht, hi, _⟩ | ⟨ht, hi⟩ | ⟨_, _, _, _, hf⟩)
      · exact ht.symm
      · omega
      · omega
      · omega
      · exact absurd hf (by simp)
  · by_cases h2 : idx + 1 ≤ 12
    · simp only [if_neg h1, if_pos h2]
      constructor
      · intro h; exact Or.inr (Or.inl ⟨h.symm, by omega, by omega⟩)
      · rintro (⟨ht, hi⟩ | ⟨ht, _⟩ | ⟨ht, hi, _⟩ | ⟨ht, hi⟩ | ⟨_, _, _, _, hf⟩)
        · omega
        · exact ht.symm
        · omega
        · omega
        · exact absurd hf (by simp)
    · by_cases h3 : idx + 1 ≤ 20
      · simp only [if_neg h1, if_neg h2, if_pos h3]
        constructor
        · intro h; exact Or.inr (Or.inr (Or.inl ⟨h.symm, by omega, by omega⟩))
        · rintro (⟨ht, hi⟩ | ⟨ht, hi, _⟩ | ⟨ht, _⟩ | ⟨ht, hi⟩ | ⟨_, _, _, _, hf⟩)
          · omega
          · omega
          · exact ht.symm
          · omega
          · exact absurd hf (by simp)
      · simp only [if_neg h1, if_neg h2, if_neg h3]
        constructor
        · intro h; exact Or.inr (Or.inr (Or.inr (Or.inl ⟨h.symm, by omega⟩)))
        · rintro (⟨ht, hi⟩ | ⟨ht, hi, _⟩ | ⟨ht, hi, _⟩ | ⟨ht, _⟩ | ⟨_, _, _, _, hf⟩)
          · omega
          · omega
          · omega
          · exact ht.symm
          · exact absurd hf (by simp)

/-- For a duplicate-free strength list the map to first sorted indexes is
exactly `range n`. -/
theorem sorted_indexOf_map (l : List ℚ) (hnd : l.Nodup) :
    (l.insertionSort (fun a b => b ≤ a)).map
        ((l.insertionSort (fun a b => b ≤ a)).indexOf ·) =
      List.range (l.insertionSort (fun a b => b ≤ a)).length := by
  set srt := l.insertionSort (fun a b => b ≤ a) with hsrt
  have hnd2 : srt.Nodup := ((List.perm_insertionSort _ l).nodup_iff).2 hnd
  apply List.ext_getElem
  · simp
  · intro i h1 h2
    rw [List.getElem_map, List.getElem_range]
    exact List.indexOf_getElem hnd2 i (by simpa using h1)

/-- Tier count over a duplicate-free strength list, as a window count. -/
theorem tier_count_window (l : List ℚ) (hnd : l.Nodup) (a b : ℕ)
    (t : String)
    (hw : ∀ s ∈ l, (classifyTierPercentile s l = t) ↔
      (a ≤ (l.insertionSort (fun x y => y ≤ x)).indexOf s ∧
       (l.insertionSort (fun x y => y ≤ x)).indexOf s < b)) :
    (l.map (fun s => classifyTierPercentile s l)).count t = min b l.length - min a l.length := by
  rw [List.count_eq_countP, List.countP_map]
  have hstep : l.countP ((fun x => x == t) ∘ fun s => classifyTierPercentile s l) =
      l.countP (fun s => decide (a ≤ (l.insertionSort (fun x y => y ≤ x)).indexOf s ∧
        (l.insertionSort (fun x y => y ≤ x)).indexOf s < b)) := by
    apply List.countP_congr
    intro s hs
    simp only [Function.comp, beq_iff_eq, decide_eq_true_eq]
    exact hw s hs
  rw [hstep]
  have hperm := (List.perm_insertionSort (fun x y : ℚ => y ≤ x) l).symm
  rw [hperm.countP_eq]
  have hmap := sorted_indexOf_map l hnd
  have : (l.insertionSort (fun x y => y ≤ x)).countP
      (fun s => decide (a ≤ (l.insertionSort (fun x y => y ≤ x)).indexOf s ∧
        (l.insertionSort (fun x y => y ≤ x)).indexOf s < b)) =
      ((l.insertionSort (fun x y => y ≤ x)).map
        ((l.insertionSort (fun x y => y ≤ x)).indexOf ·)).countP
        (fun i => decide (a ≤ i ∧ i < b)) := by
    rw [List.countP_map]
    rfl
  rw [this, hmap, countP_range_window]
  simp

end TierFacts

section TierWindows

/-- The Elite label means first sorted index below 4. -/
theorem classify_elite_iff (s : ℚ) (all : List ℚ) :
    classifyTierPercentile s all = "Elite" ↔
      (all.insertionSort (fun x y => y ≤ x)).indexOf s < 4 := by
  unfold classifyTierPercentile
  dsimp only
  split_ifs with h1 h2 h3 <;> simp <;> omega

/-- The Contender label means first sorted index in `[4, 12)`. -/
theorem classify_contender_iff (s : ℚ) (all : List ℚ) :
    classifyTierPercentile s all = "Contender" ↔
      (4 ≤ (all.insertionSort (fun x y => y ≤ x)).indexOf s ∧
       (all.insertionSort (fun x y => y ≤ x)).indexOf s < 12) := by
  unfold classifyTierPercentile
  dsimp only
  split_ifs with h1 h2 h3 <;> simp <;> omega

/-- The Bubble label means first sorted index in `[12, 20)`. -/
theorem classify_bubble_iff (s : ℚ) (all : List ℚ) :
    classifyTierPercentile s all = "Bubble" ↔
      (12 ≤ (all.insertionSort (fun x y => y ≤ x)).indexOf s ∧
       (all.insertionSort (fun x y => y ≤ x)).indexOf s < 20) := by
  unfold classifyTierPercentile
  dsimp only
  split_ifs with h1 h2 h3 <;> simp <;> omega

/-- The Longshot label means first sorted index at least 20. -/
theorem classify_longshot_iff (s : ℚ) (all : List ℚ) :
    classifyTierPercentile s all = "Longshot" ↔
      20 ≤ (all.insertionSort (fun x y => y ≤ x)).indexOf s := by
  unfold classifyTierPercentile
  dsimp only
  split_ifs with h1 h2 h3 <;> simp <;> omega

end TierWindows

/-- C5 counterexample: with a five-way tie at the top of a 32-team league,
`_classify_tier_percentile` labels five teams Elite, not exactly four —
`list.index` gives all tied values the rank of the first occurrence. -/
theorem c5_counterexample :
    (tiedStrengths.map (fun s => classifyTierPercentile s tiedStrengths)).count "Elite" = 5 ∧
    ¬ (tiedStrengths.map (fun s => classifyTierPercentile s tiedStrengths)).count "Elite" = 4 := by
  constructor <;> decide

/-- C5 (amended): tier assignment partitions the league by rank of the
strength VALUE's first occurrence in the descending-sorted list, so tied
values share a tier; when all composite strengths are pairwise distinct and
there are at least 21 teams, exactly 4 are labeled Elite, the next 8
Contender, the next 8 Bubble, and the remaining `n - 20` Longshot. -/
theorem c5_amended (l : List ℚ) (hnd : l.Nodup) (hn : 21 ≤ l.length) :
    (l.map (fun s => classifyTierPercentile s l)).count "Elite" = 4 ∧
    (l.map (fun s => classifyTierPercentile s l)).count "Contender" = 8 ∧
    (l.map (fun s => classifyTierPercentile s l)).count "Bubble" = 8 ∧
    (l.map (fun s => classifyTierPercentile s l)).count "Longshot" = l.length - 20 := by
  refine ⟨?_, ?_, ?_, ?_⟩
  · rw [tier_count_window l hnd 0 4 "Elite"
      (fun s _ => by rw [classify_elite_iff]; omega)]
    omega
  · rw [tier_count_window l hnd 4 12 "Contender"
      (fun s _ => by rw [classify_contender_iff])]
    omega
  · rw [tier_count_window l hnd 12 20 "Bubble"
      (fun s _ => by rw [classify_bubble_iff])]
    omega
  · rw [tier_count_window l hnd 20 l.length "Longshot"
      (fun s hs => by
        rw [classify_longshot_iff]
        have hmem : s ∈ l.insertionSort (fun x y : ℚ => y ≤ x) := by
          rw [List.mem_insertionSort]
          exact hs
        have hlt := List.indexOf_lt_length.2 hmem
        rw [List.length_insertionSort] at hlt
        omega)]
    omega

/-- C5 witness: a 32-team league with pairwise distinct strengths has
exactly 4 Elite, 8 Contender, 8 Bubble and 12 Longshot teams. -/
theorem c5_witness :
    ([60, 55, 54, 53, 52, 51, 50, 49, 48, 47, 46, 45, 44, 43, 42, 41, 40, 39,
      38, 37, 36, 35, 34, 33, 32, 31, 30, 29, 28, 27, 26, 25] : List ℚ).Nodup ∧
    21 ≤ ([60, 55, 54, 53, 52, 51, 50, 49, 48, 47, 46, 45, 44, 43, 42, 41, 40,
      39, 38, 37, 36, 35, 34, 33, 32, 31, 30, 29, 28, 27, 26, 25] : List ℚ).length ∧
    (([60, 55, 54, 53, 52, 51, 50, 49, 48, 47, 46, 45, 44, 43, 42, 41, 40, 39,
       38, 37, 36, 35, 34, 33, 32, 31, 30, 29, 28, 27, 26, 25] : List ℚ).map
      (fun s => classifyTierPercentile s
        [60, 55, 54, 53, 52, 51, 50, 49, 48, 47, 46, 45, 44, 43, 42, 41, 40, 39,
         38, 37, 36, 35, 34, 33, 32, 31, 30, 29, 28, 27, 26, 25])).count "Elite" = 4 :=
  ⟨by decide, by decide,
    (c5_amended _ (by decide) (by decide)).1⟩

section RankFacts

/-- `rankResults` sorts by descending composite strength and then only
rewrites `strengthRank`, so the output is sorted by descending strength,
carries ranks `1..N` in order, and has one row per input row. -/
theorem rankResults_facts (rs : List PredictionResult) :
    List.Sorted (fun a b : PredictionResult => b.compositeStrength ≤ a.compositeStrength)
      (rankResults rs) ∧
    (rankResults rs).map PredictionResult.strengthRank =
      (List.range (rankResults rs).length).map (· + 1) ∧
    (rankResults rs).length = rs.length := by
  unfold rankResults
  set srt := rs.insertionSort
    (fun a b : PredictionResult => b.compositeStrength ≤ a.compositeStrength) with hsrt
  have hsorted : List.Sorted
      (fun a b : PredictionResult => b.compositeStrength ≤ a.compositeStrength) srt :=
    List.sorted_insertionSort _ rs
  have hlen : (srt.zip (List.range srt.length)).length = srt.length := by
    simp
  have hlen2 : srt.length = rs.length := by
    rw [hsrt, List.length_insertionSort]
  refine ⟨?_, ?_, by simpa [hlen] using hlen2⟩
  · rw [List.Sorted, List.pairwise_map, List.pairwise_iff_getElem]
    rw [List.Sorted, List.pairwise_iff_getElem] at hsorted
    intro i j hi hj hij
    simp only [List.getElem_zip]
    exact hsorted i j (by simpa [hlen] using hi) (by simpa [hlen] using hj) hij
  · apply List.ext_getElem
    · simp
    · intro i h1 h2
      simp [List.getElem_zip]

end RankFacts

/-- C4 counterexample: a fitted ensemble can return a list that is NOT
sorted by descending championship probability — `predict` sorts by
composite strength.  Here the stronger team `T1` has the smaller normalized
cup probability (1/6 against 5/6) yet is listed first. -/
theorem c4_counterexample :
    ¬ List.Sorted (fun a b : PredictionResult => b.cupWinProbability ≤ a.cupWinProbability)
      (predict predictTeams [9 / 10, 9 / 10] [0, 0] [0, 0] mcForPredict
        [("T1", 60), ("T2", 50)] true (fun p => (p, p))) := by
  have hev : (predict predictTeams [9 / 10, 9 / 10] [0, 0] [0, 0] mcForPredict
      [("T1", 60), ("T2", 50)] true (fun p => (p, p))).map
        PredictionResult.cupWinProbability = [1 / 6, 5 / 6] := by
    have h1 : ("T1" : String) ≠ "T2" := by decide
    have h2 : ("T2" : String) ≠ "T1" := by decide
    have h3 : (("T2" : String) == "T1") = false := by decide
    have h4 : (("T1" : String) == "T1") = true := by decide
    have h5 : (("T2" : String) == "T2") = true := by decide
    have h6 : (("T1" : String) == "T2") = false := by decide
    norm_num [predict, predictTeams, mcForPredict, buildRawCupProbs, normalizeCupProbs,
      buildResults, rankResults, classifyTierPercentile, lookupD, setKey, bumpBy,
      List.insertionSort, List.orderedInsert, List.lookup, List.range_succ,
      List.zip_cons_cons, List.zip_nil_right, List.zip_nil_left, h1, h2, h3, h4, h5, h6]
  intro hs
  have hlen : (predict predictTeams [9 / 10, 9 / 10] [0, 0] [0, 0] mcForPredict
      [("T1", 60), ("T2", 50)] true (fun p => (p, p))).length = 2 := by
    have := congrArg List.length hev
    simpa using this
  obtain ⟨r0, r1, hform⟩ := List.length_eq_two.1 hlen
  rw [hform] at hev hs
  simp only [List.map_cons, List.map_nil, List.cons.injEq, and_true] at hev
  have hord : r1.cupWinProbability ≤ r0.cupWinProbability :=
    (List.sorted_cons.1 hs).1 r1 (by simp)
  rw [hev.1, hev.2] at hord
  norm_num at hord

/-- C4 (amended): for every fitted ensemble (arbitrary classifier outputs,
Monte Carlo result, strength dict, neural-network flag and interval oracle)
and every team list, the list returned by `predict` is sorted in descending
order of COMPOSITE STRENGTH (not championship probability), with
`strength_rank` assigned `1..N` in list order. -/
theorem c4_amended (teams : List TeamSeason) (playoffProbs gbProbs nnProbs : List ℚ)
    (mc : MonteCarloResult) (strengths : List (String × ℚ)) (useNN : Bool)
    (ciFn : ℚ → ℚ × ℚ) :
    List.Sorted (fun a b : PredictionResult => b.compositeStrength ≤ a.compositeStrength)
      (predict teams playoffProbs gbProbs nnProbs mc strengths useNN ciFn) ∧
    (predict teams playoffProbs gbProbs nnProbs mc strengths useNN ciFn).map
        PredictionResult.strengthRank =
      (List.range (predict teams playoffProbs gbProbs nnProbs mc strengths
        useNN ciFn).length).map (· + 1) := by
  unfold predict
  exact ⟨(rankResults_facts _).1, (rankResults_facts _).2.1⟩

section ProbabilityConservation

/-- One `defaultdict(int)` bump adds exactly one to the total count. -/
theorem bumpCount_snd_sum {κ : Type} [DecidableEq κ] (d : List (κ × ℕ)) (k : κ) :
    ((bumpCount d k).map Prod.snd).sum = (d.map Prod.snd).sum + 1 := by
  induction d with
  | nil => simp [bumpCount, bumpBy]
  | cons kv rest ih =>
    obtain ⟨k2, v⟩ := kv
    unfold bumpCount bumpBy
    by_cases h : k2 = k
    · simp [h]
      omega
    · simp only [if_neg h, List.map_cons, List.sum_cons]
      unfold bumpCount at ih
      rw [ih]
      omega

/-- The per-conference recording never touches the cup-win counter. -/
theorem recordConf_cupWins (conf : String) (trace : ConfTrace) (st : SimState) :
    (recordConf conf trace st).cupWins = st.cupWins := rfl

/-- Each trial adds exactly one cup win in total. -/
theorem runTrial_cup_sum (cfg : MCConfig) (st : SimState) (i : ℕ) :
    (((runTrial cfg st i).cupWins).map Prod.snd).sum =
      ((st.cupWins).map Prod.snd).sum + 1 := by
  unfold runTrial
  rw [bumpCount_snd_sum, recordConf_cupWins, recordConf_cupWins]

/-- Cup wins accumulated over a block of trials. -/
theorem foldl_trials_cup_sum (cfg : MCConfig) :
    ∀ (l : List ℕ) (st : SimState),
      (((l.foldl (runTrial cfg) st).cupWins).map Prod.snd).sum =
        ((st.cupWins).map Prod.snd).sum + l.length := by
  intro l
  induction l with
  | nil => intro st; simp
  | cons a l ih =>
    intro st
    rw [List.foldl_cons, ih (runTrial cfg st a), runTrial_cup_sum]
    simp
    omega

/-- After all trials the cup-win counts total the number of trials. -/
theorem mcFinalState_cup_total (cfg : MCConfig) :
    (((mcFinalState cfg).cupWins).map Prod.snd).sum = cfg.nSims := by
  unfold mcFinalState initState
  rw [foldl_trials_cup_sum]
  simp

/-- Dividing every count by `n` divides the total by `n`. -/
theorem assocValsSum_map_div_nat (l : List (String × ℕ)) (n : ℚ) :
    assocValsSum (l.map (fun kv => (kv.1, (kv.2 : ℚ) / n))) =
      (((l.map Prod.snd).sum : ℕ) : ℚ) / n := by
  induction l with
  | nil => simp [assocValsSum]
  | cons kv rest ih =>
    simp only [assocValsSum, List.map_cons, List.sum_cons] at ih ⊢
    rw [ih]
    push_cast
    rw [add_div]

/-- Dividing every value by `c` divides the total by `c`. -/
theorem assocValsSum_map_div (l : List (String × ℚ)) (c : ℚ) :
    assocValsSum (l.map (fun kv => (kv.1, kv.2 / c))) = assocValsSum l / c := by
  induction l with
  | nil => simp [assocValsSum]
  | cons kv rest ih =>
    simp only [assocValsSum, List.map_cons, List.sum_cons] at ih ⊢
    rw [ih, add_div]

/-- A constant value on every key totals `length` times the value. -/
theorem assocValsSum_map_const (l : List (String × ℚ)) (c : ℚ) :
    assocValsSum (l.map (fun kv => (kv.1, c))) = l.length * c := by
  induction l with
  | nil => simp [assocValsSum]
  | cons kv rest ih =>
    simp only [assocValsSum, List.map_cons, List.sum_cons, List.length_cons] at ih ⊢
    rw [ih]
    push_cast
    ring

/-- When the gated mass is positive, normalization makes the dict sum to
exactly 1. -/
theorem normalizeCupProbs_sum_pos (raw : List (String × ℚ))
    (h : 0 < assocValsSum raw) : assocValsSum (normalizeCupProbs raw) = 1 := by
  unfold normalizeCupProbs
  dsimp only
  rw [if_pos (show 0 < (raw.map Prod.snd).sum from h), assocValsSum_map_div]
  exact div_self (ne_of_gt h)

/-- In the fallback branch the dict sums to `length / 32`, not 1 in
general. -/
theorem normalizeCupProbs_sum_fallback (raw : List (String × ℚ))
    (h : ¬ 0 < assocValsSum raw) :
    assocValsSum (normalizeCupProbs raw) = raw.length / 32 := by
  unfold normalizeCupProbs
  dsimp only
  rw [if_neg (show ¬ 0 < (raw.map Prod.snd).sum from h)]
  have := assocValsSum_map_const raw (1 / 32)
  rw [this]
  ring

end ProbabilityConservation

section PredictSumFacts

/-- Writing a fresh key appends it at the end of the dict. -/
theorem setKey_append (d : List (String × ℚ)) (k : String) (v : ℚ)
    (h : k ∉ d.map Prod.fst) : setKey d k v = d ++ [(k, v)] := by
  induction d with
  | nil => rfl
  | cons kv rest ih =>
    obtain ⟨k2, v2⟩ := kv
    simp only [List.map_cons, List.mem_cons] at h
    push_neg at h
    unfold setKey bumpBy
    rw [if_neg (fun he => h.1 he.symm)]
    unfold setKey at ih
    rw [ih h.2]
    rfl

/-- The gated cup-probability dict of `predict` holds exactly one row per
team, in team order, when the team codes are duplicate-free and the
classifier output lists are as long as the team list. -/
theorem buildRaw_keys (mcProbs : List (String × ℚ)) (useNN : Bool) :
    ∀ (ts : List TeamSeason) (pps gbs nns : List ℚ) (acc : List (String × ℚ)),
      pps.length = ts.length → gbs.length = ts.length → nns.length = ts.length →
      (acc.map Prod.fst ++ ts.map TeamSeason.team).Nodup →
      (buildRawCupProbs ts pps gbs nns mcProbs useNN acc).map Prod.fst =
        acc.map Prod.fst ++ ts.map TeamSeason.team := by
  intro ts
  induction ts with
  | nil =>
    intro pps gbs nns acc h1 _ _ _
    rw [List.length_nil] at h1
    rw [List.eq_nil_of_length_eq_zero h1]
    simp [buildRawCupProbs]
  | cons t ts ih =>
    intro pps gbs nns acc h1 h2 h3 hnd
    cases pps with
    | nil => simp at h1
    | cons pp pps =>
      cases gbs with
      | nil => simp at h2
      | cons gb gbs =>
        cases nns with
        | nil => simp at h3
        | cons nn nns =>
          rw [buildRawCupProbs]
          have hmem : t.team ∉ acc.map Prod.fst := by
            intro hmem
            have := List.disjoint_of_nodup_append hnd
            exact this hmem (by simp)
          have hset := setKey_append acc t.team
            ((if useNN then (30 / 100) * gb + (30 / 100) * nn +
                (40 / 100) * lookupD mcProbs t.team 0
              else (4 / 10) * gb + (6 / 10) * lookupD mcProbs t.team 0) *
              min 1 (pp + 1 / 10)) hmem
          rw [ih pps gbs nns _ (by simpa using h1) (by simpa using h2)
            (by simpa using h3) ?_, hset]
          · simp
          · rw [hset]
            simp only [List.map_append, List.map_cons, List.map_nil]
            have : acc.map Prod.fst ++ [t.team] ++ ts.map TeamSeason.team =
                acc.map Prod.fst ++ t.team :: ts.map TeamSeason.team := by
              simp
            rw [this]
            simpa using hnd

/-- Normalization preserves the key sequence. -/
theorem normalizeCupProbs_keys (raw : List (String × ℚ)) :
    (normalizeCupProbs raw).map Prod.fst = raw.map Prod.fst := by
  unfold normalizeCupProbs
  dsimp only
  split_ifs <;> simp

/-- Looking every key of a duplicate-free dict back up returns its values. -/
theorem sum_lookup_aligned :
    ∀ (d : List (String × ℚ)), (d.map Prod.fst).Nodup →
      ((d.map Prod.fst).map (fun c => lookupD d c 0)).sum = assocValsSum d := by
  intro d
  induction d with
  | nil => simp [assocValsSum]
  | cons kv rest ih =>
    intro hnd
    obtain ⟨k, v⟩ := kv
    simp only [List.map_cons, List.nodup_cons] at hnd
    simp only [List.map_cons, List.sum_cons, assocValsSum]
    have hhead : lookupD ((k, v) :: rest) k 0 = v := by
      simp [lookupD, List.lookup]
    have htail : (rest.map Prod.fst).map (fun c => lookupD ((k, v) :: rest) c 0) =
        (rest.map Prod.fst).map (fun c => lookupD rest c 0) := by
      apply List.map_congr_left
      intro c hc
      have hck : ¬ (c == k) = true := by
        simp only [beq_iff_eq]
        intro he
        exact hnd.1 (he ▸ hc)
      simp [lookupD, List.lookup, hck]
    rw [hhead, htail, ih hnd.2]
    simp [assocValsSum]

end PredictSumFacts

section PredictSum

/-- Ranking neither adds, removes nor rescales cup probabilities. -/
theorem rankResults_cup_sum (rs : List PredictionResult) :
    ((rankResults rs).map PredictionResult.cupWinProbability).sum =
      (rs.map PredictionResult.cupWinProbability).sum := by
  unfold rankResults
  set srt := rs.insertionSort
    (fun a b : PredictionResult => b.compositeStrength ≤ a.compositeStrength) with hsrt
  rw [List.map_map]
  have hfun : (PredictionResult.cupWinProbability ∘ fun p : PredictionResult × ℕ =>
      { p.1 with strengthRank := p.2 + 1 }) =
      (PredictionResult.cupWinProbability ∘ Prod.fst) := rfl
  rw [hfun, ← List.map_map, List.map_fst_zip _ _ (by simp)]
  exact (((List.perm_insertionSort _ rs).map PredictionResult.cupWinProbability)).sum_eq

/-- The cup probabilities reported by `predict` are exactly the values of
the normalized dict, summed over the (duplicate-free) team list. -/
theorem predict_cup_sum (teams : List TeamSeason) (pps gbs nns : List ℚ)
    (mc : MonteCarloResult) (strengths : List (String × ℚ)) (useNN : Bool)
    (ciFn : ℚ → ℚ × ℚ) (h1 : pps.length = teams.length)
    (h2 : gbs.length = teams.length) (h3 : nns.length = teams.length)
    (hnd : (teams.map TeamSeason.team).Nodup) :
    ((predict teams pps gbs nns mc strengths useNN ciFn).map
        PredictionResult.cupWinProbability).sum =
      assocValsSum (normalizeCupProbs
        (buildRawCupProbs teams pps gbs nns mc.cupProbabilities useNN [])) := by
  unfold predict
  rw [rankResults_cup_sum]
  unfold buildResults
  rw [List.map_map]
  set normalized := normalizeCupProbs
    (buildRawCupProbs teams pps gbs nns mc.cupProbabilities useNN []) with hnormalized
  have hfun : (PredictionResult.cupWinProbability ∘ fun r : TeamSeason × ℚ =>
      ({ team := r.1.team, season := r.1.season,
         compositeStrength := lookupD strengths r.1.team 0, strengthRank := 0,
         playoffProbability := r.2,
         conferenceFinalProbability := lookupD mc.confFinalAppearanceProbs r.1.team 0,
         cupFinalProbability := lookupD mc.cupFinalProbs r.1.team 0,
         cupWinProbability := lookupD normalized r.1.team 0,
         cupProbLower := (ciFn (lookupD normalized r.1.team 0)).1,
         cupProbUpper := (ciFn (lookupD normalized r.1.team 0)).2,
         tier := classifyTierPercentile (lookupD strengths r.1.team 0)
           (strengths.map Prod.snd) } : PredictionResult)) =
      ((fun c => lookupD normalized c 0) ∘ TeamSeason.team ∘ Prod.fst) := rfl
  rw [hfun]
  have hzip : (teams.zip pps).map
      ((fun c => lookupD normalized c 0) ∘ TeamSeason.team ∘ Prod.fst) =
      (teams.map TeamSeason.team).map (fun c => lookupD normalized c 0) := by
    rw [← List.map_map, ← List.map_map, List.map_fst_zip _ _ (le_of_eq h1.symm)]
  rw [hzip]
  have hkeys : normalized.map Prod.fst = teams.map TeamSeason.team := by
    rw [hnormalized, normalizeCupProbs_keys]
    have := buildRaw_keys mc.cupProbabilities useNN teams pps gbs nns [] h1 h2 h3
      (by simpa using hnd)
    simpa using this
  rw [← hkeys]
  exact sum_lookup_aligned normalized (by rw [hkeys]; exact hnd)

end PredictSum

/-- C3 counterexample: a `predict` call whose gated cup mass is zero takes
the fallback branch, which assigns `1/32` per team; with two teams the
reported cup probabilities sum to `1/16`, not 1, so the claim's "including
the fallback branch" part is false. -/
theorem c3_counterexample :
    ¬ (((predict predictTeams [9 / 10, 9 / 10] [0, 0] [0, 0]
        ⟨[], [], ⟨[], []⟩, [], [], ⟨[], []⟩, ⟨[], []⟩, [], []⟩
        [("T1", 60), ("T2", 50)] true (fun p => (p, p))).map
          PredictionResult.cupWinProbability).sum = 1) := by
  have h1 : ("T1" : String) ≠ "T2" := by decide
  have h2 : ("T2" : String) ≠ "T1" := by decide
  have h3 : (("T2" : String) == "T1") = false := by decide
  have h4 : (("T1" : String) == "T1") = true := by decide
  have h5 : (("T2" : String) == "T2") = true := by decide
  have h6 : (("T1" : String) == "T2") = false := by decide
  have hev : (predict predictTeams [9 / 10, 9 / 10] [0, 0] [0, 0]
      ⟨[], [], ⟨[], []⟩, [], [], ⟨[], []⟩, ⟨[], []⟩, [], []⟩
      [("T1", 60), ("T2", 50)] true (fun p => (p, p))).map
        PredictionResult.cupWinProbability = [1 / 32, 1 / 32] := by
    norm_num [predict, predictTeams, buildRawCupProbs, normalizeCupProbs,
      buildResults, rankResults, classifyTierPercentile, lookupD, setKey, bumpBy,
      List.insertionSort, List.orderedInsert, List.lookup, List.range_succ,
      List.zip_cons_cons, List.zip_nil_right, List.zip_nil_left, h1, h2, h3, h4, h5, h6]
  rw [hev]
  norm_num

/-- C3 (amended): for every Monte Carlo run with at least one trial, the
championship probabilities in the result sum to exactly 1 (hence within
1e-6); for every `predict` call over duplicate-free team codes with
per-team classifier outputs, the reported cup probabilities sum to exactly
1 whenever the total gated mass is positive, but in the fallback branch
(non-positive total mass) they sum to `|teams| / 32`, which equals 1 only
for a 32-team list. -/
theorem c3_amended (cfg : MCConfig) (hn : 0 < cfg.nSims)
    (teams : List TeamSeason) (pps gbs nns : List ℚ) (mc : MonteCarloResult)
    (strengths : List (String × ℚ)) (useNN : Bool) (ciFn : ℚ → ℚ × ℚ)
    (h1 : pps.length = teams.length) (h2 : gbs.length = teams.length)
    (h3 : nns.length = teams.length) (hnd : (teams.map TeamSeason.team).Nodup) :
    assocValsSum (simulate cfg).cupProbabilities = 1 ∧
    (0 < assocValsSum (buildRawCupProbs teams pps gbs nns mc.cupProbabilities useNN []) →
      ((predict teams pps gbs nns mc strengths useNN ciFn).map
        PredictionResult.cupWinProbability).sum = 1) ∧
    (¬ 0 < assocValsSum (buildRawCupProbs teams pps gbs nns mc.cupProbabilities useNN []) →
      ((predict teams pps gbs nns mc strengths useNN ciFn).map
        PredictionResult.cupWinProbability).sum = (teams.length : ℚ) / 32) := by
  refine ⟨?_, ?_, ?_⟩
  · have hcup : (simulate cfg).cupProbabilities =
        (mcFinalState cfg).cupWins.map
          (fun kv => (kv.1, (kv.2 : ℚ) / (cfg.nSims : ℚ))) := rfl
    rw [hcup, assocValsSum_map_div_nat, mcFinalState_cup_total]
    have hne : (cfg.nSims : ℚ) ≠ 0 := by
      exact_mod_cast Nat.pos_iff_ne_zero.1 hn
    exact div_self hne
  · intro hpos
    rw [predict_cup_sum teams pps gbs nns mc strengths useNN ciFn h1 h2 h3 hnd]
    exact normalizeCupProbs_sum_pos _ hpos
  · intro hneg
    rw [predict_cup_sum teams pps gbs nns mc strengths useNN ciFn h1 h2 h3 hnd]
    rw [normalizeCupProbs_sum_fallback _ hneg]
    have hlenraw : (buildRawCupProbs teams pps gbs nns mc.cupProbabilities useNN []).length =
        teams.length := by
      have hk := buildRaw_keys mc.cupProbabilities useNN teams pps gbs nns [] h1 h2 h3
        (by simpa using hnd)
      have := congrArg List.length hk
      simpa using this
    rw [hlenraw]

/-- C3 witness: the amended conservation statement instantiated at a
one-trial Monte Carlo configuration and a concrete two-team `predict`
call. -/
theorem c3_witness :
    0 < scenarioW.nSims ∧
    ([9 / 10, 9 / 10] : List ℚ).length = predictTeams.length ∧
    ([0, 0] : List ℚ).length = predictTeams.length ∧
    (predictTeams.map TeamSeason.team).Nodup ∧
    (assocValsSum (simulate scenarioW).cupProbabilities = 1 ∧
     (0 < assocValsSum (buildRawCupProbs predictTeams [9 / 10, 9 / 10] [0, 0] [0, 0]
        mcForPredict.cupProbabilities true []) →
       ((predict predictTeams [9 / 10, 9 / 10] [0, 0] [0, 0] mcForPredict
         [("T1", 60), ("T2", 50)] true (fun p => (p, p))).map
           PredictionResult.cupWinProbability).sum = 1) ∧
     (¬ 0 < assocValsSum (buildRawCupProbs predictTeams [9 / 10, 9 / 10] [0, 0] [0, 0]
        mcForPredict.cupProbabilities true []) →
       ((predict predictTeams [9 / 10, 9 / 10] [0, 0] [0, 0] mcForPredict
         [("T1", 60), ("T2", 50)] true (fun p => (p, p))).map
           PredictionResult.cupWinProbability).sum = (predictTeams.length : ℚ) / 32)) :=
  ⟨by decide, by decide, by decide, by decide,
   c3_amended scenarioW (by decide) predictTeams [9 / 10, 9 / 10] [0, 0] [0, 0]
     mcForPredict [("T1", 60), ("T2", 50)] true (fun p => (p, p))
     (by decide) (by decide) (by decide) (by decide)⟩

section AdvancementFacts

variable {κ : Type} {α : Type} [DecidableEq κ] [BEq κ] [LawfulBEq κ]

/-- Reading a dict after an upsert. -/
theorem lookupD_bumpBy (d : List (κ × α)) (k k2 : κ) (f : α → α) (init dflt : α) :
    lookupD (bumpBy d k f init) k2 dflt =
      if k2 = k then f ((d.lookup k).getD init) else lookupD d k2 dflt := by
  induction d with
  | nil =>
    by_cases h : k2 = k
    · simp [bumpBy, lookupD, List.lookup, h]
    · have hb : (k2 == k) = false := by
        simp only [beq_eq_false_iff_ne, ne_eq]
        exact h
      simp [bumpBy, lookupD, List.lookup, h, hb]
  | cons kv rest ih =>
    obtain ⟨k3, v⟩ := kv
    unfold bumpBy
    by_cases h3 : k3 = k
    · subst h3
      by_cases h : k2 = k3
      · subst h
        simp [lookupD, List.lookup]
      · have hb : (k2 == k3) = false := by
          simp only [beq_eq_false_iff_ne, ne_eq]
          exact h
        simp [lookupD, List.lookup, hb, h]
    · by_cases h : k2 = k3
      · subst h
        simp [lookupD, List.lookup, h3]
      · have hb : (k2 == k3) = false := by
          simp only [beq_eq_false_iff_ne, ne_eq]
          exact h
        have hk3 : (k == k3) = false := by
          simp only [beq_eq_false_iff_ne, ne_eq]
          exact fun he => h3 he.symm
        rw [if_neg h3]
        simp only [lookupD, List.lookup, hb, hk3] at ih ⊢
        exact ih

end AdvancementFacts

section AdvancementCounts

/-- Reading a count dict after a bump. -/
theorem lookupD_bumpCount {κ : Type} [DecidableEq κ] [BEq κ] [LawfulBEq κ]
    (d : List (κ × ℕ)) (k t : κ) :
    lookupD (bumpCount d k) t 0 = lookupD d t 0 + (if t = k then 1 else 0) := by
  unfold bumpCount
  rw [lookupD_bumpBy]
  by_cases h : t = k
  · subst h
    simp [lookupD]
  · simp [h]

/-- Reading the nested advancement dict after one bump. -/
theorem lookup2_bumpAdv (d : List (String × List (ℕ × ℕ))) (team t : String)
    (r0 r : ℕ) :
    lookupD (lookupD (bumpAdv d team r0) t []) r 0 =
      lookupD (lookupD d t []) r 0 + (if t = team ∧ r = r0 then 1 else 0) := by
  unfold bumpAdv
  rw [lookupD_bumpBy]
  by_cases h : t = team
  · subst h
    rw [if_pos rfl]
    have : lookupD d t [] = (d.lookup t).getD [] := rfl
    rw [← this, lookupD_bumpCount]
    by_cases hr : r = r0
    · simp [hr]
    · simp [hr]
  · simp [h]

/-- Reading the advancement dict after bumping a whole winners list. -/
theorem lookup2_foldl_bumpAdv (r0 : ℕ) :
    ∀ (l : List String) (d : List (String × List (ℕ × ℕ))) (t : String) (r : ℕ),
      lookupD (lookupD (l.foldl (fun d2 team => bumpAdv d2 team r0) d) t []) r 0 =
        lookupD (lookupD d t []) r 0 + (if r = r0 then l.count t else 0) := by
  intro l
  induction l with
  | nil => intro d t r; simp
  | cons a l ih =>
    intro d t r
    rw [List.foldl_cons, ih, lookup2_bumpAdv]
    have hc : (a :: l).count t = l.count t + (if t = a then 1 else 0) := by
      by_cases h : t = a
      · subst h; simp [List.count_cons]
      · simp [List.count_cons, h, Ne.symm h]
    rw [hc]
    by_cases hr : r = r0 <;> by_cases ht : t = a <;> simp [hr, ht] <;> omega

/-- The round-1 walk returns one winner per matchup. -/
theorem runRound1_len (u : ℕ → ℝ) (strengths : String → Option ℝ) :
    ∀ (start : ℕ) (ms : List (String × String)),
      (runRound1 u strengths start ms).1.length = ms.length := by
  intro start ms
  induction ms generalizing start with
  | nil => rfl
  | cons m ms ih =>
    rw [runRound1]
    by_cases h : m.2 = "BYE"
    · simp only [if_pos h, List.length_cons]
      rw [ih]
    · simp only [if_neg h, List.length_cons]
      rw [ih]

/-- Seeding always returns exactly 4 matchups, on every path. -/
theorem seedConference_length (getDiv : String → String)
    (ps : List TeamSeason) (simPts : String → Option ℚ) :
    (seedConference getDiv ps simPts).length = 4 := by
  unfold seedConference
  dsimp only
  repeat' split
  all_goals rfl

/-- A series winner is one of the two participants. -/
theorem simulateSeries_winner (u : ℕ → ℝ) (start : ℕ) (a b : String)
    (sa sb : ℝ) (r : ℕ) :
    (simulateSeries u start a b sa sb r).1 = a ∨
      (simulateSeries u start a b sa sb r).1 = b := by
  unfold simulateSeries
  dsimp only
  split <;> simp

end AdvancementCounts

section TraceFacts

/-- Two winners drawn one from each sub-bracket pair occur at most as often
as the four round-1 winners. -/
theorem count_pair_le (t a b c d x y : String) (hx : x = a ∨ x = b)
    (hy : y = c ∨ y = d) : [x, y].count t ≤ [a, b, c, d].count t := by
  rcases hx with h | h <;> rcases hy with h2 | h2 <;> subst h <;> subst h2 <;>
    · simp only [List.count_cons, List.count_nil, beq_iff_eq]
      split_ifs <;> omega

/-- The champion indicator is bounded by the round-2 winner count. -/
theorem count_champ_le (t x y ch : String) (h : ch = x ∨ ch = y) :
    (if t = ch then 1 else 0) ≤ [x, y].count t := by
  rcases h with h | h <;> subst h <;>
    · simp only [List.count_cons, List.count_nil, beq_iff_eq]
      split_ifs <;> simp_all

/-- Per-trace multiplicity facts behind monotone advancement: every round-2
win corresponds to a distinct round-1 win, and the conference champion is a
round-2 winner. -/
theorem simulateConference_counts (getDiv : String → String) (u : ℕ → ℝ)
    (start : ℕ) (ps : List TeamSeason) (strengths : String → Option ℝ)
    (simPts : String → Option ℚ) (t : String) :
    (simulateConference getDiv u start ps strengths simPts).1.r2Winners.count t ≤
      (simulateConference getDiv u start ps strengths simPts).1.r1Winners.count t ∧
    (if t = (simulateConference getDiv u start ps strengths simPts).1.confChampion
      then 1 else 0) ≤
      (simulateConference getDiv u start ps strengths simPts).1.r2Winners.count t := by
  unfold simulateConference
  dsimp only
  have hlen : (runRound1 u strengths start (seedConference getDiv ps simPts)).1.length = 4 := by
    rw [runRound1_len, seedConference_length]
  set r1l := (runRound1 u strengths start (seedConference getDiv ps simPts)).1 with hr1l
  obtain ⟨a, r1l', hcons⟩ : ∃ a r1l', r1l = a :: r1l' := by
    cases hc : r1l with
    | nil => rw [hc] at hlen; simp at hlen
    | cons x xs => exact ⟨x, xs, rfl⟩
  obtain ⟨b, r1l2, hcons2⟩ : ∃ b r1l2, r1l' = b :: r1l2 := by
    cases hc : r1l' with
    | nil => rw [hcons, hc] at hlen; simp at hlen
    | cons x xs => exact ⟨x, xs, rfl⟩
  obtain ⟨c, r1l3, hcons3⟩ : ∃ c r1l3, r1l2 = c :: r1l3 := by
    cases hc : r1l2 with
    | nil => rw [hcons, hcons2, hc] at hlen; simp at hlen
    | cons x xs => exact ⟨x, xs, rfl⟩
  obtain ⟨d, r1l4, hcons4⟩ : ∃ d r1l4, r1l3 = d :: r1l4 := by
    cases hc : r1l3 with
    | nil => rw [hcons, hcons2, hcons3, hc] at hlen; simp at hlen
    | cons x xs => exact ⟨x, xs, rfl⟩
  have hnil : r1l4 = [] := by
    rw [hcons, hcons2, hcons3, hcons4] at hlen
    simpa using hlen
  have hform : r1l = [a, b, c, d] := by
    rw [hcons, hcons2, hcons3, hcons4, hnil]
  rw [hform]
  have hg0 : ([a, b, c, d].getD 0 "") = a := rfl
  have hg1 : ([a, b, c, d].getD 1 "") = b := rfl
  have hg2 : ([a, b, c, d].getD 2 "") = c := rfl
  have hg3 : ([a, b, c, d].getD 3 "") = d := rfl
  rw [hg0, hg1, hg2, hg3]
  set s1 := simulateSeries u (runRound1 u strengths start
    (seedConference getDiv ps simPts)).2 a b
    ((strengths a).getD 50) ((strengths b).getD 50) 2 with hs1
  set s2 := simulateSeries u s1.2 c d
    ((strengths c).getD 50) ((strengths d).getD 50) 2 with hs2
  set cf := simulateSeries u s2.2 s1.1 s2.1
    ((strengths s1.1).getD 50) ((strengths s2.1).getD 50) 3 with hcf
  have hx : s1.1 = a ∨ s1.1 = b := by
    rw [hs1]
    exact simulateSeries_winner _ _ _ _ _ _ _
  have hy : s2.1 = c ∨ s2.1 = d := by
    rw [hs2]
    exact simulateSeries_winner _ _ _ _ _ _ _
  have hch : cf.1 = s1.1 ∨ cf.1 = s2.1 := by
    rw [hcf]
    exact simulateSeries_winner _ _ _ _ _ _ _
  exact ⟨count_pair_le t a b c d s1.1 s2.1 hx hy,
    count_champ_le t s1.1 s2.1 cf.1 hch⟩

end TraceFacts

section AdvancementInvariant

/-- The round-advancement counters written by one conference recording. -/
theorem recordConf_roundAdv (conf : String) (tr : ConfTrace) (st : SimState) :
    (recordConf conf tr st).roundAdv =
      bumpAdv (tr.r2Winners.foldl (fun d team => bumpAdv d team 2)
        (tr.r1Winners.foldl (fun d team => bumpAdv d team 1) st.roundAdv))
        tr.confChampion 3 := rfl

/-- The round-advancement counters after one full trial. -/
theorem runTrial_roundAdv (cfg : MCConfig) (st : SimState) (i : ℕ) :
    (runTrial cfg st i).roundAdv =
      bumpAdv (bumpAdv
        (recordConf "West" (trialWest cfg st i).1
          (recordConf "East" (trialEast cfg st i).1 st)).roundAdv
        (trialEast cfg st i).1.confChampion 4)
        (trialWest cfg st i).1.confChampion 4 := by
  unfold runTrial trialWest trialEast trialSimPts
  dsimp only

/-- The cup-win counters after one full trial. -/
theorem runTrial_cupWins_eq (cfg : MCConfig) (st : SimState) (i : ℕ) :
    (runTrial cfg st i).cupWins = bumpCount st.cupWins (trialCup cfg st i).1 := by
  unfold runTrial trialCup trialWest trialEast trialSimPts
  dsimp only
  rw [recordConf_cupWins, recordConf_cupWins]

/-- Per-trace counting facts for the eastern trace of a trial. -/
theorem trialEast_counts (cfg : MCConfig) (st : SimState) (i : ℕ) (t : String) :
    (trialEast cfg st i).1.r2Winners.count t ≤
        (trialEast cfg st i).1.r1Winners.count t ∧
    (if t = (trialEast cfg st i).1.confChampion then 1 else 0) ≤
        (trialEast cfg st i).1.r2Winners.count t := by
  unfold trialEast
  exact simulateConference_counts _ _ _ _ _ _ t

/-- Per-trace counting facts for the western trace of a trial. -/
theorem trialWest_counts (cfg : MCConfig) (st : SimState) (i : ℕ) (t : String) :
    (trialWest cfg st i).1.r2Winners.count t ≤
        (trialWest cfg st i).1.r1Winners.count t ∧
    (if t = (trialWest cfg st i).1.confChampion then 1 else 0) ≤
        (trialWest cfg st i).1.r2Winners.count t := by
  unfold trialWest
  exact simulateConference_counts _ _ _ _ _ _ t

/-- The cup winner of a trial is one of the two conference champions. -/
theorem trialCup_winner (cfg : MCConfig) (st : SimState) (i : ℕ) :
    (trialCup cfg st i).1 = (trialEast cfg st i).1.confChampion ∨
    (trialCup cfg st i).1 = (trialWest cfg st i).1.confChampion := by
  unfold trialCup
  exact simulateSeries_winner _ _ _ _ _ _ _

/-- Closed form of a team's advancement counter after one trial. -/
theorem runTrial_advCount (cfg : MCConfig) (st : SimState) (i : ℕ)
    (t : String) (r : ℕ) :
    advCount (runTrial cfg st i) t r =
      advCount st t r
      + (if r = 1 then (trialEast cfg st i).1.r1Winners.count t else 0)
      + (if r = 2 then (trialEast cfg st i).1.r2Winners.count t else 0)
      + (if t = (trialEast cfg st i).1.confChampion ∧ r = 3 then 1 else 0)
      + (if r = 1 then (trialWest cfg st i).1.r1Winners.count t else 0)
      + (if r = 2 then (trialWest cfg st i).1.r2Winners.count t else 0)
      + (if t = (trialWest cfg st i).1.confChampion ∧ r = 3 then 1 else 0)
      + (if t = (trialEast cfg st i).1.confChampion ∧ r = 4 then 1 else 0)
      + (if t = (trialWest cfg st i).1.confChampion ∧ r = 4 then 1 else 0) := by
  show lookupD (lookupD (runTrial cfg st i).roundAdv t []) r 0 = _
  rw [runTrial_roundAdv, lookup2_bumpAdv, lookup2_bumpAdv, recordConf_roundAdv,
    lookup2_bumpAdv, lookup2_foldl_bumpAdv, lookup2_foldl_bumpAdv,
    recordConf_roundAdv, lookup2_bumpAdv, lookup2_foldl_bumpAdv,
    lookup2_foldl_bumpAdv]
  rfl

/-- The empty counters satisfy the advancement invariant. -/
theorem advOk_init : advOk initState := by
  intro t
  exact ⟨Nat.le_refl 0, Nat.le_refl 0, rfl, Nat.le_refl 0⟩

/-- One simulation trial preserves the advancement invariant. -/
theorem advOk_runTrial (cfg : MCConfig) (st : SimState) (i : ℕ)
    (h : advOk st) : advOk (runTrial cfg st i) := by
  intro t
  obtain ⟨h12, h23, h34, hc⟩ := h t
  obtain ⟨hE2, hE3⟩ := trialEast_counts cfg st i t
  obtain ⟨hW2, hW3⟩ := trialWest_counts cfg st i t
  have hcw := trialCup_winner cfg st i
  have h1e : advCount (runTrial cfg st i) t 1 =
      advCount st t 1 + (trialEast cfg st i).1.r1Winners.count t
        + (trialWest cfg st i).1.r1Winners.count t := by
    rw [runTrial_advCount]
    simp
  have h2e : advCount (runTrial cfg st i) t 2 =
      advCount st t 2 + (trialEast cfg st i).1.r2Winners.count t
        + (trialWest cfg st i).1.r2Winners.count t := by
    rw [runTrial_advCount]
    simp
  have h3e : advCount (runTrial cfg st i) t 3 =
      advCount st t 3
        + (if t = (trialEast cfg st i).1.confChampion then 1 else 0)
        + (if t = (trialWest cfg st i).1.confChampion then 1 else 0) := by
    rw [runTrial_advCount]
    simp
  have h4e : advCount (runTrial cfg st i) t 4 =
      advCount st t 4
        + (if t = (trialEast cfg st i).1.confChampion then 1 else 0)
        + (if t = (trialWest cfg st i).1.confChampion then 1 else 0) := by
    rw [runTrial_advCount]
    simp
  have hcupEq : lookupD (runTrial cfg st i).cupWins t 0 =
      lookupD st.cupWins t 0
        + (if t = (trialCup cfg st i).1 then 1 else 0) := by
    rw [runTrial_cupWins_eq, lookupD_bumpCount]
  refine ⟨?_, ?_, ?_, ?_⟩
  · rw [h1e, h2e]
    omega
  · rw [h2e, h3e]
    omega
  · rw [h3e, h4e]
    omega
  · rw [hcupEq, h4e]
    rcases hcw with hh | hh
    · rw [hh]
      omega
    · rw [hh]
      omega

/-- Any run of trials from an invariant-satisfying state preserves the
invariant. -/
theorem advOk_foldl (cfg : MCConfig) :
    ∀ (l : List ℕ) (st : SimState), advOk st →
      advOk (l.foldl (runTrial cfg) st) := by
  intro l
  induction l with
  | nil => intro st h; exact h
  | cons a l ih =>
    intro st h
    exact ih _ (advOk_runTrial cfg st a h)

/-- The final counter state of every Monte Carlo run satisfies the
advancement invariant. -/
theorem advOk_mcFinalState (cfg : MCConfig) : advOk (mcFinalState cfg) := by
  unfold mcFinalState
  exact advOk_foldl cfg _ _ advOk_init

/-- Reading an association list whose entries were generated per key. -/
theorem lookupD_map_keys {α : Type} (codes : List String) (F : String → α)
    (t : String) (dflt : α) :
    lookupD (codes.map fun c => (c, F c)) t dflt =
      if t ∈ codes then F t else dflt := by
  induction codes with
  | nil => simp [lookupD, List.lookup]
  | cons c cs ih =>
    by_cases h : t = c
    · subst h
      simp [lookupD, List.lookup]
    · have hb : (t == c) = false := by simp [h]
      simp only [List.map_cons, lookupD, List.lookup, hb, List.mem_cons, h,
        false_or] at ih ⊢
      exact ih

/-- Reading an association list whose values were all divided by `n`. -/
theorem lookupD_map_val (l : List (String × ℕ)) (n : ℚ) (t : String) :
    lookupD (l.map fun kv => (kv.1, (kv.2 : ℚ) / n)) t 0 =
      (((lookupD l t 0 : ℕ) : ℚ)) / n := by
  induction l with
  | nil => simp [lookupD, List.lookup]
  | cons kv rest ih =>
    obtain ⟨k, v⟩ := kv
    by_cases h : t = k
    · subst h
      simp [lookupD, List.lookup]
    · have hb : (t == k) = false := by simp [h]
      simp only [List.map_cons, lookupD, List.lookup, hb] at ih ⊢
      exact ih

/-- Dividing a monotone pair of counts by a common nonnegative denominator
preserves the order. -/
theorem cast_div_mono (a b : ℕ) (n : ℚ) (hn : 0 ≤ n) (h : a ≤ b) :
    (a : ℚ) / n ≤ (b : ℚ) / n := by
  have hq : (a : ℚ) ≤ (b : ℚ) := by exact_mod_cast h
  have h2 := mul_le_mul_of_nonneg_right hq (inv_nonneg.2 hn)
  simpa [div_eq_mul_inv] using h2

end AdvancementInvariant

/-- C7: in every Monte Carlo result, every team's round-advancement row is
monotonically nonincreasing: round-2 probability is at most round-1,
round-3 (conference championship) at most round-2, championship-final
appearance at most round-3 (the code in fact makes these two equal), and
championship win at most championship-final appearance. -/
theorem c7_monotonic_advancement (cfg : MCConfig) (team : String) :
    (advRow (simulate cfg) team).r2 ≤ (advRow (simulate cfg) team).r1 ∧
    (advRow (simulate cfg) team).r3 ≤ (advRow (simulate cfg) team).r2 ∧
    (advRow (simulate cfg) team).r4 ≤ (advRow (simulate cfg) team).r3 ∧
    (advRow (simulate cfg) team).cup ≤ (advRow (simulate cfg) team).r4 := by
  obtain ⟨h12, h23, h34, hcup⟩ := advOk_mcFinalState cfg team
  unfold advRow simulate buildResult
  dsimp only
  rw [lookupD_map_keys]
  by_cases hmem : team ∈ cfg.teams.map TeamSeason.team
  · rw [if_pos hmem]
    dsimp only
    have hn : (0 : ℚ) ≤ (cfg.nSims : ℚ) := Nat.cast_nonneg _
    refine ⟨cast_div_mono _ _ _ hn h12, cast_div_mono _ _ _ hn h23,
      cast_div_mono _ _ _ hn (le_of_eq h34), ?_⟩
    rw [lookupD_map_val]
    exact cast_div_mono _ _ _ hn hcup
  · rw [if_neg hmem]
    exact ⟨le_refl _, le_refl _, le_refl _, le_refl _⟩

section LoserTwinEquivalence

/-- With the constant draw 2 the first team loses every game: each clipped
game probability is at most 0.85 < 2. -/
theorem winDraw_two (start : ℕ) (p : ℝ) (g : ℕ) :
    winDraw (fun _ => 2) start p g = false := by
  unfold winDraw
  simp only [decide_eq_false_iff_not, not_lt]
  calc gameProb p g ≤ 85 / 100 := gameProb_upper p g
    _ ≤ 2 := by norm_num

/-- A series whose every game is lost by the first team ends 0-4. -/
theorem gameLoop_false (win : ℕ → Bool) (h : ∀ g, win g = false) :
    gameLoop win 8 0 0 = (0, 4) := by
  simp [gameLoop, h]

/-- Under the constant draw 2 the second team sweeps and the draw stream
advances by exactly four games. -/
theorem simulateSeries_two (start : ℕ) (a b : String) (sa sb : ℝ) (r : ℕ) :
    simulateSeries (fun _ => 2) start a b sa sb r = (b, start + 4) := by
  unfold simulateSeries
  dsimp only
  rw [gameLoop_false _ (winDraw_two start (probA sa sb r))]
  norm_num

/-- Round-1 walk agreement with its computable twin under the constant
draw 2. -/
theorem runRound1_two (strengths : String → Option ℝ) :
    ∀ (start : ℕ) (ms : List (String × String)),
      runRound1 (fun _ => 2) strengths start ms = runRound1Loser start ms := by
  intro start ms
  induction ms generalizing start with
  | nil => rfl
  | cons m ms ih =>
    rw [runRound1, runRound1Loser]
    by_cases h : m.2 = "BYE"
    · simp only [if_pos h, ih]
    · simp only [if_neg h, simulateSeries_two, ih]

/-- Conference-simulation agreement with its computable twin under the
constant draw 2. -/
theorem simulateConference_two (getDiv : String → String) (start : ℕ)
    (ps : List TeamSeason) (strengths : String → Option ℝ)
    (simPts : String → Option ℚ) :
    simulateConference getDiv (fun _ => 2) start ps strengths simPts =
      simulateConferenceLoser getDiv start ps simPts := by
  unfold simulateConference simulateConferenceLoser
  dsimp only
  rw [runRound1_two]
  simp only [simulateSeries_two]

/-- Trial agreement with its computable twin under the constant draw 2. -/
theorem runTrial_two (cfg : MCConfig) (hu : cfg.u = fun _ => 2)
    (st : SimState) (i : ℕ) :
    runTrial cfg st i =
      runTrialLoser cfg.getDiv cfg.getConf cfg.teams cfg.noise st i := by
  unfold runTrial runTrialLoser
  rw [hu]
  dsimp only
  simp only [simulateConference_two, simulateSeries_two]

/-- Whole-run agreement with the computable twin under the constant
draw 2. -/
theorem mcFinalState_two (cfg : MCConfig) (hu : cfg.u = fun _ => 2) :
    mcFinalState cfg =
      mcFinalStateLoser cfg.getDiv cfg.getConf cfg.teams cfg.noise cfg.nSims := by
  unfold mcFinalState mcFinalStateLoser
  have h : ∀ (l : List ℕ) (st : SimState),
      l.foldl (runTrial cfg) st =
        l.foldl (runTrialLoser cfg.getDiv cfg.getConf cfg.teams cfg.noise) st := by
    intro l
    induction l with
    | nil => intro st; rfl
    | cons a l ih =>
      intro st
      rw [List.foldl_cons, List.foldl_cons, runTrial_two cfg hu, ih]
  exact h _ _

/-- Boolean equality of pairs componentwise, for concrete evaluation. -/
theorem prod_beq_def {α β : Type} [BEq α] [BEq β] (a b : α) (c d : β) :
    ((a, c) == (b, d)) = (a == b && c == d) := rfl

/-- Boolean equality of strings as a decidable proposition, for concrete
evaluation. -/
theorem string_beq_decide (a b : String) : (a == b) = decide (a = b) := by
  by_cases h : a = b <;> simp [h]

end LoserTwinEquivalence

section MatchupListFacts

/-- Everything the breakdown-list fold appends comes from a tracker entry
meeting the count threshold. -/
theorem trackerFold_spec (n minCount : ℚ) :
    ∀ (l : List ((String × String × String) × (ℕ × ℕ)))
      (acc : ConfSplit (List (String × String × ℚ × ℚ))),
      (∀ e ∈ (l.foldl (trackerStep n minCount) acc).east,
        e ∈ acc.east ∨ ∃ kv ∈ l, minCount ≤ (kv.2.1 : ℚ) ∧
          e = trackerEntry n (kv.1.1, kv.1.2.1) kv.2) ∧
      (∀ e ∈ (l.foldl (trackerStep n minCount) acc).west,
        e ∈ acc.west ∨ ∃ kv ∈ l, minCount ≤ (kv.2.1 : ℚ) ∧
          e = trackerEntry n (kv.1.1, kv.1.2.1) kv.2) := by
  intro l
  induction l with
  | nil =>
    intro acc
    exact ⟨fun e he => Or.inl he, fun e he => Or.inl he⟩
  | cons kv l ih =>
    intro acc
    constructor
    · intro e he
      rw [List.foldl_cons] at he
      rcases (ih (trackerStep n minCount acc kv)).1 e he with h | ⟨kv2, hkv2, hc, hee⟩
      · unfold trackerStep at h
        split_ifs at h with h1 h2 h3
        · rcases List.mem_append.1 h with h4 | h4
          · exact Or.inl h4
          · simp only [List.mem_singleton] at h4
            exact Or.inr ⟨kv, List.mem_cons_self _ _, h1, h4⟩
        · exact Or.inl h
        · exact Or.inl h
        · exact Or.inl h
      · exact Or.inr ⟨kv2, List.mem_cons_of_mem _ hkv2, hc, hee⟩
    · intro e he
      rw [List.foldl_cons] at he
      rcases (ih (trackerStep n minCount acc kv)).2 e he with h | ⟨kv2, hkv2, hc, hee⟩
      · unfold trackerStep at h
        split_ifs at h with h1 h2 h3
        · exact Or.inl h
        · rcases List.mem_append.1 h with h4 | h4
          · exact Or.inl h4
          · simp only [List.mem_singleton] at h4
            exact Or.inr ⟨kv, List.mem_cons_self _ _, h1, h4⟩
        · exact Or.inl h
        · exact Or.inl h
      · exact Or.inr ⟨kv2, List.mem_cons_of_mem _ hkv2, hc, hee⟩

/-- Every entry of a breakdown list comes from a tracker entry meeting the
count threshold. -/
theorem trackerResult_spec (n minCount : ℚ)
    (tracker : List ((String × String × String) × (ℕ × ℕ))) :
    (∀ e ∈ (trackerResult n minCount tracker).east,
      ∃ kv ∈ tracker, minCount ≤ (kv.2.1 : ℚ) ∧
        e = trackerEntry n (kv.1.1, kv.1.2.1) kv.2) ∧
    (∀ e ∈ (trackerResult n minCount tracker).west,
      ∃ kv ∈ tracker, minCount ≤ (kv.2.1 : ℚ) ∧
        e = trackerEntry n (kv.1.1, kv.1.2.1) kv.2) := by
  unfold trackerResult
  constructor
  · intro e he
    rcases (trackerFold_spec n minCount _ ⟨[], []⟩).1 e he with h | ⟨kv, hkv, hc, hee⟩
    · exact absurd h (List.not_mem_nil e)
    · exact ⟨kv, (List.perm_insertionSort _ tracker).subset hkv, hc, hee⟩
  · intro e he
    rcases (trackerFold_spec n minCount _ ⟨[], []⟩).2 e he with h | ⟨kv, hkv, hc, hee⟩
    · exact absurd h (List.not_mem_nil e)
    · exact ⟨kv, (List.perm_insertionSort _ tracker).subset hkv, hc, hee⟩

/-- Everything the cup-final list fold appends comes from a tracker entry
meeting the count threshold. -/
theorem cupFinalFold_spec (n c : ℚ) :
    ∀ (l : List ((String × String) × (ℕ × ℕ)))
      (acc : List (String × String × ℚ × ℚ)),
      ∀ e ∈ l.foldl (cupFinalStep n c) acc,
        e ∈ acc ∨ ∃ kv ∈ l, c ≤ (kv.2.1 : ℚ) ∧ e = trackerEntry n kv.1 kv.2 := by
  intro l
  induction l with
  | nil => intro acc e he; exact Or.inl he
  | cons kv l ih =>
    intro acc e he
    rw [List.foldl_cons] at he
    rcases ih _ e he with h | ⟨kv2, hkv2, hc, hee⟩
    · unfold cupFinalStep at h
      split_ifs at h with h1
      · rcases List.mem_append.1 h with h4 | h4
        · exact Or.inl h4
        · simp only [List.mem_singleton] at h4
          exact Or.inr ⟨kv, List.mem_cons_self _ _, h1, h4⟩
      · exact Or.inl h
    · exact Or.inr ⟨kv2, List.mem_cons_of_mem _ hkv2, hc, hee⟩

/-- Appending a fresh matchup to a consolidated bracket preserves the
display properties. -/
theorem projInv_extend (proj : List (String × String × ℚ)) (seen : List String)
    (a b : String) (entry : String × String × ℚ)
    (hinv : projInv proj seen) (hlen : proj.length < 4)
    (ha : a ∉ seen) (hb : b ∉ seen)
    (hE1 : entry.1 = a ∨ entry.1 = b) (hE2 : entry.2.1 = a ∨ entry.2.1 = b)
    (hEp : ∃ q : ℚ, 1 / 2 ≤ q ∧ entry.2.2 = round3 q) :
    projInv (proj ++ [entry]) (seen ++ [a, b]) := by
  obtain ⟨hl, hseen, hpw, hform⟩ := hinv
  have hne : ∀ x ∈ seen, ∀ y : String, y = a ∨ y = b → x ≠ y := by
    intro x hx y hy
    rcases hy with rfl | rfl
    · exact fun hxy => ha (hxy ▸ hx)
    · exact fun hxy => hb (hxy ▸ hx)
  refine ⟨?_, ?_, ?_, ?_⟩
  · rw [List.length_append]
    simp only [List.length_singleton]
    omega
  · intro e he
    rcases List.mem_append.1 he with h | h
    · obtain ⟨h1, h2⟩ := hseen e h
      exact ⟨List.mem_append_left _ h1, List.mem_append_left _ h2⟩
    · simp only [List.mem_singleton] at h
      subst h
      constructor
      · rcases hE1 with h1 | h1 <;> rw [h1] <;>
          exact List.mem_append_right _ (by simp)
      · rcases hE2 with h1 | h1 <;> rw [h1] <;>
          exact List.mem_append_right _ (by simp)
  · rw [List.pairwise_append]
    refine ⟨hpw, List.pairwise_singleton _ _, ?_⟩
    intro e1 h1 e2 h2
    simp only [List.mem_singleton] at h2
    subst h2
    obtain ⟨hs1, hs2⟩ := hseen e1 h1
    exact ⟨hne _ hs1 _ hE1, hne _ hs1 _ hE2, hne _ hs2 _ hE1, hne _ hs2 _ hE2⟩
  · intro e he
    rcases List.mem_append.1 he with h | h
    · exact hform e h
    · simp only [List.mem_singleton] at h
      subst h
      exact hEp

/-- One greedy step preserves the display properties of both conferences'
projected brackets. -/
theorem greedyStep_inv (pw : List ((String × String × String) × ℕ))
    (acc : ConfSplit (List (String × String × ℚ)) × ConfSplit (List String))
    (kv : (String × String × String) × ℕ)
    (h : projInv acc.1.east acc.2.east ∧ projInv acc.1.west acc.2.west) :
    projInv (greedyStep pw acc kv).1.east (greedyStep pw acc kv).2.east ∧
    projInv (greedyStep pw acc kv).1.west (greedyStep pw acc kv).2.west := by
  unfold greedyStep
  dsimp only
  by_cases hconf : kv.1.2.2 = "East"
  · simp only [if_pos hconf]
    split_ifs with h1 h2 hpc
    · exact h
    · exact h
    · refine ⟨?_, h.2⟩
      exact projInv_extend _ _ _ _ _ h.1 (lt_of_not_le h1)
        (not_or.1 h2).1 (not_or.1 h2).2 (Or.inl rfl) (Or.inr rfl) ⟨_, hpc, rfl⟩
    · refine ⟨?_, h.2⟩
      refine projInv_extend _ _ _ _ _ h.1 (lt_of_not_le h1)
        (not_or.1 h2).1 (not_or.1 h2).2 (Or.inr rfl) (Or.inl rfl) ⟨_, ?_, rfl⟩
      have hx := not_le.1 hpc
      linarith
  · simp only [if_neg hconf]
    split_ifs with h1 h2 hpc
    · exact h
    · exact h
    · refine ⟨h.1, ?_⟩
      exact projInv_extend _ _ _ _ _ h.2 (lt_of_not_le h1)
        (not_or.1 h2).1 (not_or.1 h2).2 (Or.inl rfl) (Or.inr rfl) ⟨_, hpc, rfl⟩
    · refine ⟨h.1, ?_⟩
      refine projInv_extend _ _ _ _ _ h.2 (lt_of_not_le h1)
        (not_or.1 h2).1 (not_or.1 h2).2 (Or.inr rfl) (Or.inl rfl) ⟨_, ?_, rfl⟩
      have hx := not_le.1 hpc
      linarith

/-- The empty bracket satisfies the display properties. -/
theorem projInv_nil : projInv [] [] := by
  refine ⟨by simp, by simp, List.Pairwise.nil, by simp⟩

/-- The whole greedy fold preserves the display properties of both
conferences' projected brackets. -/
theorem greedyFold_inv (pw : List ((String × String × String) × ℕ)) :
    ∀ (l : List ((String × String × String) × ℕ))
      (acc : ConfSplit (List (String × String × ℚ)) × ConfSplit (List String)),
      projInv acc.1.east acc.2.east → projInv acc.1.west acc.2.west →
      projInv (l.foldl (greedyStep pw) acc).1.east
        (l.foldl (greedyStep pw) acc).2.east ∧
      projInv (l.foldl (greedyStep pw) acc).1.west
        (l.foldl (greedyStep pw) acc).2.west := by
  intro l
  induction l with
  | nil => intro acc h1 h2; exact ⟨h1, h2⟩
  | cons kv l ih =>
    intro acc h1 h2
    rw [List.foldl_cons]
    have hstep := greedyStep_inv pw acc kv ⟨h1, h2⟩
    exact ih _ hstep.1 hstep.2

/-- The greedy fold from the empty bracket yields display-valid projected
brackets for both conferences. -/
theorem greedyFold_inv0 (pw : List ((String × String × String) × ℕ))
    (l : List ((String × String × String) × ℕ)) :
    projInv (l.foldl (greedyStep pw) (⟨[], []⟩, ⟨[], []⟩)).1.east
      (l.foldl (greedyStep pw) (⟨[], []⟩, ⟨[], []⟩)).2.east ∧
    projInv (l.foldl (greedyStep pw) (⟨[], []⟩, ⟨[], []⟩)).1.west
      (l.foldl (greedyStep pw) (⟨[], []⟩, ⟨[], []⟩)).2.west :=
  greedyFold_inv pw l (⟨[], []⟩, ⟨[], []⟩) projInv_nil projInv_nil

end MatchupListFacts

set_option maxHeartbeats 4000000 in
/-- C6 (refuted part): in `scenarioA` the projected eastern first-round
bracket displays the matchup `M4` v `M2`, which occurred in only one of the
three trials - under 50% - so projected-bracket entries carry no
minimum-occurrence guarantee. -/
theorem c6_counterexample :
    ("M4", "M2", (1 : ℚ)) ∈ (simulate scenarioA).projectedMatchups.east ∧
    ¬ ((scenarioA.nSims : ℚ) * (1 / 2) ≤
        (((lookupD (pairCountsOf (mcFinalState scenarioA))
          (pairKeyOf "East" ("M4", "M2", (1 : ℚ))) 0 : ℕ)) : ℚ)) := by
  have hst : mcFinalState scenarioA =
      mcFinalStateLoser (fun _ => "Unknown") (fun _ => "East") scenarioTeams
        scenarioNoise 3 := mcFinalState_two scenarioA rfl
  have hfin : mcFinalStateLoser (fun _ => "Unknown") (fun _ => "East")
      scenarioTeams scenarioNoise 3 =
      (⟨[("BYE", 3)],
        [("M5", [(1, 3), (2, 1), (3, 1), (4, 1)]), ("A3", [(1, 3), (2, 3)]),
         ("M4", [(1, 3), (2, 1), (3, 1), (4, 1)]),
         ("M3", [(1, 3), (2, 1), (3, 1), (4, 1)]),
         ("BYE", [(1, 12), (2, 6), (3, 3), (4, 3)])],
        [("M3", 1), ("BYE", 3), ("M4", 1), ("M5", 1)],
        [(("A1", "M5", "East"), 2), (("A2", "A3", "East"), 3),
         (("M1", "M4", "East"), 1), (("M2", "M3", "East"), 1),
         (("BYE", "BYE", "West"), 12), (("M1", "M3", "East"), 2),
         (("M2", "M4", "East"), 1), (("A1", "M4", "East"), 1),
         (("M2", "M5", "East"), 1)],
        [(("BYE", "BYE", "West"), 12)],
        [(("A3", "M5", "East"), (2, 2)), (("M3", "M4", "East"), (2, 1)),
         (("BYE", "BYE", "West"), (6, 12)), (("A3", "M4", "East"), (1, 1)),
         (("M3", "M5", "East"), (1, 0))],
        [(("A3", "M3", "East"), (1, 0)), (("BYE", "BYE", "West"), (3, 3)),
         (("A3", "M4", "East"), (1, 0)), (("A3", "M5", "East"), (1, 0))],
        [(("BYE", "M3"), (1, 1)), (("BYE", "M4"), (1, 1)),
         (("BYE", "M5"), (1, 1))],
        132⟩ : SimState) := by
    norm_num +decide [mcFinalStateLoser, runTrialLoser, simulateConferenceLoser,
      runRound1Loser, initState, recordConf, bumpAdv, bumpCount, bumpBy, setKey,
      lookupD, sortPairStr, selectPlayoffTeams, seedConference,
      seedConferenceSimple, groupByKey, addToGroup, divisionOf, sortByPtsDesc,
      ptsGe, ptsW, projectedPts, remainingGames, gamesInSeason, dummyTeam,
      scenarioTeams, scenarioNoise, List.insertionSort, List.orderedInsert,
      List.range_succ, List.lookup, prod_beq_def, string_beq_decide]
  have hsim : simulate scenarioA =
      buildResult (mcFinalState scenarioA) scenarioTeams 3 := rfl
  rw [hsim, hst, hfin]
  constructor
  · norm_num +decide [buildResult, consolidatePairs, greedyStep, lookupD, bumpBy,
      sortPairStr, round3, roundHalfEven, List.insertionSort,
      List.orderedInsert, List.lookup, prod_beq_def, string_beq_decide]
  · norm_num +decide [pairCountsOf, consolidatePairs, lookupD, bumpBy,
      sortPairStr, pairKeyOf, List.lookup, prod_beq_def, string_beq_decide,
      scenarioA]

/-- C6 (amended): breakdown lists really are thresholded - every round-2 and
conference-final entry arises from a tracker entry counted in at least 5% of
trials, every championship-final pairing from one counted in at least 1% -
and each conference's projected bracket has at most four matchups, no team
in two of them, and shows the more likely winner first; but projected
matchups themselves carry no occurrence threshold. -/
theorem c6_amended (cfg : MCConfig) :
    (∀ e ∈ (simulate cfg).r2Matchups.east,
      ∃ kv ∈ (mcFinalState cfg).r2Tracker,
        (cfg.nSims : ℚ) * (5 / 100) ≤ (kv.2.1 : ℚ) ∧
        e = trackerEntry (cfg.nSims : ℚ) (kv.1.1, kv.1.2.1) kv.2) ∧
    (∀ e ∈ (simulate cfg).r2Matchups.west,
      ∃ kv ∈ (mcFinalState cfg).r2Tracker,
        (cfg.nSims : ℚ) * (5 / 100) ≤ (kv.2.1 : ℚ) ∧
        e = trackerEntry (cfg.nSims : ℚ) (kv.1.1, kv.1.2.1) kv.2) ∧
    (∀ e ∈ (simulate cfg).confFinalMatchups.east,
      ∃ kv ∈ (mcFinalState cfg).cfTracker,
        (cfg.nSims : ℚ) * (5 / 100) ≤ (kv.2.1 : ℚ) ∧
        e = trackerEntry (cfg.nSims : ℚ) (kv.1.1, kv.1.2.1) kv.2) ∧
    (∀ e ∈ (simulate cfg).confFinalMatchups.west,
      ∃ kv ∈ (mcFinalState cfg).cfTracker,
        (cfg.nSims : ℚ) * (5 / 100) ≤ (kv.2.1 : ℚ) ∧
        e = trackerEntry (cfg.nSims : ℚ) (kv.1.1, kv.1.2.1) kv.2) ∧
    (∀ e ∈ (simulate cfg).cupFinalMatchups,
      ∃ kv ∈ (mcFinalState cfg).cupFinalTracker,
        (cfg.nSims : ℚ) * (1 / 100) ≤ (kv.2.1 : ℚ) ∧
        e = trackerEntry (cfg.nSims : ℚ) kv.1 kv.2) ∧
    ((simulate cfg).projectedMatchups.east.length ≤ 4 ∧
      (simulate cfg).projectedMatchups.east.Pairwise
        (fun e1 e2 => e1.1 ≠ e2.1 ∧ e1.1 ≠ e2.2.1 ∧
          e1.2.1 ≠ e2.1 ∧ e1.2.1 ≠ e2.2.1) ∧
      ∀ e ∈ (simulate cfg).projectedMatchups.east,
        ∃ q : ℚ, 1 / 2 ≤ q ∧ e.2.2 = round3 q) ∧
    ((simulate cfg).projectedMatchups.west.length ≤ 4 ∧
      (simulate cfg).projectedMatchups.west.Pairwise
        (fun e1 e2 => e1.1 ≠ e2.1 ∧ e1.1 ≠ e2.2.1 ∧
          e1.2.1 ≠ e2.1 ∧ e1.2.1 ≠ e2.2.1) ∧
      ∀ e ∈ (simulate cfg).projectedMatchups.west,
        ∃ q : ℚ, 1 / 2 ≤ q ∧ e.2.2 = round3 q) := by
  have hsim : simulate cfg =
      buildResult (mcFinalState cfg) cfg.teams cfg.nSims := rfl
  rw [hsim]
  unfold buildResult
  dsimp only
  refine ⟨?_, ?_, ?_, ?_, ?_, ?_, ?_⟩
  · exact (trackerResult_spec _ _ _).1
  · exact (trackerResult_spec _ _ _).2
  · exact (trackerResult_spec _ _ _).1
  · exact (trackerResult_spec _ _ _).2
  · intro e he
    rcases cupFinalFold_spec _ _ _ _ e he with h | ⟨kv, hkv, hc, hee⟩
    · exact absurd h (List.not_mem_nil e)
    · exact ⟨kv, (List.perm_insertionSort _ _).subset hkv, hc, hee⟩
  · obtain ⟨⟨hl, hsn, hpw2, hform⟩, h2⟩ := greedyFold_inv0 _ _
    exact ⟨hl, hpw2, hform⟩
  · obtain ⟨h2, hl, hsn, hpw2, hform⟩ := greedyFold_inv0 _ _
    exact ⟨hl, hpw2, hform⟩

section GroupByKeyTheory

variable {α : Type}

/-- `addToGroup` gives every stored element the key of its group. -/
theorem addToGroup_forall_key (key : α → String) (k : String) (x : α)
    (hx : key x = k) :
    ∀ (G : List (String × List α)),
      (∀ kg ∈ G, ∀ y ∈ kg.2, key y = kg.1) →
      ∀ kg ∈ addToGroup k x G, ∀ y ∈ kg.2, key y = kg.1 := by
  intro G
  induction G with
  | nil =>
    intro _ kg hkg y hy
    simp only [addToGroup, List.mem_singleton] at hkg
    subst hkg
    simp only [List.mem_singleton] at hy
    subst hy
    exact hx
  | cons kv rest ih =>
    obtain ⟨k2, xs⟩ := kv
    intro hG kg hkg y hy
    unfold addToGroup at hkg
    split_ifs at hkg with h2
    · rcases List.mem_cons.1 hkg with h | h
      · subst h
        rcases List.mem_append.1 hy with h3 | h3
        · exact hG (k2, xs) (List.mem_cons_self _ _) y h3
        · simp only [List.mem_singleton] at h3
          subst h3
          rw [hx, h2]
      · exact hG kg (List.mem_cons_of_mem _ h) y hy
    · rcases List.mem_cons.1 hkg with h | h
      · subst h
        exact hG (k2, xs) (List.mem_cons_self _ _) y hy
      · exact ih (fun kg2 hkg2 => hG kg2 (List.mem_cons_of_mem _ hkg2)) kg h y hy

/-- Every element stored by `groupByKey` carries its group's key. -/
theorem groupByKey_forall_key (key : α → String) (l : List α) :
    ∀ kg ∈ groupByKey key l, ∀ x ∈ kg.2, key x = kg.1 := by
  suffices h : ∀ (acc : List (String × List α)),
      (∀ kg ∈ acc, ∀ y ∈ kg.2, key y = kg.1) →
      ∀ kg ∈ l.foldl (fun a t => addToGroup (key t) t a) acc,
        ∀ y ∈ kg.2, key y = kg.1 by
    exact h [] (by simp)
  induction l with
  | nil => intro acc hacc; simpa using hacc
  | cons t l ih =>
    intro acc hacc
    rw [List.foldl_cons]
    exact ih _ (addToGroup_forall_key key (key t) t rfl acc hacc)

/-- The keys after an `addToGroup` step. -/
theorem addToGroup_keys (k : String) (x : α) :
    ∀ (G : List (String × List α)),
      (addToGroup k x G).map Prod.fst =
        if k ∈ G.map Prod.fst then G.map Prod.fst
        else G.map Prod.fst ++ [k] := by
  intro G
  induction G with
  | nil => simp [addToGroup]
  | cons kv rest ih =>
    obtain ⟨k2, xs⟩ := kv
    unfold addToGroup
    by_cases h2 : k2 = k
    · subst h2
      simp
    · rw [if_neg h2]
      simp only [List.map_cons, List.mem_cons]
      rw [ih]
      by_cases h3 : k ∈ rest.map Prod.fst
      · rw [if_pos h3, if_pos (Or.inr h3)]
      · rw [if_neg h3, if_neg (by
          intro h4
          rcases h4 with h4 | h4
          · exact h2 h4.symm
          · exact h3 h4)]
        simp

/-- `groupByKey` produces pairwise-distinct keys. -/
theorem groupByKey_keys_nodup (key : α → String) (l : List α) :
    ((groupByKey key l).map Prod.fst).Nodup := by
  suffices h : ∀ (acc : List (String × List α)),
      (acc.map Prod.fst).Nodup →
      ((l.foldl (fun a t => addToGroup (key t) t a) acc).map Prod.fst).Nodup by
    exact h [] (by simp)
  induction l with
  | nil => intro acc hacc; simpa using hacc
  | cons t l ih =>
    intro acc hacc
    rw [List.foldl_cons]
    apply ih
    rw [addToGroup_keys]
    split_ifs with h
    · exact hacc
    · rw [List.nodup_append]
      exact ⟨hacc, List.nodup_singleton _, by simpa using h⟩

/-- Flattening after an `addToGroup` step is a permutation of consing. -/
theorem addToGroup_flatten_perm (k : String) (x : α) :
    ∀ (G : List (String × List α)),
      ((addToGroup k x G).map Prod.snd).flatten.Perm
        (x :: (G.map Prod.snd).flatten) := by
  intro G
  induction G with
  | nil => simp [addToGroup]
  | cons kv rest ih =>
    obtain ⟨k2, xs⟩ := kv
    unfold addToGroup
    by_cases h2 : k2 = k
    · rw [if_pos h2]
      simp only [List.map_cons, List.flatten_cons, List.append_assoc,
        List.singleton_append]
      exact List.perm_middle
    · rw [if_neg h2]
      simp only [List.map_cons, List.flatten_cons]
      exact (List.Perm.append_left xs ih).trans List.perm_middle

/-- The grouped elements are a permutation of the input list. -/
theorem groupByKey_flatten_perm (key : α → String) (l : List α) :
    (((groupByKey key l).map Prod.snd).flatten).Perm l := by
  suffices h : ∀ (acc : List (String × List α)),
      (((l.foldl (fun a t => addToGroup (key t) t a) acc).map
        Prod.snd).flatten).Perm (l ++ (acc.map Prod.snd).flatten) by
    simpa using h []
  induction l with
  | nil => intro acc; simp
  | cons t l ih =>
    intro acc
    rw [List.foldl_cons]
    exact (ih _).trans
      ((List.Perm.append_left l (addToGroup_flatten_perm (key t) t acc)).trans
        List.perm_middle)

/-- `addToGroup` never creates an empty group. -/
theorem addToGroup_nonempty (k : String) (x : α) :
    ∀ (G : List (String × List α)),
      (∀ kg ∈ G, kg.2 ≠ []) →
      ∀ kg ∈ addToGroup k x G, kg.2 ≠ [] := by
  intro G
  induction G with
  | nil =>
    intro _ kg hkg
    simp only [addToGroup, List.mem_singleton] at hkg
    subst hkg
    simp
  | cons kv rest ih =>
    obtain ⟨k2, xs⟩ := kv
    intro hG kg hkg
    unfold addToGroup at hkg
    split_ifs at hkg with h2
    · rcases List.mem_cons.1 hkg with h | h
      · subst h; simp
      · exact hG kg (List.mem_cons_of_mem _ h)
    · rcases List.mem_cons.1 hkg with h | h
      · subst h
        exact hG (k2, xs) (List.mem_cons_self _ _)
      · exact ih (fun kg2 hkg2 => hG kg2 (List.mem_cons_of_mem _ hkg2)) kg h

/-- `groupByKey` never creates an empty group. -/
theorem groupByKey_nonempty (key : α → String) (l : List α) :
    ∀ kg ∈ groupByKey key l, kg.2 ≠ [] := by
  suffices h : ∀ (acc : List (String × List α)),
      (∀ kg ∈ acc, kg.2 ≠ []) →
      ∀ kg ∈ l.foldl (fun a t => addToGroup (key t) t a) acc, kg.2 ≠ [] by
    exact h [] (by simp)
  induction l with
  | nil => intro acc hacc; simpa using hacc
  | cons t l ih =>
    intro acc hacc
    rw [List.foldl_cons]
    exact ih _ (addToGroup_nonempty (key t) t acc hacc)

end GroupByKeyTheory

section SimpleFallback

/-- Removing a sorted block's top three by any predicate that rejects them
leaves at least three fewer teams than the block. -/
theorem filter_sorted_block_le (simPts : String → Option ℚ)
    (g : List TeamSeason) (P : TeamSeason → Bool) (h3 : 3 ≤ g.length)
    (hP : ∀ t ∈ (sortByPtsDesc simPts g).take 3, P t = false) :
    (g.filter P).length + 3 ≤ g.length := by
  have hpm : (List.filter P (sortByPtsDesc simPts g)).length =
      (g.filter P).length :=
    ((List.perm_insertionSort _ g).filter P).length_eq
  have hnil : List.filter P ((sortByPtsDesc simPts g).take 3) = [] :=
    List.filter_eq_nil_iff.2 (fun a ha => by simp [hP a ha])
  have hlen : (sortByPtsDesc simPts g).length = g.length :=
    (List.perm_insertionSort _ g).length_eq
  have hsplit : List.filter P (sortByPtsDesc simPts g) =
      List.filter P ((sortByPtsDesc simPts g).take 3) ++
        List.filter P ((sortByPtsDesc simPts g).drop 3) := by
    rw [← List.filter_append, List.take_append_drop]
  have hle : (List.filter P ((sortByPtsDesc simPts g).drop 3)).length ≤
      ((sortByPtsDesc simPts g).drop 3).length :=
    List.length_filter_le _ _
  rw [List.length_drop] at hle
  rw [← hpm, hsplit, List.length_append, hnil]
  simp only [List.length_nil, Nat.zero_add]
  omega

/-- With two divisions of at least three teams each but fewer than eight
teams in total, fewer than two wildcard candidates remain. -/
theorem wildcards_short (simPts : String → Option ℚ)
    (ps g0 g1 : List TeamSeason) (P : TeamSeason → Bool)
    (hperm : (g0 ++ g1).Perm ps) (h0 : 3 ≤ g0.length) (h1 : 3 ≤ g1.length)
    (hps : ps.length < 8)
    (hW0 : ∀ t ∈ (sortByPtsDesc simPts g0).take 3, P t = false)
    (hW1 : ∀ t ∈ (sortByPtsDesc simPts g1).take 3, P t = false) :
    (sortByPtsDesc simPts (ps.filter P)).length < 2 := by
  have hb0 := filter_sorted_block_le simPts g0 P h0 hW0
  have hb1 := filter_sorted_block_le simPts g1 P h1 hW1
  have hlen : (sortByPtsDesc simPts (ps.filter P)).length =
      (ps.filter P).length :=
    (List.perm_insertionSort _ _).length_eq
  have hpf : (ps.filter P).length =
      (g0.filter P).length + (g1.filter P).length := by
    rw [← (hperm.filter P).length_eq, List.filter_append, List.length_append]
  have hptot : g0.length + g1.length = ps.length := by
    rw [← hperm.length_eq, List.length_append]
  omega

end SimpleFallback

/-- C8: whenever the division structure is malformed - not exactly two
divisions, some division with fewer than three teams, or fewer than eight
teams in total so that two wildcard candidates cannot remain - seeding falls
back to the simple ranked 1v8/2v7/3v6/4v5 pairing and still returns exactly
four matchups. -/
theorem c8_malformed_fallback (getDiv : String → String)
    (ps : List TeamSeason) (simPts : String → Option ℚ)
    (h : (groupByKey (divisionOf getDiv) ps).length ≠ 2 ∨
         (∃ g ∈ groupByKey (divisionOf getDiv) ps, g.2.length < 3) ∨
         ps.length < 8) :
    seedConference getDiv ps simPts = seedConferenceSimple ps simPts ∧
    (seedConference getDiv ps simPts).length = 4 := by
  refine ⟨?_, seedConference_length getDiv ps simPts⟩
  unfold seedConference
  dsimp only
  by_cases hglen : (groupByKey (divisionOf getDiv) ps).length = 2
  case neg =>
    rw [if_pos]
    rw [(List.perm_insertionSort _ _).length_eq, List.length_map,
      List.length_map]
    exact hglen
  case pos =>
    have hsmall : (∃ g ∈ groupByKey (divisionOf getDiv) ps, g.2.length < 3) ∨
        ps.length < 8 := by
      rcases h with h | h | h
      · exact absurd hglen h
      · exact Or.inl h
      · exact Or.inr h
    obtain ⟨g0p, g1p, hgl⟩ := List.length_eq_two.1 hglen
    obtain ⟨d0, g0⟩ := g0p
    obtain ⟨d1, g1⟩ := g1p
    have hkeys := groupByKey_keys_nodup (divisionOf getDiv) ps
    rw [hgl] at hkeys
    have hd01 : d0 ≠ d1 := by
      simp only [List.map_cons, List.map_nil, List.nodup_cons,
        List.mem_singleton] at hkeys
      exact hkeys.1
    have hne0 : g0 ≠ [] :=
      groupByKey_nonempty (divisionOf getDiv) ps (d0, g0)
        (by rw [hgl]; exact List.mem_cons_self _ _)
    have hne1 : g1 ≠ [] :=
      groupByKey_nonempty (divisionOf getDiv) ps (d1, g1)
        (by rw [hgl]; exact List.mem_cons_of_mem _ (List.mem_cons_self _ _))
    have hperm : (g0 ++ g1).Perm ps := by
      have h2 := groupByKey_flatten_perm (divisionOf getDiv) ps
      rw [hgl] at h2
      simpa using h2
    have hsmall2 : g0.length < 3 ∨ g1.length < 3 ∨
        (3 ≤ g0.length ∧ 3 ≤ g1.length ∧ ps.length < 8) := by
      rcases hsmall with h2 | h2
      · obtain ⟨g, hg, hlt⟩ := h2
        rw [hgl] at hg
        rcases List.mem_cons.1 hg with h3 | h3
        · subst h3; exact Or.inl hlt
        · simp only [List.mem_singleton] at h3
          subst h3
          exact Or.inr (Or.inl hlt)
      · rcases Nat.lt_or_ge g0.length 3 with h0 | h0
        · exact Or.inl h0
        · rcases Nat.lt_or_ge g1.length 3 with h1 | h1
          · exact Or.inr (Or.inl h1)
          · exact Or.inr (Or.inr ⟨h0, h1, h2⟩)
    rw [hgl]
    simp only [List.map_cons, List.map_nil]
    have he10 : (d1 == d0) = false := beq_eq_false_iff_ne.2 (Ne.symm hd01)
    have hs0len : (sortByPtsDesc simPts g0).length = g0.length :=
      (List.perm_insertionSort _ g0).length_eq
    have hs1len : (sortByPtsDesc simPts g1).length = g1.length :=
      (List.perm_insertionSort _ g1).length_eq
    obtain ⟨u0, s0r, hs0⟩ : ∃ u0 s0r, sortByPtsDesc simPts g0 = u0 :: s0r := by
      cases hc : sortByPtsDesc simPts g0 with
      | nil =>
        rw [hc] at hs0len
        exact absurd (List.length_eq_zero.1 hs0len.symm) hne0
      | cons x xs => exact ⟨x, xs, rfl⟩
    obtain ⟨v0, s1r, hs1⟩ : ∃ v0 s1r, sortByPtsDesc simPts g1 = v0 :: s1r := by
      cases hc : sortByPtsDesc simPts g1 with
      | nil =>
        rw [hc] at hs1len
        exact absurd (List.length_eq_zero.1 hs1len.symm) hne1
      | cons x xs => exact ⟨x, xs, rfl⟩
    by_cases hord : d0 ≤ d1
    · have hsort : List.insertionSort (fun a b => a ≤ b) [d0, d1] = [d0, d1] := by
        simp [List.insertionSort, List.orderedInsert, hord]
      simp only [hsort]
      rw [if_neg (by norm_num)]
      simp only [List.getD_cons_zero, List.getD_cons_succ, List.lookup,
        beq_self_eq_true, he10, Option.getD_some]
      simp only [hs0, hs1, List.head?_cons]
      have hs0len2 : s0r.length + 1 = g0.length := by
        have h5 := hs0len
        rw [hs0] at h5
        simpa using h5
      have hs1len2 : s1r.length + 1 = g1.length := by
        have h5 := hs1len
        rw [hs1] at h5
        simpa using h5
      rcases hsmall2 with hb | hb | hb
      · rw [if_pos (Or.inl (by rw [List.length_take, List.length_cons]; omega))]
      · rw [if_pos (Or.inr (Or.inl
          (by rw [List.length_take, List.length_cons]; omega)))]
      · obtain ⟨h0, h1, hps⟩ := hb
        refine if_pos (Or.inr (Or.inr (wildcards_short simPts ps g0 g1 _
          hperm h0 h1 hps ?_ ?_)))
        · intro t ht
          rw [hs0] at ht
          simp only [decide_eq_false_iff_not]
          intro hw
          rw [List.mem_filter] at hw
          have h2 := hw.2
          simp only [Bool.and_eq_true, decide_eq_true_eq] at h2
          exact h2.1 (List.mem_map_of_mem _ ht)
        · intro t ht
          rw [hs1] at ht
          simp only [decide_eq_false_iff_not]
          intro hw
          rw [List.mem_filter] at hw
          have h2 := hw.2
          simp only [Bool.and_eq_true, decide_eq_true_eq] at h2
          exact h2.2 (List.mem_map_of_mem _ ht)
    · have hord2 : d1 ≤ d0 := le_of_not_le hord
      have hsort : List.insertionSort (fun a b => a ≤ b) [d0, d1] = [d1, d0] := by
        simp [List.insertionSort, List.orderedInsert, hord, hord2]
      simp only [hsort]
      rw [if_neg (by norm_num)]
      simp only [List.getD_cons_zero, List.getD_cons_succ, List.lookup,
        beq_self_eq_true, he10, Option.getD_some]
      simp only [hs0, hs1, List.head?_cons]
      have hs0len2 : s0r.length + 1 = g0.length := by
        have h5 := hs0len
        rw [hs0] at h5
        simpa using h5
      have hs1len2 : s1r.length + 1 = g1.length := by
        have h5 := hs1len
        rw [hs1] at h5
        simpa using h5
      rcases hsmall2 with hb | hb | hb
      · rw [if_pos (Or.inr (Or.inl
          (by rw [List.length_take, List.length_cons]; omega)))]
      · rw [if_pos (Or.inl (by rw [List.length_take, List.length_cons]; omega))]
      · obtain ⟨h0, h1, hps⟩ := hb
        refine if_pos (Or.inr (Or.inr (wildcards_short simPts ps g1 g0 _
          (List.perm_append_comm.trans hperm) h1 h0 hps ?_ ?_)))
        · intro t ht
          rw [hs1] at ht
          simp only [decide_eq_false_iff_not]
          intro hw
          rw [List.mem_filter] at hw
          have h2 := hw.2
          simp only [Bool.and_eq_true, decide_eq_true_eq] at h2
          exact h2.1 (List.mem_map_of_mem _ ht)
        · intro t ht
          rw [hs0] at ht
          simp only [decide_eq_false_iff_not]
          intro hw
          rw [List.mem_filter] at hw
          have h2 := hw.2
          simp only [Bool.and_eq_true, decide_eq_true_eq] at h2
          exact h2.2 (List.mem_map_of_mem _ ht)

/-- Witness: a conference with three divisions falls back to simple seeding
and yields exactly four matchups. -/
theorem c8_witness :
    (groupByKey (divisionOf (fun _ => "X")) c8Teams).length ≠ 2 ∧
    seedConference (fun _ => "X") c8Teams (fun _ => none) =
      seedConferenceSimple c8Teams (fun _ => none) ∧
    (seedConference (fun _ => "X") c8Teams (fun _ => none)).length = 4 :=
  ⟨by decide,
   (c8_malformed_fallback (fun _ => "X") c8Teams (fun _ => none)
     (Or.inl (by decide))).1,
   (c8_malformed_fallback (fun _ => "X") c8Teams (fun _ => none)
     (Or.inl (by decide))).2⟩

section EightTeamSeeding

set_option maxHeartbeats 4000000 in
/-- Real NHL seeding of a canonical selected field: the list is two
divisional trios followed by the two wildcards, each division's group
(trio plus its own wildcards) is already sorted by points, and all codes
are distinct.  Seed 1 is the division winner with no fewer points, paired
with the weaker wildcard; seed 2 with the stronger; each trio's 2nd plays
its 3rd. -/
theorem seedConference_eight
    (getDiv : String → String) (simPts : String → Option ℚ)
    (dA dB : String) (hAB : dA ≠ dB)
    (a0 a1 a2 b0 b1 b2 w1 w2 : TeamSeason)
    (wA wB : List TeamSeason)
    (hwshape : (wA = [] ∧ wB = [w1, w2]) ∨ (wA = [w1] ∧ wB = [w2]) ∨
      (wA = [w2] ∧ wB = [w1]) ∨ (wA = [w1, w2] ∧ wB = []))
    (hgrp : groupByKey (divisionOf getDiv) [a0, a1, a2, b0, b1, b2, w1, w2] =
      [(dA, [a0, a1, a2] ++ wA), (dB, [b0, b1, b2] ++ wB)])
    (hsortA : List.Sorted (ptsGe simPts) ([a0, a1, a2] ++ wA))
    (hsortB : List.Sorted (ptsGe simPts) ([b0, b1, b2] ++ wB))
    (hw21 : ptsW simPts w2 ≤ ptsW simPts w1)
    (hnd : ([a0, a1, a2, b0, b1, b2, w1, w2].map TeamSeason.team).Nodup) :
    (seedConference getDiv [a0, a1, a2, b0, b1, b2, w1, w2] simPts =
        [(a0.team, w2.team), (a1.team, a2.team), (b0.team, w1.team),
         (b1.team, b2.team)] ∧ ptsW simPts b0 ≤ ptsW simPts a0) ∨
    (seedConference getDiv [a0, a1, a2, b0, b1, b2, w1, w2] simPts =
        [(b0.team, w2.team), (b1.team, b2.team), (a0.team, w1.team),
         (a1.team, a2.team)] ∧ ptsW simPts a0 ≤ ptsW simPts b0) := by
  simp only [List.map_cons, List.map_nil, List.nodup_cons, List.mem_cons,
    List.mem_singleton, List.not_mem_nil, or_false, not_or] at hnd
  obtain ⟨⟨h01, h02, h03, h04, h05, h06, h07⟩,
    ⟨h12, h13, h14, h15, h16, h17⟩, ⟨h23, h24, h25, h26, h27⟩,
    ⟨h34, h35, h36, h37⟩, ⟨h45, h46, h47⟩, ⟨h56, h57⟩, h67, -⟩ := hnd
  have hsA : sortByPtsDesc simPts ([a0, a1, a2] ++ wA) = [a0, a1, a2] ++ wA := by
    unfold sortByPtsDesc
    exact hsortA.insertionSort_eq
  have hsB : sortByPtsDesc simPts ([b0, b1, b2] ++ wB) = [b0, b1, b2] ++ wB := by
    unfold sortByPtsDesc
    exact hsortB.insertionSort_eq
  have heBA : (dB == dA) = false := beq_eq_false_iff_ne.2 (Ne.symm hAB)
  have hsortW : List.Sorted (ptsGe simPts) [w1, w2] := by
    simp [List.sorted_cons, ptsGe, hw21]
  have hsW : sortByPtsDesc simPts [w1, w2] = [w1, w2] := by
    unfold sortByPtsDesc
    exact hsortW.insertionSort_eq
  unfold seedConference
  dsimp only
  simp only [hgrp, List.map_cons, List.map_nil, hsA, hsB]
  by_cases hord : dA ≤ dB
  · have hsortN : List.insertionSort (fun a b => a ≤ b) [dA, dB] = [dA, dB] := by
      simp [List.insertionSort, List.orderedInsert, hord]
    simp only [hsortN]
    rw [if_neg (by norm_num)]
    simp only [List.getD_cons_zero, List.getD_cons_succ, List.lookup,
      beq_self_eq_true, heBA, Option.getD_some]
    rcases hwshape with ⟨rfl, rfl⟩ | ⟨rfl, rfl⟩ | ⟨rfl, rfl⟩ | ⟨rfl, rfl⟩ <;>
      (by_cases hpts : ptsW simPts b0 ≤ ptsW simPts a0
       · refine Or.inl ⟨?_, hpts⟩
         simp [List.lookup, List.filter_cons, hsW, hpts, heBA,
                   h01, h02, h03, h04, h05, h06, h07, h12, h13, h14, h15, h16, h17,
                   h23, h24, h25, h26, h27, h34, h35, h36, h37, h45, h46, h47,
                   h56, h57, h67, Ne.symm h01, Ne.symm h02, Ne.symm h03, Ne.symm h04,
                   Ne.symm h05, Ne.symm h06, Ne.symm h07, Ne.symm h12, Ne.symm h13,
                   Ne.symm h14, Ne.symm h15, Ne.symm h16, Ne.symm h17, Ne.symm h23,
                   Ne.symm h24, Ne.symm h25, Ne.symm h26, Ne.symm h27, Ne.symm h34,
                   Ne.symm h35, Ne.symm h36, Ne.symm h37, Ne.symm h45, Ne.symm h46,
                   Ne.symm h47, Ne.symm h56, Ne.symm h57, Ne.symm h67]
       · refine Or.inr ⟨?_, le_of_not_le hpts⟩
         simp [List.lookup, List.filter_cons, hsW, hpts, heBA,
                   h01, h02, h03, h04, h05, h06, h07, h12, h13, h14, h15, h16, h17,
                   h23, h24, h25, h26, h27, h34, h35, h36, h37, h45, h46, h47,
                   h56, h57, h67, Ne.symm h01, Ne.symm h02, Ne.symm h03, Ne.symm h04,
                   Ne.symm h05, Ne.symm h06, Ne.symm h07, Ne.symm h12, Ne.symm h13,
                   Ne.symm h14, Ne.symm h15, Ne.symm h16, Ne.symm h17, Ne.symm h23,
                   Ne.symm h24, Ne.symm h25, Ne.symm h26, Ne.symm h27, Ne.symm h34,
                   Ne.symm h35, Ne.symm h36, Ne.symm h37, Ne.symm h45, Ne.symm h46,
                   Ne.symm h47, Ne.symm h56, Ne.symm h57, Ne.symm h67])
  · have hord2 : dB ≤ dA := le_of_not_le hord
    have hsortN : List.insertionSort (fun a b => a ≤ b) [dA, dB] = [dB, dA] := by
      simp [List.insertionSort, List.orderedInsert, hord, hord2]
    simp only [hsortN]
    rw [if_neg (by norm_num)]
    simp only [List.getD_cons_zero, List.getD_cons_succ, List.lookup,
      beq_self_eq_true, heBA, Option.getD_some]
    rcases hwshape with ⟨rfl, rfl⟩ | ⟨rfl, rfl⟩ | ⟨rfl, rfl⟩ | ⟨rfl, rfl⟩ <;>
      (by_cases hpts : ptsW simPts a0 ≤ ptsW simPts b0
       · refine Or.inr ⟨?_, hpts⟩
         simp [List.lookup, List.filter_cons, hsW, hpts, heBA,
                   h01, h02, h03, h04, h05, h06, h07, h12, h13, h14, h15, h16, h17,
                   h23, h24, h25, h26, h27, h34, h35, h36, h37, h45, h46, h47,
                   h56, h57, h67, Ne.symm h01, Ne.symm h02, Ne.symm h03, Ne.symm h04,
                   Ne.symm h05, Ne.symm h06, Ne.symm h07, Ne.symm h12, Ne.symm h13,
                   Ne.symm h14, Ne.symm h15, Ne.symm h16, Ne.symm h17, Ne.symm h23,
                   Ne.symm h24, Ne.symm h25, Ne.symm h26, Ne.symm h27, Ne.symm h34,
                   Ne.symm h35, Ne.symm h36, Ne.symm h37, Ne.symm h45, Ne.symm h46,
                   Ne.symm h47, Ne.symm h56, Ne.symm h57, Ne.symm h67]
       · refine Or.inl ⟨?_, le_of_not_le hpts⟩
         simp [List.lookup, List.filter_cons, hsW, hpts, heBA,
                   h01, h02, h03, h04, h05, h06, h07, h12, h13, h14, h15, h16, h17,
                   h23, h24, h25, h26, h27, h34, h35, h36, h37, h45, h46, h47,
                   h56, h57, h67, Ne.symm h01, Ne.symm h02, Ne.symm h03, Ne.symm h04,
                   Ne.symm h05, Ne.symm h06, Ne.symm h07, Ne.symm h12, Ne.symm h13,
                   Ne.symm h14, Ne.symm h15, Ne.symm h16, Ne.symm h17, Ne.symm h23,
                   Ne.symm h24, Ne.symm h25, Ne.symm h26, Ne.symm h27, Ne.symm h34,
                   Ne.symm h35, Ne.symm h36, Ne.symm h37, Ne.symm h45, Ne.symm h46,
                   Ne.symm h47, Ne.symm h56, Ne.symm h57, Ne.symm h67])

end EightTeamSeeding

section SelectionFacts

/-- A sorted trio followed by provably weaker, already-sorted wildcards is
sorted. -/
theorem sorted_three_append (simPts : String → Option ℚ)
    (x0 x1 x2 : TeamSeason) (ws : List TeamSeason)
    (h01 : ptsW simPts x1 ≤ ptsW simPts x0)
    (h12 : ptsW simPts x2 ≤ ptsW simPts x1)
    (hws : ∀ w ∈ ws, ptsW simPts w ≤ ptsW simPts x2)
    (hsw : List.Sorted (ptsGe simPts) ws) :
    List.Sorted (ptsGe simPts) ([x0, x1, x2] ++ ws) := by
  simp only [List.cons_append, List.nil_append]
  refine List.sorted_cons.2 ⟨?_, List.sorted_cons.2 ⟨?_,
    List.sorted_cons.2 ⟨?_, hsw⟩⟩⟩
  · intro b hb
    rcases List.mem_cons.1 hb with rfl | hb
    · exact h01
    · rcases List.mem_cons.1 hb with rfl | hb
      · exact le_trans h12 h01
      · exact le_trans (le_trans (hws b hb) h12) h01
  · intro b hb
    rcases List.mem_cons.1 hb with rfl | hb
    · exact h12
    · exact le_trans (hws b hb) h12
  · exact hws

/-- The permutation taking a displayed bracket's flattened codes back to the
selected field's code list. -/
theorem eight_flatten_perm (s1 x1 y1 s2 x2 y2 u v : String) :
    List.Perm [s1, v, x1, y1, s2, u, x2, y2]
      [s1, x1, y1, s2, x2, y2, u, v] := by
  have h1 : List.Perm [u, x2, y2] [x2, y2, u] :=
    (List.perm_append_singleton u [x2, y2]).symm
  have h2 : List.Perm [x1, y1, s2, u, x2, y2] [x1, y1, s2, x2, y2, u] :=
    ((h1.cons s2).cons y1).cons x1
  exact List.Perm.cons s1
    ((h2.cons v).trans (List.perm_append_singleton v [x1, y1, s2, x2, y2, u]).symm)

end SelectionFacts

set_option maxHeartbeats 4000000 in
/-- C1: for a conference grouped into exactly two divisions of at least
three teams each and at least eight teams overall, with distinct team
codes, playoff selection returns exactly 8 distinct teams and seeding
returns 4 matchups that partition them: seed 1 (a division winner with no
fewer projected points than any team of its division, and no fewer than the
other seed) plays the weaker wildcard, seed 2 the stronger wildcard, and
each division's 2nd-place qualifier plays that division's 3rd-place
qualifier. -/
theorem c1_selection_and_seeding (getDiv : String → String)
    (confTeams : List TeamSeason) (simPts : String → Option ℚ)
    (dA dB : String) (lA lB : List TeamSeason)
    (hg : groupByKey (divisionOf getDiv) confTeams = [(dA, lA), (dB, lB)])
    (hA : 3 ≤ lA.length) (hB : 3 ≤ lB.length)
    (hn8 : 8 ≤ confTeams.length)
    (hnd : (confTeams.map TeamSeason.team).Nodup) :
    (selectPlayoffTeams getDiv confTeams simPts).length = 8 ∧
    ((selectPlayoffTeams getDiv confTeams simPts).map TeamSeason.team).Nodup ∧
    (seedConference getDiv (selectPlayoffTeams getDiv confTeams simPts)
      simPts).length = 4 ∧
    ((seedConference getDiv (selectPlayoffTeams getDiv confTeams simPts)
      simPts).map (fun m => [m.1, m.2])).flatten.Perm
      ((selectPlayoffTeams getDiv confTeams simPts).map TeamSeason.team) ∧
    ∃ s1 x1 y1 s2 x2 y2 wc1 wc2 : TeamSeason,
      (selectPlayoffTeams getDiv confTeams simPts =
          [s1, x1, y1, s2, x2, y2, wc1, wc2] ∨
        selectPlayoffTeams getDiv confTeams simPts =
          [s2, x2, y2, s1, x1, y1, wc1, wc2]) ∧
      seedConference getDiv (selectPlayoffTeams getDiv confTeams simPts)
        simPts = [(s1.team, wc2.team), (x1.team, y1.team),
          (s2.team, wc1.team), (x2.team, y2.team)] ∧
      ptsW simPts wc2 ≤ ptsW simPts wc1 ∧
      ptsW simPts s2 ≤ ptsW simPts s1 ∧
      divisionOf getDiv x1 = divisionOf getDiv s1 ∧
      divisionOf getDiv y1 = divisionOf getDiv s1 ∧
      divisionOf getDiv x2 = divisionOf getDiv s2 ∧
      divisionOf getDiv y2 = divisionOf getDiv s2 ∧
      divisionOf getDiv s1 ≠ divisionOf getDiv s2 ∧
      ptsW simPts x1 ≤ ptsW simPts s1 ∧ ptsW simPts y1 ≤ ptsW simPts x1 ∧
      ptsW simPts x2 ≤ ptsW simPts s2 ∧ ptsW simPts y2 ≤ ptsW simPts x2 ∧
      (∀ t ∈ confTeams, divisionOf getDiv t = divisionOf getDiv s1 →
        ptsW simPts t ≤ ptsW simPts s1) ∧
      (∀ t ∈ confTeams, divisionOf getDiv t = divisionOf getDiv s2 →
        ptsW simPts t ≤ ptsW simPts s2) := by
  have hkeyA : ∀ x ∈ lA, divisionOf getDiv x = dA := fun x hx =>
    groupByKey_forall_key (divisionOf getDiv) confTeams (dA, lA)
      (by rw [hg]; exact List.mem_cons_self _ _) x hx
  have hkeyB : ∀ x ∈ lB, divisionOf getDiv x = dB := fun x hx =>
    groupByKey_forall_key (divisionOf getDiv) confTeams (dB, lB)
      (by rw [hg]; exact List.mem_cons_of_mem _ (List.mem_cons_self _ _)) x hx
  have hABne : dA ≠ dB := by
    have hk := groupByKey_keys_nodup (divisionOf getDiv) confTeams
    rw [hg] at hk
    simp only [List.map_cons, List.map_nil, List.nodup_cons,
      List.mem_singleton, List.not_mem_nil, or_false] at hk
    exact hk.1
  have hflat : (lA ++ lB).Perm confTeams := by
    have h2 := groupByKey_flatten_perm (divisionOf getDiv) confTeams
    rw [hg] at h2
    simpa using h2
  have hpA : (sortByPtsDesc simPts lA).Perm lA := List.perm_insertionSort _ _
  have hpB : (sortByPtsDesc simPts lB).Perm lB := List.perm_insertionSort _ _
  have hsortA0 : List.Sorted (ptsGe simPts) (sortByPtsDesc simPts lA) :=
    List.sorted_insertionSort _ _
  have hsortB0 : List.Sorted (ptsGe simPts) (sortByPtsDesc simPts lB) :=
    List.sorted_insertionSort _ _
  have hlenA : (sortByPtsDesc simPts lA).length = lA.length := hpA.length_eq
  have hlenB : (sortByPtsDesc simPts lB).length = lB.length := hpB.length_eq
  have hlenConf : lA.length + lB.length = confTeams.length := by
    rw [← hflat.length_eq, List.length_append]
  obtain ⟨a0, a1, a2, htA⟩ : ∃ x y z,
      (sortByPtsDesc simPts lA).take 3 = [x, y, z] :=
    List.length_eq_three.1 (by rw [List.length_take, hlenA]; omega)
  obtain ⟨b0, b1, b2, htB⟩ : ∃ x y z,
      (sortByPtsDesc simPts lB).take 3 = [x, y, z] :=
    List.length_eq_three.1 (by rw [List.length_take, hlenB]; omega)
  have hlenR : ((sortByPtsDesc simPts lA).drop 3 ++
      (sortByPtsDesc simPts lB).drop 3).length = confTeams.length - 6 := by
    rw [List.length_append, List.length_drop, List.length_drop, hlenA, hlenB]
    omega
  have hpS : (sortByPtsDesc simPts ((sortByPtsDesc simPts lA).drop 3 ++
      (sortByPtsDesc simPts lB).drop 3)).Perm
      ((sortByPtsDesc simPts lA).drop 3 ++ (sortByPtsDesc simPts lB).drop 3) :=
    List.perm_insertionSort _ _
  have hlenS : (sortByPtsDesc simPts ((sortByPtsDesc simPts lA).drop 3 ++
      (sortByPtsDesc simPts lB).drop 3)).length = confTeams.length - 6 := by
    rw [hpS.length_eq]
    exact hlenR
  obtain ⟨w1, w2, htW⟩ : ∃ x y,
      (sortByPtsDesc simPts ((sortByPtsDesc simPts lA).drop 3 ++
        (sortByPtsDesc simPts lB).drop 3)).take 2 = [x, y] :=
    List.length_eq_two.1 (by rw [List.length_take, hlenS]; omega)
  have hQ : selectPlayoffTeams getDiv confTeams simPts =
      [a0, a1, a2, b0, b1, b2, w1, w2] := by
    unfold selectPlayoffTeams
    rw [hg]
    simp only [List.map_cons, List.map_nil, List.flatten_cons,
      List.flatten_nil, List.append_nil]
    rw [htA, htB, htW]
    simp
  have hdecA : sortByPtsDesc simPts lA =
      [a0, a1, a2] ++ (sortByPtsDesc simPts lA).drop 3 := by
    rw [← htA, List.take_append_drop]
  have hdecB : sortByPtsDesc simPts lB =
      [b0, b1, b2] ++ (sortByPtsDesc simPts lB).drop 3 := by
    rw [← htB, List.take_append_drop]
  have hdecW : sortByPtsDesc simPts ((sortByPtsDesc simPts lA).drop 3 ++
      (sortByPtsDesc simPts lB).drop 3) =
      [w1, w2] ++ (sortByPtsDesc simPts ((sortByPtsDesc simPts lA).drop 3 ++
        (sortByPtsDesc simPts lB).drop 3)).drop 2 := by
    rw [← htW, List.take_append_drop]
  have hsA1 := hsortA0
  rw [hdecA] at hsA1
  simp only [List.cons_append, List.nil_append] at hsA1
  obtain ⟨hA0, hsA2⟩ := List.sorted_cons.1 hsA1
  obtain ⟨hA1, hsA3⟩ := List.sorted_cons.1 hsA2
  obtain ⟨hA2, hsA4⟩ := List.sorted_cons.1 hsA3
  have hsB1 := hsortB0
  rw [hdecB] at hsB1
  simp only [List.cons_append, List.nil_append] at hsB1
  obtain ⟨hB0, hsB2⟩ := List.sorted_cons.1 hsB1
  obtain ⟨hB1, hsB3⟩ := List.sorted_cons.1 hsB2
  obtain ⟨hB2, hsB4⟩ := List.sorted_cons.1 hsB3
  have hsW1 : List.Sorted (ptsGe simPts)
      ([w1, w2] ++ (sortByPtsDesc simPts ((sortByPtsDesc simPts lA).drop 3 ++
        (sortByPtsDesc simPts lB).drop 3)).drop 2) := by
    rw [← hdecW]
    exact List.sorted_insertionSort _ _
  simp only [List.cons_append, List.nil_append] at hsW1
  obtain ⟨hW0, hsW2⟩ := List.sorted_cons.1 hsW1
  obtain ⟨hW1, hsW3⟩ := List.sorted_cons.1 hsW2
  have hw21 : ptsW simPts w2 ≤ ptsW simPts w1 :=
    hW0 w2 (List.mem_cons_self _ _)
  -- membership and division facts for the trio members
  have hmemA : ∀ x ∈ [a0, a1, a2], x ∈ lA := by
    intro x hx
    refine hpA.subset ?_
    rw [hdecA]
    exact List.mem_append_left _ hx
  have hmemB : ∀ x ∈ [b0, b1, b2], x ∈ lB := by
    intro x hx
    refine hpB.subset ?_
    rw [hdecB]
    exact List.mem_append_left _ hx
  have hda0 : divisionOf getDiv a0 = dA := hkeyA a0 (hmemA a0 (by simp))
  have hda1 : divisionOf getDiv a1 = dA := hkeyA a1 (hmemA a1 (by simp))
  have hda2 : divisionOf getDiv a2 = dA := hkeyA a2 (hmemA a2 (by simp))
  have hdb0 : divisionOf getDiv b0 = dB := hkeyB b0 (hmemB b0 (by simp))
  have hdb1 : divisionOf getDiv b1 = dB := hkeyB b1 (hmemB b1 (by simp))
  have hdb2 : divisionOf getDiv b2 = dB := hkeyB b2 (hmemB b2 (by simp))
  -- wildcards come from the leftovers of one of the two divisions
  have hwMem : ∀ w ∈ [w1, w2],
      w ∈ (sortByPtsDesc simPts lA).drop 3 ∨
      w ∈ (sortByPtsDesc simPts lB).drop 3 := by
    intro w hw
    have h2 : w ∈ sortByPtsDesc simPts ((sortByPtsDesc simPts lA).drop 3 ++
        (sortByPtsDesc simPts lB).drop 3) := by
      rw [hdecW]
      exact List.mem_append_left _ hw
    exact List.mem_append.1 (hpS.subset h2)
  have hdropA : ∀ x ∈ (sortByPtsDesc simPts lA).drop 3,
      divisionOf getDiv x = dA ∧ ptsW simPts x ≤ ptsW simPts a2 := by
    intro x hx
    refine ⟨hkeyA x (hpA.subset (List.drop_subset _ _ hx)), hA2 x hx⟩
  have hdropB : ∀ x ∈ (sortByPtsDesc simPts lB).drop 3,
      divisionOf getDiv x = dB ∧ ptsW simPts x ≤ ptsW simPts b2 := by
    intro x hx
    refine ⟨hkeyB x (hpB.subset (List.drop_subset _ _ hx)), hB2 x hx⟩
  -- the selected eight followed by the unselected rest permutes the input
  have hbig : ([a0, a1, a2, b0, b1, b2, w1, w2] ++
      (sortByPtsDesc simPts ((sortByPtsDesc simPts lA).drop 3 ++
        (sortByPtsDesc simPts lB).drop 3)).drop 2).Perm confTeams := by
    have e1 : [a0, a1, a2, b0, b1, b2, w1, w2] ++
        (sortByPtsDesc simPts ((sortByPtsDesc simPts lA).drop 3 ++
          (sortByPtsDesc simPts lB).drop 3)).drop 2 =
        [a0, a1, a2] ++ ([b0, b1, b2] ++
          sortByPtsDesc simPts ((sortByPtsDesc simPts lA).drop 3 ++
            (sortByPtsDesc simPts lB).drop 3)) := by
      rw [hdecW]
      simp
    rw [e1]
    have p1 : ([b0, b1, b2] ++ sortByPtsDesc simPts
        ((sortByPtsDesc simPts lA).drop 3 ++ (sortByPtsDesc simPts lB).drop 3)).Perm
        ((sortByPtsDesc simPts lA).drop 3 ++
          ([b0, b1, b2] ++ (sortByPtsDesc simPts lB).drop 3)) := by
      refine (List.Perm.append_left [b0, b1, b2] hpS).trans ?_
      rw [← List.append_assoc, ← List.append_assoc]
      exact List.Perm.append_right _ List.perm_append_comm
    refine (List.Perm.append_left [a0, a1, a2] p1).trans ?_
    rw [← List.append_assoc]
    have e2 : ([a0, a1, a2] ++ (sortByPtsDesc simPts lA).drop 3) ++
        ([b0, b1, b2] ++ (sortByPtsDesc simPts lB).drop 3) =
        sortByPtsDesc simPts lA ++ sortByPtsDesc simPts lB := by
      rw [← hdecA, ← hdecB]
    rw [e2]
    exact (hpA.append hpB).trans hflat
  have hnd8 : (([a0, a1, a2, b0, b1, b2, w1, w2] : List TeamSeason).map
      TeamSeason.team).Nodup := by
    have h2 : ((([a0, a1, a2, b0, b1, b2, w1, w2] ++
        (sortByPtsDesc simPts ((sortByPtsDesc simPts lA).drop 3 ++
          (sortByPtsDesc simPts lB).drop 3)).drop 2)).map TeamSeason.team).Nodup := by
      rw [(hbig.map TeamSeason.team).nodup_iff]
      exact hnd
    rw [List.map_append] at h2
    exact h2.of_append_left
  have hsww : List.Sorted (ptsGe simPts) [w1, w2] := by
    simp [List.sorted_cons, ptsGe, hw21]
  have hpa01 : ptsW simPts a1 ≤ ptsW simPts a0 := hA0 a1 (by simp)
  have hpa12 : ptsW simPts a2 ≤ ptsW simPts a1 := hA1 a2 (by simp)
  have hpb01 : ptsW simPts b1 ≤ ptsW simPts b0 := hB0 b1 (by simp)
  have hpb12 : ptsW simPts b2 ≤ ptsW simPts b1 := hB1 b2 (by simp)
  have hmaxA : ∀ t ∈ confTeams, divisionOf getDiv t = dA →
      ptsW simPts t ≤ ptsW simPts a0 := by
    intro t ht hdiv
    rcases List.mem_append.1 (hflat.symm.subset ht) with h2 | h2
    · have h3 : t ∈ sortByPtsDesc simPts lA := (hpA.mem_iff).2 h2
      rw [hdecA] at h3
      rcases List.mem_append.1 h3 with h4 | h4
      · rcases List.mem_cons.1 h4 with rfl | h5
        · exact le_refl _
        · rcases List.mem_cons.1 h5 with rfl | h6
          · exact hpa01
          · simp only [List.mem_singleton] at h6
            subst h6
            exact le_trans hpa12 hpa01
      · exact le_trans (hA2 t h4) (le_trans hpa12 hpa01)
    · have h3 := hkeyB t h2
      rw [h3] at hdiv
      exact absurd hdiv.symm hABne
  have hmaxB : ∀ t ∈ confTeams, divisionOf getDiv t = dB →
      ptsW simPts t ≤ ptsW simPts b0 := by
    intro t ht hdiv
    rcases List.mem_append.1 (hflat.symm.subset ht) with h2 | h2
    · have h3 := hkeyA t h2
      rw [h3] at hdiv
      exact absurd hdiv hABne
    · have h3 : t ∈ sortByPtsDesc simPts lB := (hpB.mem_iff).2 h2
      rw [hdecB] at h3
      rcases List.mem_append.1 h3 with h4 | h4
      · rcases List.mem_cons.1 h4 with rfl | h5
        · exact le_refl _
        · rcases List.mem_cons.1 h5 with rfl | h6
          · exact hpb01
          · simp only [List.mem_singleton] at h6
            subst h6
            exact le_trans hpb12 hpb01
      · exact le_trans (hB2 t h4) (le_trans hpb12 hpb01)
  have hM : (seedConference getDiv [a0, a1, a2, b0, b1, b2, w1, w2] simPts =
        [(a0.team, w2.team), (a1.team, a2.team), (b0.team, w1.team),
         (b1.team, b2.team)] ∧ ptsW simPts b0 ≤ ptsW simPts a0) ∨
      (seedConference getDiv [a0, a1, a2, b0, b1, b2, w1, w2] simPts =
        [(b0.team, w2.team), (b1.team, b2.team), (a0.team, w1.team),
         (a1.team, a2.team)] ∧ ptsW simPts a0 ≤ ptsW simPts b0) := by
    rcases hwMem w1 (by simp) with hw1m | hw1m <;>
      rcases hwMem w2 (by simp) with hw2m | hw2m
    · refine seedConference_eight getDiv simPts dA dB hABne a0 a1 a2 b0 b1 b2
        w1 w2 [w1, w2] [] (Or.inr (Or.inr (Or.inr ⟨rfl, rfl⟩))) ?_ ?_ ?_
        hw21 hnd8
      · simp [groupByKey, addToGroup, hda0, hda1, hda2, hdb0, hdb1, hdb2,
          (hdropA w1 hw1m).1, (hdropA w2 hw2m).1, hABne, Ne.symm hABne]
      · refine sorted_three_append simPts a0 a1 a2 [w1, w2] hpa01 hpa12 ?_ hsww
        intro w hw
        rcases List.mem_cons.1 hw with h | hw
        · rw [h]
          exact (hdropA w1 hw1m).2
        · simp only [List.mem_singleton] at hw
          rw [hw]
          exact (hdropA w2 hw2m).2
      · exact sorted_three_append simPts b0 b1 b2 [] hpb01 hpb12
          (by simp) List.sorted_nil
    · refine seedConference_eight getDiv simPts dA dB hABne a0 a1 a2 b0 b1 b2
        w1 w2 [w1] [w2] (Or.inr (Or.inl ⟨rfl, rfl⟩)) ?_ ?_ ?_ hw21 hnd8
      · simp [groupByKey, addToGroup, hda0, hda1, hda2, hdb0, hdb1, hdb2,
          (hdropA w1 hw1m).1, (hdropB w2 hw2m).1, hABne, Ne.symm hABne]
      · refine sorted_three_append simPts a0 a1 a2 [w1] hpa01 hpa12 ?_
          (List.sorted_singleton _)
        intro w hw
        simp only [List.mem_singleton] at hw
        rw [hw]
        exact (hdropA w1 hw1m).2
      · refine sorted_three_append simPts b0 b1 b2 [w2] hpb01 hpb12 ?_
          (List.sorted_singleton _)
        intro w hw
        simp only [List.mem_singleton] at hw
        rw [hw]
        exact (hdropB w2 hw2m).2
    · refine seedConference_eight getDiv simPts dA dB hABne a0 a1 a2 b0 b1 b2
        w1 w2 [w2] [w1] (Or.inr (Or.inr (Or.inl ⟨rfl, rfl⟩))) ?_ ?_ ?_
        hw21 hnd8
      · simp [groupByKey, addToGroup, hda0, hda1, hda2, hdb0, hdb1, hdb2,
          (hdropB w1 hw1m).1, (hdropA w2 hw2m).1, hABne, Ne.symm hABne]
      · refine sorted_three_append simPts a0 a1 a2 [w2] hpa01 hpa12 ?_
          (List.sorted_singleton _)
        intro w hw
        simp only [List.mem_singleton] at hw
        rw [hw]
        exact (hdropA w2 hw2m).2
      · refine sorted_three_append simPts b0 b1 b2 [w1] hpb01 hpb12 ?_
          (List.sorted_singleton _)
        intro w hw
        simp only [List.mem_singleton] at hw
        rw [hw]
        exact (hdropB w1 hw1m).2
    · refine seedConference_eight getDiv simPts dA dB hABne a0 a1 a2 b0 b1 b2
        w1 w2 [] [w1, w2] (Or.inl ⟨rfl, rfl⟩) ?_ ?_ ?_ hw21 hnd8
      · simp [groupByKey, addToGroup, hda0, hda1, hda2, hdb0, hdb1, hdb2,
          (hdropB w1 hw1m).1, (hdropB w2 hw2m).1, hABne, Ne.symm hABne]
      · exact sorted_three_append simPts a0 a1 a2 [] hpa01 hpa12
          (by simp) List.sorted_nil
      · refine sorted_three_append simPts b0 b1 b2 [w1, w2] hpb01 hpb12 ?_ hsww
        intro w hw
        rcases List.mem_cons.1 hw with h | hw
        · rw [h]
          exact (hdropB w1 hw1m).2
        · simp only [List.mem_singleton] at hw
          rw [hw]
          exact (hdropB w2 hw2m).2
  rw [hQ]
  rcases hM with ⟨hMeq, hle⟩ | ⟨hMeq, hle⟩
  · refine ⟨rfl, hnd8, seedConference_length _ _ _, ?_,
      a0, a1, a2, b0, b1, b2, w1, w2, Or.inl rfl, hMeq, hw21, hle,
      by rw [hda1, hda0], by rw [hda2, hda0], by rw [hdb1, hdb0],
      by rw [hdb2, hdb0], by rw [hda0, hdb0]; exact hABne,
      hpa01, hpa12, hpb01, hpb12,
      fun t ht hd => hmaxA t ht (by rw [← hda0]; exact hd),
      fun t ht hd => hmaxB t ht (by rw [← hdb0]; exact hd)⟩
    rw [hMeq]
    simp only [List.map_cons, List.map_nil, List.flatten_cons,
      List.flatten_nil, List.append_nil, List.cons_append, List.nil_append]
    exact eight_flatten_perm a0.team a1.team a2.team b0.team b1.team b2.team
      w1.team w2.team
  · refine ⟨rfl, hnd8, seedConference_length _ _ _, ?_,
      b0, b1, b2, a0, a1, a2, w1, w2, Or.inr rfl, hMeq, hw21, hle,
      by rw [hdb1, hdb0], by rw [hdb2, hdb0], by rw [hda1, hda0],
      by rw [hda2, hda0], by rw [hdb0, hda0]; exact Ne.symm hABne,
      hpb01, hpb12, hpa01, hpa12,
      fun t ht hd => hmaxB t ht (by rw [← hdb0]; exact hd),
      fun t ht hd => hmaxA t ht (by rw [← hda0]; exact hd)⟩
    rw [hMeq]
    simp only [List.map_cons, List.map_nil, List.flatten_cons,
      List.flatten_nil, List.append_nil, List.cons_append, List.nil_append]
    exact (eight_flatten_perm b0.team b1.team b2.team a0.team a1.team a2.team
      w1.team w2.team).trans
      (List.Perm.append_right [w1.team, w2.team]
        (@List.perm_append_comm String [b0.team, b1.team, b2.team]
          [a0.team, a1.team, a2.team]))

/-- Witness: a two-division, eight-team conference satisfies the grouping
hypotheses and so gets a full valid bracket. -/
theorem c1_witness :
    (groupByKey (divisionOf (fun _ => "X")) c1Teams =
      [("DivA", [⟨"A1", "DivA", 100, 82, 0⟩, ⟨"A2", "DivA", 90, 82, 0⟩,
                 ⟨"A3", "DivA", 80, 82, 0⟩, ⟨"A4", "DivA", 20, 82, 0⟩]),
       ("DivB", [⟨"B1", "DivB", 95, 82, 0⟩, ⟨"B2", "DivB", 85, 82, 0⟩,
                 ⟨"B3", "DivB", 75, 82, 0⟩, ⟨"B4", "DivB", 70, 82, 0⟩])]) ∧
    ((selectPlayoffTeams (fun _ => "X") c1Teams (fun _ => none)).length = 8 ∧
    ((selectPlayoffTeams (fun _ => "X") c1Teams (fun _ => none)).map
      TeamSeason.team).Nodup ∧
    (seedConference (fun _ => "X")
      (selectPlayoffTeams (fun _ => "X") c1Teams (fun _ => none))
      (fun _ => none)).length = 4 ∧
    ((seedConference (fun _ => "X")
      (selectPlayoffTeams (fun _ => "X") c1Teams (fun _ => none))
      (fun _ => none)).map (fun m => [m.1, m.2])).flatten.Perm
      ((selectPlayoffTeams (fun _ => "X") c1Teams (fun _ => none)).map
        TeamSeason.team) ∧
    ∃ s1 x1 y1 s2 x2 y2 wc1 wc2 : TeamSeason,
      (selectPlayoffTeams (fun _ => "X") c1Teams (fun _ => none) =
          [s1, x1, y1, s2, x2, y2, wc1, wc2] ∨
        selectPlayoffTeams (fun _ => "X") c1Teams (fun _ => none) =
          [s2, x2, y2, s1, x1, y1, wc1, wc2]) ∧
      seedConference (fun _ => "X")
        (selectPlayoffTeams (fun _ => "X") c1Teams (fun _ => none))
        (fun _ => none) = [(s1.team, wc2.team), (x1.team, y1.team),
          (s2.team, wc1.team), (x2.team, y2.team)] ∧
      ptsW (fun _ => none) wc2 ≤ ptsW (fun _ => none) wc1 ∧
      ptsW (fun _ => none) s2 ≤ ptsW (fun _ => none) s1 ∧
      divisionOf (fun _ => "X") x1 = divisionOf (fun _ => "X") s1 ∧
      divisionOf (fun _ => "X") y1 = divisionOf (fun _ => "X") s1 ∧
      divisionOf (fun _ => "X") x2 = divisionOf (fun _ => "X") s2 ∧
      divisionOf (fun _ => "X") y2 = divisionOf (fun _ => "X") s2 ∧
      divisionOf (fun _ => "X") s1 ≠ divisionOf (fun _ => "X") s2 ∧
      ptsW (fun _ => none) x1 ≤ ptsW (fun _ => none) s1 ∧
      ptsW (fun _ => none) y1 ≤ ptsW (fun _ => none) x1 ∧
      ptsW (fun _ => none) x2 ≤ ptsW (fun _ => none) s2 ∧
      ptsW (fun _ => none) y2 ≤ ptsW (fun _ => none) x2 ∧
      (∀ t ∈ c1Teams, divisionOf (fun _ => "X") t =
          divisionOf (fun _ => "X") s1 →
        ptsW (fun _ => none) t ≤ ptsW (fun _ => none) s1) ∧
      (∀ t ∈ c1Teams, divisionOf (fun _ => "X") t =
          divisionOf (fun _ => "X") s2 →
        ptsW (fun _ => none) t ≤ ptsW (fun _ => none) s2)) :=
  ⟨by decide,
   c1_selection_and_seeding (fun _ => "X") c1Teams (fun _ => none)
     "DivA" "DivB"
     [⟨"A1", "DivA", 100, 82, 0⟩, ⟨"A2", "DivA", 90, 82, 0⟩,
      ⟨"A3", "DivA", 80, 82, 0⟩, ⟨"A4", "DivA", 20, 82, 0⟩]
     [⟨"B1", "DivB", 95, 82, 0⟩, ⟨"B2", "DivB", 85, 82, 0⟩,
      ⟨"B3", "DivB", 75, 82, 0⟩, ⟨"B4", "DivB", 70, 82, 0⟩]
     (by decide) (by decide) (by decide) (by decide) (by decide)⟩
